import Mathlib

/-
  Verification development for the GLIMPSE personalized knowledge-graph
  summarization system.

  Shallow embedding of:
  - src/base.py    (KnowledgeGraph store, adjacency and transition matrices,
                    value annotations, model_user_pref)
  - src/algorithms.py (query_vector, random_walk_with_restart)
  - src/heap.py    (lazy "heap" candidate structure, CPython heapq semantics)
  - src/glimpse.py (Summary, marginal_value, fill, GLIMPSE)
  - src/query.py   (answer_query, generate_query)

  Modelling conventions:
  - Python floats are modelled exactly: rational arithmetic for everything the
    code computes from rational data, with the single non-rational operation
    (np.log) kept symbolic over the reals.  IEEE non-finite results (NaN from
    0/0, inf from x/0) are collapsed into the `none` value of `Option`; every
    arithmetic operation propagates `none`, and every ordered comparison
    involving `none` is false, exactly as IEEE comparisons with NaN.
  - Python dicts with default (defaultdict(float)) are total functions;
    dicts without default are Option-valued lookups, `none` modelling KeyError.
  - Python exceptions escaping a function are modelled by an Option/none
    result of that function.
  - np.random.randint(0, n, size=m) is modelled by an oracle stream of natural
    draws, each reduced mod n; random.choice(lst) picks lst[draw % len(lst)].
  - Python sets are modelled by deduplicated lists in first-insertion order;
    no theorem below depends on a particular set-iteration order.
-/

namespace GlimpseKG

/-- A triple (subject entity, relation, object entity), all opaque labels. -/
abbrev Triple := String × String × String

/-- The KnowledgeGraph store of src/base.py.  `entities_` is kept in
insertion order, so the dense integer ID of an entity is its index
(the source's `entity_id_` / `id_entity_` dicts driven by the `eid_` counter).
`triples_` is the flat, deduplicated triple list in insertion order (the flat
view of the source's nested dict `subject -> relation -> set of objects`;
the two are mutually derivable).  The value annotations are the
`defaultdict(float)` maps set up by `reset()`; `none` models float NaN. -/
structure KnowledgeGraph where
  entities_ : List String
  relationships_ : List String
  triples_ : List Triple
  entity_value_ : String → Option ℝ
  triple_value_ : Triple → Option ℝ

/-- A fresh KnowledgeGraph (`__init__`). -/
def emptyKG : KnowledgeGraph :=
  { entities_ := [], relationships_ := [], triples_ := [],
    entity_value_ := fun _ => some 0, triple_value_ := fun _ => some 0 }

/-- Record an entity on first insertion (`entity_id_[entity] = eid_; ...`). -/
def addEntity (l : List String) (e : String) : List String :=
  if e ∈ l then l else l ++ [e]

/-- KnowledgeGraph.has_entity. -/
def KnowledgeGraph.has_entity (G : KnowledgeGraph) (e : String) : Prop :=
  e ∈ G.entities_

instance (G : KnowledgeGraph) (e : String) : Decidable (G.has_entity e) :=
  inferInstanceAs (Decidable (e ∈ G.entities_))

/-- KnowledgeGraph.has_triple. -/
def KnowledgeGraph.has_triple (G : KnowledgeGraph) (t : Triple) : Prop :=
  t ∈ G.triples_

instance (G : KnowledgeGraph) (t : Triple) : Decidable (G.has_triple t) :=
  inferInstanceAs (Decidable (t ∈ G.triples_))

/-- KnowledgeGraph.add_triple: idempotent insertion; records the relation,
records previously-unseen entities (subject first, then object, so IDs are
assigned in that order), and stores the triple. -/
def KnowledgeGraph.add_triple (G : KnowledgeGraph) (t : Triple) : KnowledgeGraph :=
  if G.has_triple t then G
  else
    { G with
      relationships_ :=
        if t.2.1 ∈ G.relationships_ then G.relationships_ else G.relationships_ ++ [t.2.1],
      entities_ := addEntity (addEntity G.entities_ t.1) t.2.2,
      triples_ := G.triples_ ++ [t] }

/-- KnowledgeGraph.number_of_triples (the `number_of_triples_` counter, which
always equals the size of the deduplicated triple set). -/
def KnowledgeGraph.number_of_triples (G : KnowledgeGraph) : ℕ := G.triples_.length

/-- KnowledgeGraph.number_of_entities. -/
def KnowledgeGraph.number_of_entities (G : KnowledgeGraph) : ℕ := G.entities_.length

/-- The `entity_id_` dict: label to dense ID; `none` models the KeyError
raised on a label never inserted. -/
def KnowledgeGraph.entity_id_ (G : KnowledgeGraph) (e : String) : Option ℕ :=
  G.entities_.findIdx? (fun x => x == e)

/-- The `id_entity_` dict: dense ID to label; `none` models the KeyError
raised on an ID never assigned. -/
def KnowledgeGraph.id_entity_ (G : KnowledgeGraph) (i : ℕ) : Option String :=
  G.entities_.get? i

/-- Total-function view of `entity_id` used inside csr_matrix /
transition_matrix / model_user_pref, where every looked-up label is an entity
of the graph (so the KeyError branch is unreachable); the default is the
out-of-range value `number_of_entities`. -/
def KnowledgeGraph.eid (G : KnowledgeGraph) (e : String) : ℕ :=
  (G.entity_id_ e).getD G.number_of_entities

/-- KnowledgeGraph.entity_value: a `defaultdict(float)` read — total, never
raises, returns 0.0 (`some 0`) for keys never written. -/
def KnowledgeGraph.entity_value (G : KnowledgeGraph) (e : String) : Option ℝ :=
  G.entity_value_ e

/-- KnowledgeGraph.triple_value: same defaultdict(float) contract. -/
def KnowledgeGraph.triple_value (G : KnowledgeGraph) (t : Triple) : Option ℝ :=
  G.triple_value_ t

/-- KnowledgeGraph.reset: sets all values to 0 (fresh defaultdict(float)s). -/
def KnowledgeGraph.reset (G : KnowledgeGraph) : KnowledgeGraph :=
  { G with entity_value_ := fun _ => some 0, triple_value_ := fun _ => some 0 }

/-- Bulk ingestion: a KnowledgeGraph built by add_triple from a fresh store
(the lifecycle of every graph the system works with). -/
def buildKG (ts : List Triple) : KnowledgeGraph :=
  ts.foldl KnowledgeGraph.add_triple emptyKG

/-- The flat triple set `KG.triples()`. -/
def KnowledgeGraph.triplesFinset (G : KnowledgeGraph) : Finset Triple :=
  G.triples_.toFinset

/-! Query records, following the WebQSP JSON layout of src/query.py
(the `Parse` sub-dict is flattened into the record). -/

/-- One entry of `Parse.Constraints`. -/
structure ConstraintRec where
  sourceNodeIndex : ℕ
  nodePredicate : String
  argument : String
  entityName : String
deriving DecidableEq

/-- One entry of `Parse.Answers`. -/
structure AnswerRec where
  answerType : String
  answerArgument : String
  entityName : String
deriving DecidableEq

/-- A query in WebQSP dict format. -/
structure QueryRec where
  questionId : String
  topicEntityMid : String
  topicEntityName : String
  inferentialChain : List String
  constraints : List ConstraintRec
  answers : List AnswerRec
deriving DecidableEq

/-- get_name of src/query.py: `entity_names[mid] if mid in entity_names else mid`. -/
def get_name (mid : String) (entity_names : String → Option String) : String :=
  (entity_names mid).getD mid

/-- The head-adjacency test `entity in KG` (the `__contains__` of the nested
triple dict: does this entity have any outgoing triple). -/
def KnowledgeGraph.isHead (G : KnowledgeGraph) (e : String) : Bool :=
  G.triples_.any (fun t => t.1 == e)

/-- The test `predicate in KG[entity]`. -/
def KnowledgeGraph.hasPred (G : KnowledgeGraph) (e p : String) : Bool :=
  G.triples_.any (fun t => t.1 == e && t.2.1 == p)

/-- The object set `KG[entity][predicate]`, as a deduplicated list in
first-insertion order. -/
def KnowledgeGraph.nbrsList (G : KnowledgeGraph) (e p : String) : List String :=
  ((G.triples_.filter (fun t => t.1 == e && t.2.1 == p)).map (fun t => t.2.2)).dedup

/-- The predicate list `KG[entity]` keys, in first-insertion order (Python
dicts preserve insertion order). -/
def KnowledgeGraph.headPreds (G : KnowledgeGraph) (e : String) : List String :=
  ((G.triples_.filter (fun t => t.1 == e)).map (fun t => t.2.1)).dedup

/-- Set union `a.update(b)` on deduplicated lists. -/
def unionL (a b : List String) : List String :=
  a ++ b.filter (fun x => !(a.contains x))

/-- The three-part failure test of a constraint against a candidate entity:
`entity not in KG or predicate not in KG[entity] or
 argument not in KG[entity][predicate]`.
This exact test appears verbatim both in answer_query and in generate_query
(which must share identical constraint-application semantics). -/
def failsConstraint (G : KnowledgeGraph) (pred arg e : String) : Bool :=
  !(G.isHead e) || !(G.hasPred e pred) ||
    !(G.triples_.any (fun t => t.1 == e && t.2.1 == pred && t.2.2 == arg))

/-- The candidate-collection step shared by answer_query and generate_query:
union of `KG[entity][predicate]` over the current result set. -/
def hopCandidates (G : KnowledgeGraph) (result : List String) (predicate : String) :
    List String :=
  result.foldl (fun acc e =>
    if G.isHead e && G.hasPred e predicate then unionL acc (G.nbrsList e predicate) else acc) []

/-- One hop of answer_query: collect candidates over the current result set
via `predicate`, build the `remove` set of candidates failing some constraint
registered at this hop, and take the difference. -/
def hopStep (G : KnowledgeGraph) (cs : List ConstraintRec) (result : List String)
    (predicate : String) : List String :=
  let candidates := hopCandidates G result predicate
  let remove := candidates.filter (fun e =>
    cs.any (fun c => failsConstraint G c.nodePredicate c.argument e))
  candidates.filter (fun e => !(remove.contains e))

/-- The hop loop of answer_query (`for index, predicate in
enumerate(inferential_chain)`), with the defaultdict grouping of constraints
by SourceNodeIndex expressed as a filter at each index. -/
def ansLoop (G : KnowledgeGraph) (cons : List ConstraintRec) :
    List String → ℕ → List String → List String
  | [], _, result => result
  | p :: ps, index, result =>
      ansLoop G cons ps (index + 1)
        (hopStep G (cons.filter (fun c => c.sourceNodeIndex == index)) result p)

/-- answer_query of src/query.py: traverse the inferential chain from the
topic entity, filtering by per-hop constraints; the topic entity is excluded
from the final answer set. -/
def answer_query (G : KnowledgeGraph) (q : QueryRec) : List String :=
  (ansLoop G q.constraints q.inferentialChain 0 [q.topicEntityMid]).filter
    (fun e => !(e == q.topicEntityMid))

/-- random.choice(lst) driven by one oracle draw: index = draw mod length. -/
def chooseL (l : List String) (d : ℕ) : String :=
  l.getD (d % l.length) ""

/-- The chain-building walk of generate_query: up to `chain_len` hops, each
picking a random predicate of the current entity (excluding `exclude_preds`)
and then a random object, stopping early when no predicate is available.
Returns the chain together with the next oracle position. -/
def buildChain (G : KnowledgeGraph) (oracle : ℕ → ℕ) (exclude_preds : List String) :
    ℕ → String → ℕ → List String × ℕ
  | 0, _, pos => ([], pos)
  | fuel + 1, entity, pos =>
      let predicates :=
        if G.isHead entity then (G.headPreds entity).filter (fun p => !(exclude_preds.contains p))
        else []
      if predicates.isEmpty then ([], pos)
      else
        let predicate := chooseL predicates (oracle pos)
        let entities := G.nbrsList entity predicate
        let e2 := chooseL entities (oracle (pos + 1))
        let (rest, pos2) := buildChain G oracle exclude_preds fuel e2 (pos + 2)
        (predicate :: rest, pos2)

/-- The constraint filter of generate_query (textually the same remove-loop
as in answer_query, specialized to the one freshly created constraint). -/
def applyGenConstraint (G : KnowledgeGraph) (pred arg : String) (candidates : List String) :
    List String :=
  let remove := candidates.filter (fun e => failsConstraint G pred arg e)
  candidates.filter (fun e => !(remove.contains e))

/-- The answer-computation loop of generate_query: same hop structure as
answer_query, but when the hop index equals `constraint_index` and the
candidate set is non-empty it may create one constraint (random candidate
entity, random predicate outside the chain and the exclusions, random
argument) and immediately filter the candidates by it.  Returns the final
result set, the created constraints, and the next oracle position. -/
def genLoop (G : KnowledgeGraph) (oracle : ℕ → ℕ) (exclude_preds : List String)
    (entity_names : String → Option String) (constraint_index : Option ℕ)
    (fullChain : List String) :
    List String → ℕ → List String → ℕ → List String × List ConstraintRec × ℕ
  | [], _, result, pos => (result, [], pos)
  | predicate :: ps, index, result, pos =>
      let candidates := hopCandidates G result predicate
      let step : List String × List ConstraintRec × ℕ :=
        if !candidates.isEmpty && constraint_index == some index then
          let entity := chooseL candidates (oracle pos)
          let predicates :=
            if G.isHead entity then
              (G.headPreds entity).filter
                (fun p => !(fullChain.contains p) && !(exclude_preds.contains p))
            else []
          if !predicates.isEmpty then
            let cpred := chooseL predicates (oracle (pos + 1))
            if !(G.nbrsList entity cpred).isEmpty then
              let argument := chooseL (G.nbrsList entity cpred) (oracle (pos + 2))
              let c : ConstraintRec :=
                { sourceNodeIndex := index, nodePredicate := cpred,
                  argument := argument, entityName := get_name entity entity_names }
              (applyGenConstraint G cpred argument candidates, [c], pos + 3)
            else (candidates, [], pos + 2)
          else (candidates, [], pos + 1)
        else (candidates, [], pos)
      let rest := genLoop G oracle exclude_preds entity_names constraint_index fullChain
        ps (index + 1) step.1 step.2.2
      (rest.1, step.2.1 ++ rest.2.1, rest.2.2)

/-- The one-hop body of genLoop as a standalone function (definitionally
the step term of genLoop, named so its four outcomes can be analysed). -/
def genStep (G : KnowledgeGraph) (oracle : ℕ → ℕ) (exclude_preds : List String)
    (entity_names : String → Option String) (constraint_index : Option ℕ)
    (fullChain : List String) (predicate : String) (index : ℕ)
    (result : List String) (pos : ℕ) : List String × List ConstraintRec × ℕ :=
  let candidates := hopCandidates G result predicate
  if !candidates.isEmpty && constraint_index == some index then
    let entity := chooseL candidates (oracle pos)
    let predicates :=
      if G.isHead entity then
        (G.headPreds entity).filter
          (fun p => !(fullChain.contains p) && !(exclude_preds.contains p))
      else []
    if !predicates.isEmpty then
      let cpred := chooseL predicates (oracle (pos + 1))
      if !(G.nbrsList entity cpred).isEmpty then
        let argument := chooseL (G.nbrsList entity cpred) (oracle (pos + 2))
        let c : ConstraintRec :=
          { sourceNodeIndex := index, nodePredicate := cpred,
            argument := argument, entityName := get_name entity entity_names }
        (applyGenConstraint G cpred argument candidates, [c], pos + 3)
      else (candidates, [], pos + 2)
    else (candidates, [], pos + 1)
  else (candidates, [], pos)

/-- generate_query of src/query.py, parametrized by the subclass-specific
`KG.is_entity` test and by the oracle stream driving random.choice. -/
def generate_query (G : KnowledgeGraph) (isEnt : String → Bool) (oracle : ℕ → ℕ)
    (topic_mid : String) (chain_len : ℕ) (qid : ℕ)
    (entity_names : String → Option String) (constraint_index : Option ℕ)
    (exclude_preds : List String) : QueryRec :=
  let built := buildChain G oracle exclude_preds chain_len topic_mid 0
  let inferential_chain := built.1
  let res := genLoop G oracle exclude_preds entity_names constraint_index
    inferential_chain inferential_chain 0 [topic_mid] built.2
  { questionId := toString qid,
    topicEntityMid := topic_mid,
    topicEntityName := get_name topic_mid entity_names,
    inferentialChain := inferential_chain,
    constraints := res.2.1,
    answers := (res.1.filter (fun e => !(e == topic_mid))).map (fun a =>
      { answerType := if isEnt a then "Entity" else "Value",
        answerArgument := a,
        entityName := get_name a entity_names }) }

/-- The set of AnswerArgument values recorded in a query's gold answers. -/
def recordedAnswers (q : QueryRec) : List String :=
  q.answers.map (fun a => a.answerArgument)

/-! Sparse matrices of src/base.py.  scipy's csr_matrix((data, (row, col)))
constructor sums duplicate (row, col) entries; `cooSum` is exactly that
semantics, and a matrix is its entry function. -/

/-- Sum of all COO data entries at position (i, j) — scipy's
duplicate-summing csr_matrix constructor. -/
def cooSum (entries : List (ℕ × ℕ × ℚ)) (i j : ℕ) : ℚ :=
  (entries.filterMap (fun ent =>
    if ent.1 = i ∧ ent.2.1 = j then some ent.2.2 else none)).sum

/-- KnowledgeGraph.csr_matrix: one data entry 1 at
(entity_id(e1), entity_id(e2)) per triple (e1, r, e2); parallel edges through
different relations therefore sum. -/
def KnowledgeGraph.csrMatrix (G : KnowledgeGraph) (i j : ℕ) : ℚ :=
  cooSum (G.triples_.map (fun t => (G.eid t.1, G.eid t.2.2, (1 : ℚ)))) i j

/-- The "degree matrix" D of KnowledgeGraph.transition_matrix: one data entry
per triple at (entity_id(e1), entity_id(e1)), each entry being the
elementwise reciprocal `1 / 1` of the appended datum 1, with duplicates then
summed by the csr constructor — so D[i][i] is the out-degree of entity i. -/
def KnowledgeGraph.degMatrix (G : KnowledgeGraph) (i j : ℕ) : ℚ :=
  cooSum (G.triples_.map (fun t => (G.eid t.1, G.eid t.1, 1 / (1 : ℚ)))) i j

/-- KnowledgeGraph.transition_matrix: the sparse product
`csr_matrix().transpose() * D` restricted to the n×n shape. -/
def KnowledgeGraph.transition_matrix (G : KnowledgeGraph) (i j : ℕ) : ℚ :=
  Finset.sum (Finset.range G.number_of_entities)
    (fun k => G.csrMatrix k i * G.degMatrix k j)

/-- Modelled from the spec (§4.1 column_stochastic_transition, for
comparison with the code): `T = A^T · D^-1` with D the diagonal out-degree
matrix; an entity with zero out-degree yields a zero column. -/
def specTransition (G : KnowledgeGraph) (i j : ℕ) : ℚ :=
  let deg := Finset.sum (Finset.range G.number_of_entities) (fun k => G.csrMatrix j k)
  if deg = 0 then 0 else G.csrMatrix j i / deg

/-! Exact-float vectors for the random walk: entries are `Option ℚ`, with
`none` collapsing IEEE NaN (and the inf produced by x/0, which the walk's
non-negative data never reaches except through 0/0 anyway). -/

/-- A float value: `some q` an exact rational, `none` a non-finite result. -/
abbrev FQ := Option ℚ

/-- Float addition with NaN propagation. -/
def fadd : FQ → FQ → FQ
  | some a, some b => some (a + b)
  | _, _ => none

/-- Float multiplication with NaN propagation. -/
def fmul : FQ → FQ → FQ
  | some a, some b => some (a * b)
  | _, _ => none

/-- Float division: division by zero yields a non-finite result (`none`),
NaN propagates. -/
def fdiv : FQ → FQ → FQ
  | some a, some b => if b = 0 then none else some (a / b)
  | _, _ => none

/-- np.sum over a float vector. -/
def fsum (v : List FQ) : FQ := v.foldl fadd (some 0)

/-- Elementwise vector addition (numpy `r += q`). -/
def vecAdd (v w : List FQ) : List FQ := List.zipWith fadd v w

/-- Scalar times vector (numpy `c * x`). -/
def vecScale (c : ℚ) (v : List FQ) : List FQ := v.map (fun a => fmul (some c) a)

/-- Vector divided by a scalar (numpy `r /= s`). -/
def vecDiv (v : List FQ) (s : FQ) : List FQ := v.map (fun a => fdiv a s)

/-- Sparse matrix times vector (numpy `M * q`), over the n×n shape. -/
def matVec (M : ℕ → ℕ → ℚ) (n : ℕ) (v : List FQ) : List FQ :=
  (List.range n).map (fun i =>
    fsum ((List.range n).map (fun j => fmul (some (M i j)) (v.getD j (some 0)))))

/-- query_vector of src/algorithms.py: start from np.zeros(n_entities) and
add one unit at the topic entity's ID for every query; the entity_id lookup
of an unknown topic raises (none). -/
def query_vector (G : KnowledgeGraph) (query_log : List QueryRec) : Option (List FQ) :=
  query_log.foldl
    (fun acc q => acc.bind (fun x =>
      (G.entity_id_ q.topicEntityMid).map (fun i =>
        x.set i (fadd (x.getD i (some 0)) (some 1)))))
    (some (List.replicate G.number_of_entities (some (0 : ℚ))))

/-- The body of the restart-walk loop, iterated `power` times:
`q ← (1 − c)·M·q`, `r ← r + q`, `r ← r / sum(r)`. -/
def walkIter (M : ℕ → ℕ → ℚ) (n : ℕ) (c : ℚ) :
    ℕ → List FQ × List FQ → List FQ × List FQ
  | 0, s => s
  | k + 1, s =>
      let q1 := vecScale (1 - c) (matVec M n s.1)
      let r1 := vecAdd s.2 q1
      let r2 := vecDiv r1 (fsum r1)
      walkIter M n c k (q1, r2)

/-- random_walk_with_restart of src/algorithms.py: `q = c * x` (a copy),
`r = q` (a copy), then `power` loop iterations; returns r. -/
def random_walk_with_restart (M : ℕ → ℕ → ℚ) (n : ℕ) (x : List FQ) (c : ℚ)
    (power : ℕ) : List FQ :=
  (walkIter M n c power (vecScale c x, vecScale c x)).2

/-- np.log(v + 1), kept symbolic over ℝ; NaN propagates. -/
noncomputable def logVal (o : FQ) : Option ℝ :=
  o.map (fun v => Real.log ((v : ℝ) + 1))

/-- Pointwise update of a value dict (one dict assignment). -/
def updFnS (f : String → Option ℝ) (e : String) (v : Option ℝ) : String → Option ℝ :=
  fun x => if x = e then v else f x

/-- Pointwise update of a triple-value dict. -/
def updFnT (f : Triple → Option ℝ) (t : Triple) (v : Option ℝ) : Triple → Option ℝ :=
  fun x => if x = t then v else f x

/-- KnowledgeGraph.model_user_pref: reset the value maps, run the restart
walk (restart probability c = 0.15, the function's default) over the
transition matrix on the query-derived seed vector, then store
`entity_value(e) = log(x[id(e)] + 1)` for every entity ID and
`triple_value((e1,r,e2)) = log(x[id(e1)] * x[id(e2)] + 1)` for every triple.
A workload whose topic entity is unknown raises in query_vector (none). -/
noncomputable def KnowledgeGraph.model_user_pref (G : KnowledgeGraph)
    (query_log : List QueryRec) (power : ℕ) : Option KnowledgeGraph :=
  (query_vector G query_log).map (fun x0 =>
    let x := random_walk_with_restart G.transition_matrix G.number_of_entities x0
      (15 / 100) power
    let G1 := G.reset
    let G2 := (List.range G.number_of_entities).foldl (fun H i =>
      match G.id_entity_ i with
      | some e => { H with entity_value_ := updFnS H.entity_value_ e (logVal (x.getD i (some 0))) }
      | none => H) G1
    G.triples_.foldl (fun H t =>
      let v := logVal (fmul (x.getD (G.eid t.1) (some 0)) (x.getD (G.eid t.2.2) (some 0)))
      { H with triple_value_ := updFnT H.triple_value_ t v }) G2)

/-- Entity value read through a completed model_user_pref run; if the run
raised (unknown topic), the read never happens and the pre-reset default 0.0
is what any later defaultdict read would return, so the accessor returns
`some 0` in that case. -/
noncomputable def entityValueAfterModel (G : KnowledgeGraph) (query_log : List QueryRec)
    (power : ℕ) (e : String) : Option ℝ :=
  match G.model_user_pref query_log power with
  | some G2 => G2.entity_value e
  | none => some 0

/-- Triple value read through a completed model_user_pref run (same
convention as entityValueAfterModel). -/
noncomputable def tripleValueAfterModel (G : KnowledgeGraph) (query_log : List QueryRec)
    (power : ℕ) (t : Triple) : Option ℝ :=
  match G.model_user_pref query_log power with
  | some G2 => G2.triple_value t
  | none => some 0

/-! The Summary of src/glimpse.py: a KnowledgeGraph with a non-owning
reference to its parent graph. -/

/-- Float addition over stored values with NaN propagation (Python's
`total = 0` then `total += float`). -/
def orAdd : Option ℝ → Option ℝ → Option ℝ
  | some a, some b => some (a + b)
  | _, _ => none

/-- Summary(KG): a KnowledgeGraph plus a parent reference. -/
structure Summary extends KnowledgeGraph where
  parent_ : KnowledgeGraph

/-- The Summary constructor `Summary(KG)`: fresh empty store, parent KG. -/
def newSummary (KG : KnowledgeGraph) : Summary :=
  { toKnowledgeGraph := emptyKG, parent_ := KG }

/-- Summary.has_entity (inherited from KnowledgeGraph: the summary's own
entity set, not the parent's). -/
def Summary.has_entity (S : Summary) (e : String) : Prop :=
  S.toKnowledgeGraph.has_entity e

instance (S : Summary) (e : String) : Decidable (S.has_entity e) :=
  inferInstanceAs (Decidable (e ∈ S.toKnowledgeGraph.entities_))

/-- Summary.has_triple (inherited). -/
def Summary.has_triple (S : Summary) (t : Triple) : Prop :=
  S.toKnowledgeGraph.has_triple t

instance (S : Summary) (t : Triple) : Decidable (S.has_triple t) :=
  inferInstanceAs (Decidable (t ∈ S.toKnowledgeGraph.triples_))

/-- Summary.add_triple (inherited; the parent reference is untouched). -/
def Summary.add_triple (S : Summary) (t : Triple) : Summary :=
  { S with toKnowledgeGraph := S.toKnowledgeGraph.add_triple t }

/-- Summary.number_of_triples (inherited). -/
def Summary.number_of_triples (S : Summary) : ℕ :=
  S.toKnowledgeGraph.number_of_triples

/-- Summary.marginal_value: start from total = 0; add the parent's entity
value of each endpoint not yet in the summary's entity set, and the parent's
triple value if the triple is not yet in the summary. -/
def Summary.marginal_value (S : Summary) (t : Triple) : Option ℝ :=
  let t0 : Option ℝ := some 0
  let t1 := if S.has_entity t.1 then t0 else orAdd t0 (S.parent_.entity_value t.1)
  let t2 := if S.has_entity t.2.2 then t1 else orAdd t1 (S.parent_.entity_value t.2.2)
  if S.has_triple t then t2 else orAdd t2 (S.parent_.triple_value t)

/-- Summary.fill, instrumented with the list of summary states after each
add_triple call: iterate the given triples, returning as soon as the summary
holds k triples, otherwise adding the next triple. -/
def Summary.fillT (S : Summary) (triples : List Triple) (k : ℕ) :
    Summary × List Summary :=
  match triples with
  | [] => (S, [])
  | t :: rest =>
      if k ≤ S.number_of_triples then (S, [])
      else
        let S1 := S.add_triple t
        let res := S1.fillT rest k
        (res.1, S1 :: res.2)

/-! The candidate structure of src/heap.py.  `heap_` is a plain Python list
of Triple items holding stale upper-bound scores; CPython's heapq functions
(heapify, heapreplace) are only ever applied to the temporary list of sampled
item references inside update(), which aliases the main list.  We model the
main list as `List HeapItem` and the sampled reference list as a list of
positions into it, which captures the aliasing of value mutations exactly. -/

/-- Heap.Triple: a triple together with its (possibly stale) value. -/
structure HeapItem where
  triple_ : Triple
  value_ : Option ℝ

instance : Inhabited HeapItem := ⟨⟨("", "", ""), some 0⟩⟩

/-- Strict float comparison `x < y`; any comparison involving NaN is false. -/
def orLt : Option ℝ → Option ℝ → Prop
  | some x, some y => x < y
  | _, _ => False

noncomputable instance (a b : Option ℝ) : Decidable (orLt a b) :=
  match a, b with
  | some x, some y => inferInstanceAs (Decidable (x < y))
  | some _, none => inferInstanceAs (Decidable False)
  | none, some _ => inferInstanceAs (Decidable False)
  | none, none => inferInstanceAs (Decidable False)

/-- The test `total > 0` on a float; false for NaN. -/
def orPos : Option ℝ → Prop
  | some y => 0 < y
  | none => False

noncomputable instance : DecidablePred orPos := fun a =>
  match a with
  | some y => inferInstanceAs (Decidable (0 < y))
  | none => inferInstanceAs (Decidable False)

/-- Heap.__init__: score every triple of the KG by
`entity_value(e1) + entity_value(e2) + triple_value(t)` and keep the triples
with positive total. -/
noncomputable def Heap.init (KG : KnowledgeGraph) : List HeapItem :=
  KG.triples_.filterMap (fun t =>
    let total := orAdd (orAdd (KG.entity_value t.1) (KG.entity_value t.2.2))
      (KG.triple_value t)
    if orPos total then some ⟨t, total⟩ else none)

/-- Heap.triples. -/
def Heap.triples (h : List HeapItem) : List Triple := h.map (fun it => it.triple_)

/-- The value of the item at a heap position. -/
def valueAt (h : List HeapItem) (i : ℕ) : Option ℝ := (h.getD i default).value_

/-- The triple of the item at a heap position. -/
def tripleAt (h : List HeapItem) (i : ℕ) : Triple := (h.getD i default).triple_

/-- Mutation of one item's value (`item.value_ = ...`), visible through every
alias of that item. -/
def writeVal (h : List HeapItem) (i : ℕ) (v : Option ℝ) : List HeapItem :=
  h.set i ⟨tripleAt h i, v⟩

/-- Heap.Triple.__lt__ on positions: `p < q` iff the value at p exceeds the
value at q (inverted so heapq's min-heap acts as a max-heap). -/
def posLt (h : List HeapItem) (p q : ℕ) : Prop := orLt (valueAt h q) (valueAt h p)

noncomputable instance (h : List HeapItem) (p q : ℕ) : Decidable (posLt h p q) :=
  inferInstanceAs (Decidable (orLt (valueAt h q) (valueAt h p)))

/-- CPython heapq._siftdown: move the captured `newitem` up from `pos`
towards `startpos`, shifting larger-than-newitem parents down; finally place
newitem.  Fuel is the starting `pos`, which strictly decreases. -/
noncomputable def siftdownGo (h : List HeapItem) (startpos newitem : ℕ) :
    ℕ → ℕ → List ℕ → List ℕ
  | 0, pos, arr => arr.set pos newitem
  | fuel + 1, pos, arr =>
      if startpos < pos then
        let parentpos := (pos - 1) / 2
        let parent := arr.getD parentpos 0
        if posLt h newitem parent then
          siftdownGo h startpos newitem fuel parentpos (arr.set pos parent)
        else arr.set pos newitem
      else arr.set pos newitem

/-- CPython heapq._siftup descent loop: bubble the smaller child up into
`pos` until reaching a leaf; returns the final leaf position.  Fuel is the
array length (the child position at least doubles each step). -/
noncomputable def siftupGo (h : List HeapItem) (endpos : ℕ) :
    ℕ → ℕ → List ℕ → List ℕ × ℕ
  | 0, pos, arr => (arr, pos)
  | fuel + 1, pos, arr =>
      let childpos := 2 * pos + 1
      if childpos < endpos then
        let rightpos := childpos + 1
        let childpos2 :=
          if rightpos < endpos ∧ ¬ posLt h (arr.getD childpos 0) (arr.getD rightpos 0)
          then rightpos else childpos
        siftupGo h endpos fuel childpos2 (arr.set pos (arr.getD childpos2 0))
      else (arr, pos)

/-- CPython heapq._siftup: capture newitem at `pos`, run the descent loop,
write newitem at the reached leaf and sift it down towards `pos`. -/
noncomputable def siftupPos (h : List HeapItem) (arr : List ℕ) (pos : ℕ) : List ℕ :=
  let newitem := arr.getD pos 0
  let res := siftupGo h arr.length arr.length pos arr
  siftdownGo h pos newitem res.2 res.2 (res.1.set res.2 newitem)

/-- CPython heapq.heapify: _siftup at each position n//2 - 1 down to 0. -/
noncomputable def heapifyPos (h : List HeapItem) (arr : List ℕ) : List ℕ :=
  ((List.range (arr.length / 2)).reverse).foldl (fun a i => siftupPos h a i) arr

/-- Heap._lazy_greedy: heapify the sampled reference list (so its front is
the sampled item with the greatest stale value), recompute that item's true
marginal value (mutating it through the alias), heapreplace it (one more
_siftup with the fresh value), and report the old and new front positions. -/
noncomputable def lazyGreedy (S : Summary) (h : List HeapItem) (indices : List ℕ) :
    List HeapItem × ℕ × ℕ :=
  let arr1 := heapifyPos h indices
  let top := arr1.getD 0 0
  let h1 := writeVal h top (S.marginal_value (tripleAt h top))
  let arr2 := siftupPos h1 (arr1.set 0 top) 0
  (h1, top, arr2.getD 0 0)

/-- np.random.randint(0, n, size): `size` independent draws from the oracle
stream starting at `pos`, each reduced mod n (uniform over [0, n) for a
uniform stream; draws are independent, so repetitions are possible). -/
def randintDraws (stream : ℕ → ℕ) (pos n size : ℕ) : List ℕ :=
  (List.range size).map (fun k => stream (pos + k) % n)

/-- The sampled candidate positions of Heap.update:
`np.random.randint(0, n, size=sample_size) if sample_size < n else
np.arange(n)`, after the clamp `sample_size = min(n, sample_size)` with
n the current heap length. -/
def Heap.sampleIndices (h : List HeapItem) (sample_size : ℕ) (stream : ℕ → ℕ)
    (pos : ℕ) : List ℕ :=
  if min h.length sample_size < h.length
  then randintDraws stream pos h.length (min h.length sample_size)
  else List.range h.length

/-- Heap._move_to_top: swap the item at `i` with the last item (the source
pops from the end of the list). -/
def swapLast (h : List HeapItem) (i : ℕ) : List HeapItem :=
  let last := h.length - 1
  let a := h.getD last default
  let b := h.getD i default
  (h.set last b).set i a

/-- Heap.update: clamp the sample size, sample candidate positions (all of
them via np.arange when the clamped size is the whole heap, otherwise
np.random.randint draws), run _lazy_greedy; if the recomputed top is still
the front of the sample, promote it, otherwise recompute the marginal value
of every sampled item whose subject or object is covered by S, track the
argmax (a NaN-valued comparison is false, so NaN never wins), and promote
the argmax.  Returns the heap and the next oracle position. -/
noncomputable def Heap.update (S : Summary) (h : List HeapItem) (sample_size : ℕ)
    (stream : ℕ → ℕ) (pos : ℕ) : List HeapItem × ℕ :=
  let n := h.length
  let m := min n sample_size
  if n ≤ 1 ∨ m = 0 then (h, pos)
  else
    let indices := Heap.sampleIndices h sample_size stream pos
    let pos2 := if m < n then pos + m else pos
    let lg := lazyGreedy S h indices
    let h1 := lg.1
    if tripleAt h1 lg.2.1 = tripleAt h1 lg.2.2 then
      (swapLast h1 lg.2.2, pos2)
    else
      let fin := indices.foldl (fun st i =>
        let hh := st.1
        let it := hh.getD i default
        let hh2 := if S.has_entity it.triple_.1 ∨ S.has_entity it.triple_.2.2
                   then writeVal hh i (S.marginal_value it.triple_) else hh
        let am2 := if orLt (valueAt hh2 st.2) (valueAt hh2 i) then i else st.2
        (hh2, am2)) (h1, 0)
      (swapLast fin.1 fin.2, pos2)

/-- The selection loop of GLIMPSE (`while len(heap) and
S.number_of_triples() < K`): pop the last heap item (Heap.pop), add its
triple to S, update the heap.  Instrumented with the summary state after
each add_triple.  Fuel equals the initial heap length, which is exactly the
maximal number of pops, so the fuel never runs out before the loop condition
fails. -/
noncomputable def glimpseLoop (K : ℕ) (stream : ℕ → ℕ) (sample_size : ℕ) :
    ℕ → List HeapItem → Summary → ℕ → Summary × List Summary
  | 0, _, S, _ => (S, [])
  | fuel + 1, h, S, pos =>
      if h.length = 0 ∨ K ≤ S.number_of_triples then (S, [])
      else
        let t := (h.getLastD default).triple_
        let h1 := h.dropLast
        let S1 := S.add_triple t
        let upd := Heap.update S1 h1 sample_size stream pos
        let rest := glimpseLoop K stream sample_size fuel upd.1 S1 upd.2
        (rest.1, S1 :: rest.2)

/-- The once-computed sample size of GLIMPSE:
`len(heap) if epsilon is None else int(len(heap) / K * np.log(1/epsilon))`,
evaluated once before the selection loop with `n0` the heap length there.
`epsLog` carries np.log(1/epsilon) (`none` for epsilon=None).  The division
raises ZeroDivisionError at K = 0 (the `none` result); `int()` on the
non-negative float product truncates, i.e. floors. -/
def glimpseSampleSize (epsLog : Option ℚ) (K n0 : ℕ) : Option ℕ :=
  match epsLog with
  | none => some n0
  | some L =>
      if K = 0 then none
      else some (Int.toNat (Int.floor ((n0 : ℚ) / (K : ℚ) * L)))

/-- GLIMPSE of src/glimpse.py, instrumented with the trace of summary states
after every individual add_triple of the selection loop and the padding
fills.  Parameters: `epsLog` is `none` for epsilon=None, and `some L` for a
given epsilon with `L` the float value of np.log(1/epsilon); `stream` drives
np.random.randint. -/
noncomputable def GLIMPSET (KG : KnowledgeGraph) (K : ℕ) (query_log : List QueryRec)
    (epsLog : Option ℚ) (power : ℕ) (stream : ℕ → ℕ) :
    Option (Summary × List Summary) :=
  (KG.model_user_pref query_log power).bind (fun KG1 =>
    let heap := Heap.init KG1
    let S := newSummary KG1
    if heap.length ≤ K then
      let f1 := S.fillT (Heap.triples heap) K
      let f2 := f1.1.fillT KG1.triples_ K
      some (f2.1, f1.2 ++ f2.2)
    else
      let upd := Heap.update S heap heap.length stream 0
      (glimpseSampleSize epsLog K upd.1.length).map (fun sample_size =>
        let lp := glimpseLoop K stream sample_size upd.1.length upd.1 S upd.2
        let f2 := lp.1.fillT KG1.triples_ K
        (f2.1, lp.2 ++ f2.2)))

/-- The Summary returned by GLIMPSE (none when the call raises). -/
noncomputable def GLIMPSE (KG : KnowledgeGraph) (K : ℕ) (query_log : List QueryRec)
    (epsLog : Option ℚ) (power : ℕ) (stream : ℕ → ℕ) : Option Summary :=
  (GLIMPSET KG K query_log epsLog power stream).map (fun p => p.1)

/-- The trace of summary states after each add_triple step of a GLIMPSE run
(empty when the call raises before any selection step). -/
noncomputable def glimpseTrace (KG : KnowledgeGraph) (K : ℕ) (query_log : List QueryRec)
    (epsLog : Option ℚ) (power : ℕ) (stream : ℕ → ℕ) : List Summary :=
  match GLIMPSET KG K query_log epsLog power stream with
  | some p => p.2
  | none => []

/-- A Summary populated by a sequence of add_triple calls on a fresh
Summary(P) — the only way summaries are ever built. -/
def buildSummary (P : KnowledgeGraph) (ts : List Triple) : Summary :=
  ts.foldl Summary.add_triple (newSummary P)

/-- A value annotation with no NaN entries (every stored float is finite). -/
def pureVals (G : KnowledgeGraph) : Prop :=
  (∀ e, (G.entity_value_ e).isSome) ∧ (∀ t, (G.triple_value_ t).isSome)

/-- Test fixture: a value-annotated parent graph holding one self-loop
triple (A,r,A), entity values 1, triple values 0. -/
def selfLoopParent : KnowledgeGraph :=
  { entities_ := ["A"], relationships_ := ["r"], triples_ := [("A", "r", "A")],
    entity_value_ := fun _ => some 1, triple_value_ := fun _ => some 0 }

/-! Spec-modelled definitions, for comparison of the code against the
spec's own wording (each is marked `Modelled from the spec`). -/

/-- Modelled from the spec (§4.3 objective): entities(X), the set of
distinct entities touched by the triples of a summary. -/
def touchedEntities (S : Summary) : Finset String :=
  S.triples_.toFinset.biUnion (fun t => {t.1, t.2.2})

/-- Modelled from the spec: real view of a stored float score (the spec's
objective is stated over real scores; under the pureness hypotheses used in
the theorems below no NaN occurs). -/
def valR (v : Option ℝ) : ℝ := v.getD 0

/-- Modelled from the spec (§4.3): the objective
f(S) = Σ over entities(S) of entity_value + Σ over triples of S of
triple_value, each entity counted once. -/
noncomputable def objectiveF (S : Summary) : ℝ :=
  Finset.sum (touchedEntities S) (fun e => valR (S.parent_.entity_value e)) +
  Finset.sum S.triples_.toFinset (fun t => valR (S.parent_.triple_value t))

/-- Modelled from the spec (claim C5 / §4.2 step 1): the seed vector x0,
accumulating one unit per query at its topic entity (undefined — none —
when some topic is not an entity of the graph). -/
def specSeed (G : KnowledgeGraph) (query_log : List QueryRec) : Option (List FQ) :=
  if (query_log.all (fun q => (G.entity_id_ q.topicEntityMid).isSome)) then
    some ((List.range G.number_of_entities).map (fun i =>
      some ((query_log.filter
        (fun q => G.entity_id_ q.topicEntityMid == some i)).length : ℚ)))
  else none

/-- Modelled from the spec (claim C5 / §4.2 step 2): initialize
q = r = c·x0 and run exactly `power` iterations of q ← (1−c)·T·q,
r ← r + q, r ← r / sum(r), renormalizing after every iteration. -/
def specWalk (T : ℕ → ℕ → ℚ) (n : ℕ) (c : ℚ) (x0 : List FQ) (power : ℕ) : List FQ :=
  ((List.range power).foldl (fun s _ =>
    let q1 := vecScale (1 - c) (matVec T n s.1)
    let r1 := vecAdd s.2 q1
    (q1, vecDiv r1 (fsum r1))) (vecScale c x0, vecScale c x0)).2

/-- Modelled from the spec (claim C5 / §4.2 steps 3 and 4): after the walk
with restart probability c = 0.15, entity_value(e) = log(r[id(e)] + 1) for
every entity of the graph and triple_value((e1,r,e2)) =
log(r[id(e1)]·r[id(e2)] + 1) for every triple of the graph, every other
value at its reset default 0. -/
noncomputable def specModelUserPref (G : KnowledgeGraph) (query_log : List QueryRec)
    (power : ℕ) : Option KnowledgeGraph :=
  (specSeed G query_log).map (fun x0 =>
    let r := specWalk G.transition_matrix G.number_of_entities (15 / 100) x0 power
    { G with
      entity_value_ := fun e =>
        if e ∈ G.entities_ then logVal (r.getD (G.eid e) (some 0)) else some 0,
      triple_value_ := fun t =>
        if t ∈ G.triples_ then
          logVal (fmul (r.getD (G.eid t.1) (some 0)) (r.getD (G.eid t.2.2) (some 0)))
        else some 0 })

/-- Every entry of a float vector is a present (non-NaN) non-negative
rational. -/
def pureNN (v : List FQ) : Prop := ∀ x ∈ v, ∃ a : ℚ, 0 ≤ a ∧ x = some a

/-- The vector vanishes at every coordinate whose entity label lies outside
the set C. -/
def zeroOutside (G : KnowledgeGraph) (C : List String) (v : List FQ) : Prop :=
  ∀ (j : ℕ) (e : String), G.id_entity_ j = some e → e ∉ C → v[j]? = some (some 0)

/-- The vector has a strictly positive coordinate. -/
def hasPos (v : List FQ) : Prop :=
  ∃ (j : ℕ) (a : ℚ), v[j]? = some (some a) ∧ 0 < a

/-- A one-query workload fixture with topic entity A. -/
def topicAQuery : QueryRec :=
  { questionId := "q1", topicEntityMid := "A", topicEntityName := "A",
    inferentialChain := ["p"], constraints := [], answers := [] }

/-- The value-annotated store that model_user_pref computes on the graph
{(A,p,B)} for the one-query workload at topic A with power 0 (walk mass
0.15 at A, 0 at B). -/
noncomputable def modeledAB : KnowledgeGraph :=
  { entities_ := ["A", "B"], relationships_ := ["p"], triples_ := [("A", "p", "B")],
    entity_value_ := (updFnS (updFnS (fun _ => some 0) "A"
      (logVal (some (15 / 100 * (0 + 1))))) "B" (logVal (some (15 / 100 * 0)))),
    triple_value_ := (updFnT (fun _ => some 0) ("A", "p", "B")
      (logVal (fmul (some (15 / 100 * (0 + 1))) (some (15 / 100 * 0))))) }

/-! Theorems. -/

/-- The final answer-set difference excludes the topic entity from
answer_query's result, whatever the graph and query. -/
theorem answer_excludes_topic (G : KnowledgeGraph) (q : QueryRec) :
    q.topicEntityMid ∉ answer_query G q := by
  unfold answer_query
  intro h
  have hp := List.of_mem_filter h
  simp at hp

/-- Claim C1 (code bug evaluation): on the graph with triples
(A,p,B) and (A,q,C), entity A (ID 0) has out-degree 2, so the D matrix built
by transition_matrix holds the out-degree 2 — not 1/2 — at (0,0), the
produced matrix has entry 2 at (1,0) where the documented column-stochastic
matrix A^T·D^-1 has 1/2, and column 0 sums to 4, not 1. -/
theorem c1_transition_eval :
    (buildKG [("A", "p", "B"), ("A", "q", "C")]).transition_matrix 1 0 = 2 ∧
    specTransition (buildKG [("A", "p", "B"), ("A", "q", "C")]) 1 0 = 1 / 2 ∧
    Finset.sum (Finset.range 3)
      (fun i => (buildKG [("A", "p", "B"), ("A", "q", "C")]).transition_matrix i 0) = 4 := by
  have hb : buildKG [("A", "p", "B"), ("A", "q", "C")] =
      { entities_ := ["A", "B", "C"], relationships_ := ["p", "q"],
        triples_ := [("A", "p", "B"), ("A", "q", "C")],
        entity_value_ := fun _ => some 0, triple_value_ := fun _ => some 0 } := by rfl
  have eA : KnowledgeGraph.eid
      { entities_ := ["A", "B", "C"], relationships_ := ["p", "q"],
        triples_ := [("A", "p", "B"), ("A", "q", "C")],
        entity_value_ := fun _ => some 0, triple_value_ := fun _ => some 0 } "A" = 0 := by decide
  have eB : KnowledgeGraph.eid
      { entities_ := ["A", "B", "C"], relationships_ := ["p", "q"],
        triples_ := [("A", "p", "B"), ("A", "q", "C")],
        entity_value_ := fun _ => some 0, triple_value_ := fun _ => some 0 } "B" = 1 := by decide
  have eC : KnowledgeGraph.eid
      { entities_ := ["A", "B", "C"], relationships_ := ["p", "q"],
        triples_ := [("A", "p", "B"), ("A", "q", "C")],
        entity_value_ := fun _ => some 0, triple_value_ := fun _ => some 0 } "C" = 2 := by decide
  refine ⟨?_, ?_, ?_⟩
  · rw [hb]
    simp only [KnowledgeGraph.transition_matrix, KnowledgeGraph.csrMatrix,
      KnowledgeGraph.degMatrix, cooSum, KnowledgeGraph.number_of_entities,
      List.map, eA, eB, eC]
    norm_num [Finset.sum_range_succ, List.filterMap_cons, List.filterMap_nil,
      List.sum_cons, List.sum_nil]
  · rw [hb]
    simp only [specTransition, KnowledgeGraph.csrMatrix,
      cooSum, KnowledgeGraph.number_of_entities, List.map, eA, eB, eC]
    norm_num [Finset.sum_range_succ, List.filterMap_cons, List.filterMap_nil,
      List.sum_cons, List.sum_nil]
  · rw [hb]
    simp only [KnowledgeGraph.transition_matrix, KnowledgeGraph.csrMatrix,
      KnowledgeGraph.degMatrix, cooSum, KnowledgeGraph.number_of_entities,
      List.map, eA, eB, eC]
    norm_num [Finset.sum_range_succ, List.filterMap_cons, List.filterMap_nil,
      List.sum_cons, List.sum_nil]

/-- Claim C6 (counterexample): the sampled candidate indices are
np.random.randint draws with replacement; with the oracle stream constantly
0, sampling 2 indices out of a 3-candidate range yields [0, 0] — not
pairwise distinct, refuting sampling without replacement. -/
theorem c6_counterexample :
    randintDraws (fun _ => 0) 0 3 2 = [0, 0] ∧
    ¬ (randintDraws (fun _ => 0) 0 3 2).Nodup := by
  refine ⟨?_, ?_⟩ <;> decide

/-- Claim C8 (counterexample): on the graph
(A,friend,B), (B,friend,C), (B,age,30), the query with topic A, chain
[friend, friend] and the constraint with SourceNodeIndex 1, predicate age,
argument 30 — the literal constraint of the claim — produces the empty
answer set, not the claimed answer C: the code applies a constraint with
SourceNodeIndex i to the candidates produced by chain relation i (0-based),
so this constraint tests C, which has no age edge, rather than B. -/
theorem c8_counterexample :
    answer_query (buildKG [("A", "friend", "B"), ("B", "friend", "C"), ("B", "age", "30")])
      { questionId := "Q1", topicEntityMid := "A", topicEntityName := "A",
        inferentialChain := ["friend", "friend"],
        constraints := [{ sourceNodeIndex := 1, nodePredicate := "age",
                          argument := "30", entityName := "B" }],
        answers := [] } = [] ∧
    ¬ ("C" ∈ answer_query
        (buildKG [("A", "friend", "B"), ("B", "friend", "C"), ("B", "age", "30")])
        { questionId := "Q1", topicEntityMid := "A", topicEntityName := "A",
          inferentialChain := ["friend", "friend"],
          constraints := [{ sourceNodeIndex := 1, nodePredicate := "age",
                            argument := "30", entityName := "B" }],
          answers := [] }) := by
  refine ⟨?_, ?_⟩ <;> decide

/-- Claim C8 (amended): same scenario with the hop index written 0-based as
the code requires: with no constraints the answer is C; with the constraint
at SourceNodeIndex 0 (filtering B, the candidate produced by chain
relation 0) and value 30 the answer is still C; with value 31 it is empty;
and the final answer set always excludes the topic entity. -/
theorem c8_amended :
    answer_query (buildKG [("A", "friend", "B"), ("B", "friend", "C"), ("B", "age", "30")])
      { questionId := "Q0", topicEntityMid := "A", topicEntityName := "A",
        inferentialChain := ["friend", "friend"], constraints := [], answers := [] } = ["C"] ∧
    answer_query (buildKG [("A", "friend", "B"), ("B", "friend", "C"), ("B", "age", "30")])
      { questionId := "Q1", topicEntityMid := "A", topicEntityName := "A",
        inferentialChain := ["friend", "friend"],
        constraints := [{ sourceNodeIndex := 0, nodePredicate := "age",
                          argument := "30", entityName := "B" }],
        answers := [] } = ["C"] ∧
    answer_query (buildKG [("A", "friend", "B"), ("B", "friend", "C"), ("B", "age", "30")])
      { questionId := "Q2", topicEntityMid := "A", topicEntityName := "A",
        inferentialChain := ["friend", "friend"],
        constraints := [{ sourceNodeIndex := 0, nodePredicate := "age",
                          argument := "31", entityName := "B" }],
        answers := [] } = [] ∧
    ∀ (G : KnowledgeGraph) (q : QueryRec), q.topicEntityMid ∉ answer_query G q :=
  ⟨by decide, by decide, by decide, answer_excludes_topic⟩

/-- A label never inserted raises in entity_id_ (none). -/
theorem entity_id_eq_none (G : KnowledgeGraph) (e : String) (he : ¬ G.has_entity e) :
    G.entity_id_ e = none := by
  unfold KnowledgeGraph.entity_id_
  rw [List.findIdx?_eq_none_iff]
  intro x hx
  rw [beq_eq_false_iff_ne]
  rintro rfl
  exact he hx

/-- An ID never assigned raises in id_entity_ (none). -/
theorem id_entity_eq_none (G : KnowledgeGraph) (i : ℕ) (hi : G.number_of_entities ≤ i) :
    G.id_entity_ i = none :=
  List.get?_eq_none.mpr hi

/-- An assigned ID maps to a recorded entity. -/
theorem id_entity_mem (G : KnowledgeGraph) (i : ℕ) (e : String)
    (h : G.id_entity_ i = some e) : G.has_entity e :=
  List.get?_mem h

/-- The entity-value pass of model_user_pref writes only at recorded
entities: any other label keeps its prior value. -/
theorem model_entity_fold_value (G : KnowledgeGraph) (x : List FQ) (l : List ℕ)
    (H : KnowledgeGraph) (e : String) (he : ¬ G.has_entity e) :
    (l.foldl (fun H i =>
      match G.id_entity_ i with
      | some e2 =>
          { H with entity_value_ := updFnS H.entity_value_ e2 (logVal (x.getD i (some 0))) }
      | none => H) H).entity_value_ e = H.entity_value_ e := by
  induction l generalizing H with
  | nil => rfl
  | cons i l ih =>
      rw [List.foldl_cons, ih]
      cases hid : G.id_entity_ i with
      | none => simp only [hid]
      | some e2 =>
          simp only [hid]
          show updFnS H.entity_value_ e2 (logVal (x.getD i (some 0))) e = H.entity_value_ e
          unfold updFnS
          have hne : ¬ (e = e2) := by
            rintro rfl
            exact he (id_entity_mem G i e hid)
          rw [if_neg hne]

/-- The entity-value pass never touches triple values. -/
theorem model_entity_fold_tv (G : KnowledgeGraph) (x : List FQ) (l : List ℕ)
    (H : KnowledgeGraph) :
    (l.foldl (fun H i =>
      match G.id_entity_ i with
      | some e2 =>
          { H with entity_value_ := updFnS H.entity_value_ e2 (logVal (x.getD i (some 0))) }
      | none => H) H).triple_value_ = H.triple_value_ := by
  induction l generalizing H with
  | nil => rfl
  | cons i l ih =>
      rw [List.foldl_cons, ih]
      cases hid : G.id_entity_ i with
      | none => simp only [hid]
      | some e2 => simp only [hid]

/-- The triple-value pass of model_user_pref never touches entity values. -/
theorem model_triple_fold_ev (G : KnowledgeGraph) (x : List FQ) (ts : List Triple)
    (H : KnowledgeGraph) :
    (ts.foldl (fun H t =>
      { H with triple_value_ := (updFnT H.triple_value_ t
          (logVal (fmul (x.getD (G.eid t.1) (some 0)) (x.getD (G.eid t.2.2) (some 0))))) })
      H).entity_value_ = H.entity_value_ := by
  induction ts generalizing H with
  | nil => rfl
  | cons u ts ih => rw [List.foldl_cons, ih]

/-- The triple-value pass writes only at the iterated triples: any other
triple keeps its prior value. -/
theorem model_triple_fold_value (G : KnowledgeGraph) (x : List FQ) (ts : List Triple)
    (H : KnowledgeGraph) (t : Triple) (ht : t ∉ ts) :
    (ts.foldl (fun H t =>
      { H with triple_value_ := (updFnT H.triple_value_ t
          (logVal (fmul (x.getD (G.eid t.1) (some 0)) (x.getD (G.eid t.2.2) (some 0))))) })
      H).triple_value_ t = H.triple_value_ t := by
  induction ts generalizing H with
  | nil => rfl
  | cons u ts ih =>
      rw [List.foldl_cons, ih _ (fun h => ht (List.mem_cons_of_mem u h))]
      show updFnT H.triple_value_ u _ t = H.triple_value_ t
      unfold updFnT
      rw [if_neg]
      rintro rfl
      exact ht (List.mem_cons_self t ts)

/-- Claim C10: after reset(), entity_value and triple_value never raise for
any argument — both are total defaultdict(float) reads — and for every
entity label never inserted into the graph and every triple never scored by
the value model they silently return 0.0, both right after reset and through
a completed model_user_pref run; by contrast entity_id_ raises (none) on a
label never inserted, and id_entity_ raises (none) on an ID never
assigned. -/
theorem c10_defaults (ts : List Triple) (wl : List QueryRec) (power : ℕ)
    (e : String) (t : Triple) (i : ℕ) :
    (¬ (buildKG ts).has_entity e →
      ((buildKG ts).reset.entity_value e = some 0 ∧
       entityValueAfterModel (buildKG ts) wl power e = some 0 ∧
       (buildKG ts).entity_id_ e = none)) ∧
    (¬ (buildKG ts).has_triple t →
      ((buildKG ts).reset.triple_value t = some 0 ∧
       tripleValueAfterModel (buildKG ts) wl power t = some 0)) ∧
    ((buildKG ts).number_of_entities ≤ i → (buildKG ts).id_entity_ i = none) := by
  refine ⟨fun he => ⟨rfl, ?_, entity_id_eq_none _ e he⟩,
          fun ht => ⟨rfl, ?_⟩,
          fun hi => id_entity_eq_none _ i hi⟩
  · unfold entityValueAfterModel KnowledgeGraph.model_user_pref
    cases hqv : query_vector (buildKG ts) wl with
    | none => rfl
    | some x0 =>
        simp only [Option.map_some', KnowledgeGraph.entity_value]
        rw [model_triple_fold_ev, model_entity_fold_value _ _ _ _ _ he]
        rfl
  · unfold tripleValueAfterModel KnowledgeGraph.model_user_pref
    cases hqv : query_vector (buildKG ts) wl with
    | none => rfl
    | some x0 =>
        simp only [Option.map_some', KnowledgeGraph.triple_value]
        rw [model_triple_fold_value _ _ _ _ _ ht, model_entity_fold_tv]
        rfl

/-- Witness for c10_defaults at a concrete instance. -/
theorem c10_witness :
    ((buildKG [("A", "r", "B")]).reset.entity_value "Z" = some 0 ∧
     entityValueAfterModel (buildKG [("A", "r", "B")]) [] 1 "Z" = some 0 ∧
     (buildKG [("A", "r", "B")]).entity_id_ "Z" = none) ∧
    ((buildKG [("A", "r", "B")]).reset.triple_value ("X", "y", "Z") = some 0 ∧
     tripleValueAfterModel (buildKG [("A", "r", "B")]) [] 1 ("X", "y", "Z") = some 0) ∧
    (buildKG [("A", "r", "B")]).id_entity_ 5 = none := by
  have h := c10_defaults [("A", "r", "B")] [] 1 "Z" ("X", "y", "Z") 5
  exact ⟨h.1 (by decide), h.2.1 (by decide), h.2.2 (by decide)⟩

/-- Membership in addEntity. -/
theorem mem_addEntity (l : List String) (x e : String) :
    e ∈ addEntity l x ↔ e ∈ l ∨ e = x := by
  unfold addEntity
  by_cases h : x ∈ l
  · rw [if_pos h]
    constructor
    · exact fun h1 => Or.inl h1
    · rintro (h1 | rfl)
      · exact h1
      · exact h
  · rw [if_neg h, List.mem_append, List.mem_singleton]

/-- Membership in the triples of add_triple. -/
theorem add_triple_mem (G : KnowledgeGraph) (t u : Triple) :
    (G.add_triple t).has_triple u ↔ G.has_triple u ∨ u = t := by
  unfold KnowledgeGraph.add_triple
  by_cases h : G.has_triple t
  · rw [if_pos h]
    constructor
    · exact fun h1 => Or.inl h1
    · rintro (h1 | rfl)
      · exact h1
      · exact h
  · rw [if_neg h]
    show u ∈ G.triples_ ++ [t] ↔ _
    rw [List.mem_append, List.mem_singleton]
    exact Iff.rfl

/-- In any store reachable by add_triple calls from an empty store, an
entity is recorded exactly when it is an endpoint of a recorded triple:
one add_triple step preserves this. -/
theorem add_step_invariant (G : KnowledgeGraph) (t : Triple)
    (hG : ∀ e, G.has_entity e ↔ ∃ u, G.has_triple u ∧ (e = u.1 ∨ e = u.2.2)) :
    ∀ e, (G.add_triple t).has_entity e ↔
      ∃ u, (G.add_triple t).has_triple u ∧ (e = u.1 ∨ e = u.2.2) := by
  intro e
  unfold KnowledgeGraph.add_triple
  by_cases h : G.has_triple t
  · rw [if_pos h]; exact hG e
  · rw [if_neg h]
    show e ∈ addEntity (addEntity G.entities_ t.1) t.2.2 ↔
      ∃ u, u ∈ G.triples_ ++ [t] ∧ (e = u.1 ∨ e = u.2.2)
    rw [mem_addEntity, mem_addEntity]
    constructor
    · rintro ((he | rfl) | rfl)
      · obtain ⟨u, hu, hor⟩ := (hG e).mp he
        exact ⟨u, List.mem_append_left _ hu, hor⟩
      · exact ⟨t, List.mem_append_right _ (List.mem_singleton_self t), Or.inl rfl⟩
      · exact ⟨t, List.mem_append_right _ (List.mem_singleton_self t), Or.inr rfl⟩
    · rintro ⟨u, hu, hor⟩
      rw [List.mem_append, List.mem_singleton] at hu
      cases hu with
      | inl hu => exact Or.inl (Or.inl ((hG e).mpr ⟨u, hu, hor⟩))
      | inr hu =>
          subst hu
          cases hor with
          | inl h1 => exact Or.inl (Or.inr h1)
          | inr h2 => exact Or.inr h2

/-- A summary built by add_triple calls records an entity exactly when it is
an endpoint of one of its triples. -/
theorem buildS_invariant (P : KnowledgeGraph) (ts : List Triple) :
    ∀ e, (buildSummary P ts).has_entity e ↔
      ∃ u, (buildSummary P ts).has_triple u ∧ (e = u.1 ∨ e = u.2.2) := by
  unfold buildSummary
  have base : ∀ e, (newSummary P).has_entity e ↔
      ∃ u, (newSummary P).has_triple u ∧ (e = u.1 ∨ e = u.2.2) := by
    intro e
    constructor
    · intro he; exact absurd he (List.not_mem_nil e)
    · rintro ⟨u, hu, _⟩; exact absurd hu (List.not_mem_nil u)
  revert base
  generalize newSummary P = S
  induction ts generalizing S with
  | nil => intro hS; exact hS
  | cons t ts ih =>
      intro hS
      rw [List.foldl_cons]
      exact ih _ (add_step_invariant S.toKnowledgeGraph t hS)

/-- The parent reference is never touched by summary construction. -/
theorem buildS_parent (P : KnowledgeGraph) (ts : List Triple) :
    (buildSummary P ts).parent_ = P := by
  unfold buildSummary
  have h : ∀ S : Summary, (ts.foldl Summary.add_triple S).parent_ = S.parent_ := by
    induction ts with
    | nil => intro S; rfl
    | cons t ts ih => intro S; rw [List.foldl_cons, ih]; rfl
  rw [h]; rfl

/-- touchedEntities agrees with the maintained entity set on built
summaries. -/
theorem touched_iff (P : KnowledgeGraph) (ts : List Triple) (e : String) :
    e ∈ touchedEntities (buildSummary P ts) ↔ (buildSummary P ts).has_entity e := by
  rw [buildS_invariant]
  unfold touchedEntities
  simp only [Finset.mem_biUnion, List.mem_toFinset, Finset.mem_insert, Finset.mem_singleton]
  constructor
  · rintro ⟨u, hu, hor⟩; exact ⟨u, hu, hor⟩
  · rintro ⟨u, hu, hor⟩; exact ⟨u, hu, hor⟩

/-- marginal_value under a NaN-free annotation, in closed indicator form. -/
theorem marginal_pure (S : Summary) (t : Triple) (hp : pureVals S.parent_) :
    S.marginal_value t = some (
      (if S.has_entity t.1 then 0 else valR (S.parent_.entity_value t.1)) +
      (if S.has_entity t.2.2 then 0 else valR (S.parent_.entity_value t.2.2)) +
      (if S.has_triple t then 0 else valR (S.parent_.triple_value t))) := by
  obtain ⟨hpe, hpt⟩ := hp
  obtain ⟨a, ha⟩ := Option.isSome_iff_exists.mp (hpe t.1)
  obtain ⟨b, hb⟩ := Option.isSome_iff_exists.mp (hpe t.2.2)
  obtain ⟨c, hc⟩ := Option.isSome_iff_exists.mp (hpt t)
  unfold Summary.marginal_value
  by_cases h1 : S.has_entity t.1 <;> by_cases h2 : S.has_entity t.2.2 <;>
    by_cases h3 : S.has_triple t <;>
    simp [h1, h2, h3, orAdd, KnowledgeGraph.entity_value, KnowledgeGraph.triple_value,
      ha, hb, hc, valR]

/-- On summaries whose entity set matches their triples (the add_triple
invariant), adding a triple with distinct endpoints changes the spec
objective by exactly the code's marginal value. -/
theorem objective_diff_gen (S : Summary) (t : Triple)
    (hne : t.1 ≠ t.2.2) (hp : pureVals S.parent_)
    (hinv : ∀ e, S.has_entity e ↔ ∃ u, S.has_triple u ∧ (e = u.1 ∨ e = u.2.2)) :
    S.marginal_value t = some (objectiveF (S.add_triple t) - objectiveF S) := by
  have htc : ∀ e, e ∈ touchedEntities S ↔ S.has_entity e := by
    intro e
    rw [hinv e]
    unfold touchedEntities
    simp only [Finset.mem_biUnion, List.mem_toFinset, Finset.mem_insert, Finset.mem_singleton]
    constructor
    · rintro ⟨u, hu, hor⟩; exact ⟨u, hu, hor⟩
    · rintro ⟨u, hu, hor⟩; exact ⟨u, hu, hor⟩
  rw [marginal_pure S t hp, Option.some_inj]
  by_cases h3 : S.has_triple t
  · have h3' : S.toKnowledgeGraph.has_triple t := h3
    have he1 : S.has_entity t.1 := (hinv t.1).mpr ⟨t, h3, Or.inl rfl⟩
    have he2 : S.has_entity t.2.2 := (hinv t.2.2).mpr ⟨t, h3, Or.inr rfl⟩
    have hadd : S.add_triple t = S := by
      unfold Summary.add_triple KnowledgeGraph.add_triple
      rw [if_pos h3']
    rw [hadd]
    simp [he1, he2, h3]
  · have h3' : ¬ S.toKnowledgeGraph.has_triple t := h3
    have htr : (S.add_triple t).toKnowledgeGraph.triples_ =
        S.toKnowledgeGraph.triples_ ++ [t] := by
      show (S.toKnowledgeGraph.add_triple t).triples_ = _
      unfold KnowledgeGraph.add_triple
      rw [if_neg h3']
    have hpar : (S.add_triple t).parent_ = S.parent_ := rfl
    have htF : (S.add_triple t).toKnowledgeGraph.triples_.toFinset =
        insert t S.toKnowledgeGraph.triples_.toFinset := by
      rw [htr]
      ext u
      simp [or_comm]
    have htnotmem : t ∉ S.toKnowledgeGraph.triples_.toFinset := by
      rw [List.mem_toFinset]; exact h3
    have htouched : touchedEntities (S.add_triple t) =
        touchedEntities S ∪ {t.1, t.2.2} := by
      unfold touchedEntities
      rw [htF, Finset.biUnion_insert, Finset.union_comm]
    obtain ⟨hpe, hpt⟩ := hp
    unfold objectiveF
    rw [hpar, htF, htouched, Finset.sum_insert htnotmem]
    rw [← Finset.union_sdiff_self_eq_union,
      Finset.sum_union Finset.disjoint_sdiff]
    by_cases h1 : S.has_entity t.1 <;> by_cases h2 : S.has_entity t.2.2
    · have hd : ({t.1, t.2.2} : Finset String) \ touchedEntities S = ∅ := by
        rw [Finset.sdiff_eq_empty_iff_subset]
        intro a ha
        rw [Finset.mem_insert, Finset.mem_singleton] at ha
        rcases ha with rfl | rfl
        · exact (htc t.1).mpr h1
        · exact (htc t.2.2).mpr h2
      rw [hd]
      simp [h1, h2, h3]
    · have hd : ({t.1, t.2.2} : Finset String) \ touchedEntities S = {t.2.2} := by
        ext a
        simp only [Finset.mem_sdiff, Finset.mem_insert, Finset.mem_singleton]
        constructor
        · rintro ⟨rfl | rfl, hn⟩
          · exact absurd ((htc t.1).mpr h1) hn
          · rfl
        · rintro rfl
          exact ⟨Or.inr rfl, fun hm => h2 ((htc t.2.2).mp hm)⟩
      rw [hd, Finset.sum_singleton]
      simp only [h1, h2, h3, if_true, if_false]
      ring
    · have hd : ({t.1, t.2.2} : Finset String) \ touchedEntities S = {t.1} := by
        ext a
        simp only [Finset.mem_sdiff, Finset.mem_insert, Finset.mem_singleton]
        constructor
        · rintro ⟨rfl | rfl, hn⟩
          · rfl
          · exact absurd ((htc t.2.2).mpr h2) hn
        · rintro rfl
          exact ⟨Or.inl rfl, fun hm => h1 ((htc t.1).mp hm)⟩
      rw [hd, Finset.sum_singleton]
      simp only [h1, h2, h3, if_true, if_false]
      ring
    · have hd : ({t.1, t.2.2} : Finset String) \ touchedEntities S = {t.1, t.2.2} := by
        ext a
        simp only [Finset.mem_sdiff, Finset.mem_insert, Finset.mem_singleton]
        constructor
        · rintro ⟨h, _⟩; exact h
        · rintro (rfl | rfl)
          · exact ⟨Or.inl rfl, fun hm => h1 ((htc t.1).mp hm)⟩
          · exact ⟨Or.inr rfl, fun hm => h2 ((htc t.2.2).mp hm)⟩
      rw [hd, Finset.sum_pair hne]
      simp only [h1, h2, h3, if_true, if_false]
      ring

/-- Claim C4 (counterexample): on a parent holding the self-loop triple
(A,r,A) with entity value 1 at A and triple value 0, the empty summary's
marginal_value for (A,r,A) tests the two endpoints separately and counts
the entity value of A twice, giving 2, while the objective difference
f(S ∪ t) − f(S) counts the entity A once, giving 1 — so marginal_value is
not the objective difference on self-loop triples. -/
theorem c4_counterexample :
    (newSummary selfLoopParent).marginal_value ("A", "r", "A") = some 2 ∧
    objectiveF ((newSummary selfLoopParent).add_triple ("A", "r", "A")) -
      objectiveF (newSummary selfLoopParent) = 1 ∧
    (newSummary selfLoopParent).marginal_value ("A", "r", "A") ≠
      some (objectiveF ((newSummary selfLoopParent).add_triple ("A", "r", "A")) -
        objectiveF (newSummary selfLoopParent)) := by
  have hm : (newSummary selfLoopParent).marginal_value ("A", "r", "A") = some 2 := by
    simp only [Summary.marginal_value, Summary.has_entity, Summary.has_triple,
      KnowledgeGraph.has_entity, KnowledgeGraph.has_triple, newSummary, emptyKG,
      selfLoopParent, KnowledgeGraph.entity_value, KnowledgeGraph.triple_value, orAdd,
      List.not_mem_nil, if_false]
    norm_num
  have hf : objectiveF ((newSummary selfLoopParent).add_triple ("A", "r", "A")) -
      objectiveF (newSummary selfLoopParent) = 1 := by
    simp only [objectiveF, touchedEntities, Summary.add_triple, newSummary, emptyKG,
      selfLoopParent, KnowledgeGraph.add_triple, KnowledgeGraph.has_triple,
      List.not_mem_nil, if_false, KnowledgeGraph.entity_value,
      KnowledgeGraph.triple_value, addEntity]
    norm_num [List.toFinset_cons, List.toFinset_nil, Finset.sum_insert,
      Finset.pair_eq_singleton, valR]
  refine ⟨hm, hf, ?_⟩
  rw [hm, hf]
  intro h
  rw [Option.some_inj] at h
  norm_num at h

/-- Claim C4 (amended): for every summary built by add_triple calls over a
NaN-free-annotated parent, marginal_value(S, t) equals the indicator form
entity_value(e1)·[e1 ∉ S] + entity_value(e2)·[e2 ∉ S] + triple_value(t)·[t ∉ S]
for every triple; it equals the objective difference f(S ∪ t) − f(S) for
every triple whose endpoints are distinct (on self-loops the indicator form
counts the entity twice while f counts it once); and it is zero when t is
already in S. -/
theorem c4_amended (P : KnowledgeGraph) (ts : List Triple) (t : Triple)
    (hp : pureVals P) :
    ((buildSummary P ts).marginal_value t = some (
      (if (buildSummary P ts).has_entity t.1 then 0 else valR (P.entity_value t.1)) +
      (if (buildSummary P ts).has_entity t.2.2 then 0 else valR (P.entity_value t.2.2)) +
      (if (buildSummary P ts).has_triple t then 0 else valR (P.triple_value t)))) ∧
    (t.1 ≠ t.2.2 →
      (buildSummary P ts).marginal_value t =
        some (objectiveF ((buildSummary P ts).add_triple t) -
          objectiveF (buildSummary P ts))) ∧
    ((buildSummary P ts).has_triple t → (buildSummary P ts).marginal_value t = some 0) := by
  have hpar : (buildSummary P ts).parent_ = P := buildS_parent P ts
  have hp2 : pureVals (buildSummary P ts).parent_ := by rw [hpar]; exact hp
  refine ⟨?_, ?_, ?_⟩
  · rw [marginal_pure _ t hp2, hpar]
  · intro hne
    exact objective_diff_gen _ t hne hp2 (buildS_invariant P ts)
  · intro h3
    have he1 := (buildS_invariant P ts t.1).mpr ⟨t, h3, Or.inl rfl⟩
    have he2 := (buildS_invariant P ts t.2.2).mpr ⟨t, h3, Or.inr rfl⟩
    rw [marginal_pure _ t hp2]
    simp [he1, he2, h3]

/-- Witness for c4_amended at a concrete instance. -/
theorem c4_witness :
    pureVals selfLoopParent ∧ ("A", "r", "B").1 ≠ ("A", "r", "B").2.2 ∧
    (buildSummary selfLoopParent [("A", "r", "A")]).marginal_value ("A", "r", "B") =
      some (objectiveF
          ((buildSummary selfLoopParent [("A", "r", "A")]).add_triple ("A", "r", "B")) -
        objectiveF (buildSummary selfLoopParent [("A", "r", "A")])) :=
  ⟨⟨fun _ => rfl, fun _ => rfl⟩, by decide,
   (c4_amended selfLoopParent [("A", "r", "A")] ("A", "r", "B")
      ⟨fun _ => rfl, fun _ => rfl⟩).2.1 (by decide)⟩

/-- Field-wise equality of stores. -/
theorem KnowledgeGraph.eq_of_fields (G1 G2 : KnowledgeGraph)
    (h1 : G1.entities_ = G2.entities_) (h2 : G1.relationships_ = G2.relationships_)
    (h3 : G1.triples_ = G2.triples_) (h4 : G1.entity_value_ = G2.entity_value_)
    (h5 : G1.triple_value_ = G2.triple_value_) : G1 = G2 := by
  cases G1; cases G2; simp_all

/-- addEntity preserves freedom from duplicates. -/
theorem addEntity_nodup (l : List String) (e : String) (h : l.Nodup) :
    (addEntity l e).Nodup := by
  unfold addEntity
  by_cases he : e ∈ l
  · rw [if_pos he]; exact h
  · rw [if_neg he]
    exact List.nodup_append.mpr ⟨h, List.nodup_singleton e, by simpa using he⟩

/-- Entity IDs are never reused: the entity list of a built store has no
duplicates. -/
theorem buildKG_entities_nodup (ts : List Triple) : (buildKG ts).entities_.Nodup := by
  unfold buildKG
  have h : ∀ G : KnowledgeGraph, G.entities_.Nodup →
      (ts.foldl KnowledgeGraph.add_triple G).entities_.Nodup := by
    induction ts with
    | nil => exact fun G hG => hG
    | cons t ts ih =>
        intro G hG
        rw [List.foldl_cons]
        apply ih
        unfold KnowledgeGraph.add_triple
        by_cases hd : G.has_triple t
        · rw [if_pos hd]; exact hG
        · rw [if_neg hd]
          exact addEntity_nodup _ _ (addEntity_nodup _ _ hG)
  exact h emptyKG List.nodup_nil

/-- Triples are deduplicated: the triple list of a built store has no
duplicates. -/
theorem buildKG_triples_nodup (ts : List Triple) : (buildKG ts).triples_.Nodup := by
  unfold buildKG
  have h : ∀ G : KnowledgeGraph, G.triples_.Nodup →
      (ts.foldl KnowledgeGraph.add_triple G).triples_.Nodup := by
    induction ts with
    | nil => exact fun G hG => hG
    | cons t ts ih =>
        intro G hG
        rw [List.foldl_cons]
        apply ih
        unfold KnowledgeGraph.add_triple
        by_cases hd : G.has_triple t
        · rw [if_pos hd]; exact hG
        · rw [if_neg hd]
          exact List.nodup_append.mpr ⟨hG, List.nodup_singleton t, by simpa using hd⟩
  exact h emptyKG List.nodup_nil

/-- On a duplicate-free entity list, the ID of the entity stored at index j
is j (the two dicts are mutually inverse). -/
theorem entity_id_of_get (G : KnowledgeGraph) (hnd : G.entities_.Nodup) (j : ℕ)
    (e : String) (hj : G.id_entity_ j = some e) : G.entity_id_ e = some j := by
  unfold KnowledgeGraph.id_entity_ at hj
  unfold KnowledgeGraph.entity_id_
  have hjlen : j < G.entities_.length := by
    by_contra h
    rw [List.get?_eq_none.mpr (Nat.le_of_not_lt h)] at hj
    exact Option.noConfusion hj
  have hget : G.entities_[j] = e := by
    have := List.get?_eq_getElem? G.entities_ j
    rw [this, List.getElem?_eq_getElem hjlen] at hj
    exact Option.some_inj.mp hj
  rw [List.findIdx?_eq_some_iff_getElem]
  refine ⟨hjlen, by simp [hget], fun k hk => ?_⟩
  simp only [beq_eq_false_iff_ne, ne_eq, Bool.not_eq_true, beq_iff_eq]
  intro hke
  have : k = j := by
    have hklen : k < G.entities_.length := Nat.lt_trans hk hjlen
    have hinj : G.entities_[k] = G.entities_[j] ↔ k = j :=
      List.Nodup.getElem_inj_iff hnd
    exact hinj.mp (by rw [hget, hke])
  omega

/-- One walk-loop body application commutes past the iterator. -/
theorem walkIter_comm (M : ℕ → ℕ → ℚ) (n : ℕ) (c : ℚ) (k : ℕ)
    (s : List FQ × List FQ) :
    walkIter M n c k
      (vecScale (1 - c) (matVec M n s.1),
        vecDiv (vecAdd s.2 (vecScale (1 - c) (matVec M n s.1)))
          (fsum (vecAdd s.2 (vecScale (1 - c) (matVec M n s.1))))) =
      (let q1 := vecScale (1 - c) (matVec M n (walkIter M n c k s).1)
       let r1 := vecAdd (walkIter M n c k s).2 q1
       (q1, vecDiv r1 (fsum r1))) := by
  induction k generalizing s with
  | zero => rfl
  | succ k ih =>
      show walkIter M n c k _ = _
      rw [ih]
      rfl

/-- The code's restart-walk recursion computes exactly the spec's
fold of `power` renormalized iterations. -/
theorem walk_eq_specWalk (M : ℕ → ℕ → ℚ) (n : ℕ) (x0 : List FQ) (c : ℚ)
    (power : ℕ) :
    random_walk_with_restart M n x0 c power = specWalk M n c x0 power := by
  unfold random_walk_with_restart specWalk
  congr 1
  generalize (vecScale c x0, vecScale c x0) = s
  induction power generalizing s with
  | zero => rfl
  | succ k ih =>
      rw [List.range_succ, List.foldl_append, List.foldl_cons, List.foldl_nil, ← ih]
      show walkIter M n c k _ = _
      rw [walkIter_comm]

/-- Float addition of an exact zero is the identity (also on NaN). -/
theorem fadd_zero_right (x : FQ) : fadd x (some 0) = x := by
  cases x <;> simp [fadd]

/-- Two successive exact-rational additions merge. -/
theorem fadd_fadd_some (x : FQ) (b c : ℚ) :
    fadd (fadd x (some b)) (some c) = fadd x (some (b + c)) := by
  cases x with
  | none => rfl
  | some a => show some (a + b + c) = some (a + (b + c)); rw [add_assoc]

/-- A failed lookup keeps the query-vector fold failed. -/
theorem qv_fold_none (G : KnowledgeGraph) (wl : List QueryRec) :
    wl.foldl (fun acc q => acc.bind (fun x =>
      (G.entity_id_ q.topicEntityMid).map (fun i =>
        x.set i (fadd (x.getD i (some 0)) (some 1)))))
      (none : Option (List FQ)) = none := by
  induction wl with
  | nil => rfl
  | cons q wl ih => exact ih

/-- An unknown topic anywhere makes the query-vector fold raise. -/
theorem qv_fold_fail (G : KnowledgeGraph) (wl : List QueryRec) :
    ∀ acc : Option (List FQ), (∃ q ∈ wl, G.entity_id_ q.topicEntityMid = none) →
    wl.foldl (fun acc q => acc.bind (fun x =>
      (G.entity_id_ q.topicEntityMid).map (fun i =>
        x.set i (fadd (x.getD i (some 0)) (some 1))))) acc = none := by
  induction wl with
  | nil =>
      intro acc h
      obtain ⟨q, hq, _⟩ := h
      exact absurd hq (List.not_mem_nil q)
  | cons q wl ih =>
      intro acc h
      rw [List.foldl_cons]
      by_cases hq : G.entity_id_ q.topicEntityMid = none
      · have hstep : (acc.bind (fun x =>
            (G.entity_id_ q.topicEntityMid).map (fun i =>
              x.set i (fadd (x.getD i (some 0)) (some 1))))) = none := by
          cases acc with
          | none => rfl
          | some x => simp [hq]
        rw [hstep]
        exact qv_fold_none G wl
      · obtain ⟨q2, hq2, hn2⟩ := h
        rcases List.mem_cons.mp hq2 with rfl | hmem
        · exact absurd hn2 hq
        · exact ih _ ⟨q2, hmem, hn2⟩

/-- Closed form of the query-vector fold when every topic is known: the
result exists, keeps its length, and every coordinate accumulates one unit
per query whose topic has that ID. -/
theorem qv_success (G : KnowledgeGraph) (wl : List QueryRec) :
    ∀ v : List FQ, (∀ q ∈ wl, (G.entity_id_ q.topicEntityMid).isSome) →
    ∃ w, wl.foldl (fun acc q => acc.bind (fun x =>
        (G.entity_id_ q.topicEntityMid).map (fun i =>
          x.set i (fadd (x.getD i (some 0)) (some 1))))) (some v) = some w ∧
      w.length = v.length ∧
      ∀ j, w[j]? = (v[j]?).map (fun a => fadd a
        (some ((wl.filter
          (fun q => G.entity_id_ q.topicEntityMid == some j)).length : ℚ))) := by
  induction wl with
  | nil =>
      intro v _
      refine ⟨v, rfl, rfl, fun j => ?_⟩
      cases hvj : v[j]? with
      | none => rfl
      | some a => simp [List.filter_nil, fadd_zero_right]
  | cons q wl ih =>
      intro v hall
      obtain ⟨i, hi⟩ := Option.isSome_iff_exists.mp (hall q (List.mem_cons_self q wl))
      have htail : ∀ q2 ∈ wl, (G.entity_id_ q2.topicEntityMid).isSome :=
        fun q2 hq2 => hall q2 (List.mem_cons_of_mem q hq2)
      obtain ⟨w, hw, hlen, hpt⟩ := ih (v.set i (fadd (v.getD i (some 0)) (some 1))) htail
      refine ⟨w, ?_, ?_, ?_⟩
      · rw [List.foldl_cons]
        have hstep : ((some v).bind (fun x =>
            (G.entity_id_ q.topicEntityMid).map (fun i =>
              x.set i (fadd (x.getD i (some 0)) (some 1))))) =
            some (v.set i (fadd (v.getD i (some 0)) (some 1))) := by
          simp [hi]
        rw [hstep]
        exact hw
      · rw [hlen, List.length_set]
      · intro j
        rw [hpt j]
        by_cases hij : i = j
        · subst hij
          rw [List.filter_cons]
          simp only [hi, beq_self_eq_true, if_true]
          by_cases hjlen : i < v.length
          · rw [List.getElem?_set_self hjlen]
            rw [List.getElem?_eq_getElem hjlen]
            simp only [Option.map_some']
            rw [List.getD_eq_getElem?_getD, List.getElem?_eq_getElem hjlen]
            show some (fadd (fadd v[i] (some 1)) _) = some (fadd v[i] _)
            rw [fadd_fadd_some, List.length_cons]
            congr 2
            push_cast
            ring
          · rw [List.getElem?_eq_none (Nat.le_of_not_lt hjlen),
              List.getElem?_eq_none
                (by rw [List.length_set]; exact Nat.le_of_not_lt hjlen)]
            rfl
        · rw [List.getElem?_set_ne hij, List.filter_cons]
          have : (G.entity_id_ q.topicEntityMid == some j) = false := by
            rw [hi]
            exact beq_eq_false_iff_ne.mpr (fun hc => hij (Option.some_inj.mp hc))
          rw [this]
          simp only [Bool.false_eq_true, if_false]

/-- The query_vector construction computes exactly the spec's seed vector
x0: one unit per query at its topic entity's ID, raising (none) exactly
when some topic is not an entity of the graph. -/
theorem query_vector_eq_specSeed (G : KnowledgeGraph) (wl : List QueryRec) :
    query_vector G wl = specSeed G wl := by
  unfold query_vector specSeed
  by_cases hall : ∀ q ∈ wl, (G.entity_id_ q.topicEntityMid).isSome
  · rw [if_pos (List.all_eq_true.mpr (fun q hq => hall q hq))]
    obtain ⟨w, hw, hlen, hpt⟩ :=
      qv_success G wl (List.replicate G.number_of_entities (some (0 : ℚ))) hall
    rw [hw]
    congr 1
    apply List.ext_getElem?
    intro j
    rw [hpt j]
    by_cases hj : j < G.number_of_entities
    · rw [List.getElem?_replicate_of_lt hj, List.getElem?_map,
        List.getElem?_range hj]
      simp only [Option.map_some']
      show some (fadd (some 0) _) = _
      unfold fadd
      simp [zero_add]
    · rw [List.getElem?_eq_none
          (by rw [List.length_replicate]; exact Nat.le_of_not_lt hj),
        List.getElem?_eq_none
          (by rw [List.length_map, List.length_range]; exact Nat.le_of_not_lt hj)]
      rfl
  · rw [if_neg (by
      intro hcontra
      exact hall (fun q hq => List.all_eq_true.mp hcontra q hq))]
    apply qv_fold_fail
    push_neg at hall
    obtain ⟨q, hq, hn⟩ := hall
    exact ⟨q, hq, Option.not_isSome_iff_eq_none.mp hn⟩

/-- A successful entity_id lookup returns a valid index holding that
label. -/
theorem entity_id_facts (G : KnowledgeGraph) (e : String) (j : ℕ)
    (h : G.entity_id_ e = some j) :
    j < G.number_of_entities ∧ G.id_entity_ j = some e := by
  unfold KnowledgeGraph.entity_id_ at h
  obtain ⟨hlt, hp, _⟩ := List.findIdx?_eq_some_iff_getElem.mp h
  refine ⟨hlt, ?_⟩
  unfold KnowledgeGraph.id_entity_
  rw [List.get?_eq_getElem?, List.getElem?_eq_getElem hlt]
  rw [beq_iff_eq] at hp
  rw [hp]

/-- A recorded entity has an ID. -/
theorem entity_id_isSome (G : KnowledgeGraph) (e : String) (he : G.has_entity e) :
    ∃ j, G.entity_id_ e = some j := by
  have h : (G.entities_.findIdx? (fun x => x == e)).isSome = true := by
    rw [List.findIdx?_isSome]
    exact List.any_eq_true.mpr ⟨e, he, beq_self_eq_true e⟩
  obtain ⟨j, hj⟩ := Option.isSome_iff_exists.mp h
  exact ⟨j, hj⟩

/-- The entity-value pass leaves a label untouched when no iterated ID maps
to it. -/
theorem model_entity_fold_notin (G : KnowledgeGraph) (x : List FQ) (l : List ℕ)
    (H : KnowledgeGraph) (e : String) (hno : ∀ i ∈ l, G.id_entity_ i ≠ some e) :
    (l.foldl (fun H i =>
      match G.id_entity_ i with
      | some e2 =>
          { H with entity_value_ := updFnS H.entity_value_ e2 (logVal (x.getD i (some 0))) }
      | none => H) H).entity_value_ e = H.entity_value_ e := by
  induction l generalizing H with
  | nil => rfl
  | cons i l ih =>
      rw [List.foldl_cons, ih _ (fun k hk => hno k (List.mem_cons_of_mem i hk))]
      cases hid : G.id_entity_ i with
      | none => simp only [hid]
      | some e2 =>
          simp only [hid]
          show updFnS H.entity_value_ e2 (logVal (x.getD i (some 0))) e = H.entity_value_ e
          unfold updFnS
          rw [if_neg]
          rintro rfl
          exact hno i (List.mem_cons_self i l) hid

/-- The entity-value pass writes log(x[j] + 1) at the label whose unique ID
j is iterated. -/
theorem model_entity_fold_at (G : KnowledgeGraph) (x : List FQ) (l : List ℕ)
    (hnd : l.Nodup) (H : KnowledgeGraph) (j : ℕ) (e : String)
    (hj : j ∈ l) (hid : G.id_entity_ j = some e)
    (hinj : ∀ i ∈ l, G.id_entity_ i = some e → i = j) :
    (l.foldl (fun H i =>
      match G.id_entity_ i with
      | some e2 =>
          { H with entity_value_ := updFnS H.entity_value_ e2 (logVal (x.getD i (some 0))) }
      | none => H) H).entity_value_ e = logVal (x.getD j (some 0)) := by
  induction l generalizing H with
  | nil => exact absurd hj (List.not_mem_nil j)
  | cons i l ih =>
      rw [List.foldl_cons]
      by_cases hij : i = j
      · subst hij
        have hnotin : i ∉ l := (List.nodup_cons.mp hnd).1
        rw [model_entity_fold_notin G x l _ e (fun k hk hkid => by
          have := hinj k (List.mem_cons_of_mem i hk) hkid
          subst this
          exact hnotin hk)]
        simp only [hid]
        show updFnS H.entity_value_ e (logVal (x.getD i (some 0))) e = _
        unfold updFnS
        rw [if_pos rfl]
      · have hjl : j ∈ l := by
          rcases List.mem_cons.mp hj with rfl | h
          · exact absurd rfl hij
          · exact h
        exact ih (List.nodup_cons.mp hnd).2 _ hjl
          (fun k hk hkid => hinj k (List.mem_cons_of_mem i hk) hkid)

/-- The triple-value pass writes log(x[id e1]·x[id e2] + 1) at every
iterated triple. -/
theorem model_triple_fold_at (G : KnowledgeGraph) (x : List FQ) (ts : List Triple)
    (H : KnowledgeGraph) (t : Triple) (ht : t ∈ ts) :
    (ts.foldl (fun H t =>
      { H with triple_value_ := (updFnT H.triple_value_ t
          (logVal (fmul (x.getD (G.eid t.1) (some 0)) (x.getD (G.eid t.2.2) (some 0))))) })
      H).triple_value_ t =
    logVal (fmul (x.getD (G.eid t.1) (some 0)) (x.getD (G.eid t.2.2) (some 0))) := by
  induction ts generalizing H with
  | nil => exact absurd ht (List.not_mem_nil t)
  | cons u ts ih =>
      rw [List.foldl_cons]
      by_cases htl : t ∈ ts
      · exact ih _ htl
      · have : t = u := by
          rcases List.mem_cons.mp ht with rfl | h
          · rfl
          · exact absurd h htl
        subst this
        rw [model_triple_fold_value G x ts _ t htl]
        show updFnT H.triple_value_ t _ t = _
        unfold updFnT
        rw [if_pos rfl]

/-- The entity-value pass leaves the store's structural fields unchanged. -/
theorem model_entity_fold_shape (G : KnowledgeGraph) (x : List FQ) (l : List ℕ)
    (H : KnowledgeGraph) :
    ((l.foldl (fun H i =>
      match G.id_entity_ i with
      | some e2 =>
          { H with entity_value_ := updFnS H.entity_value_ e2 (logVal (x.getD i (some 0))) }
      | none => H) H).entities_ = H.entities_ ∧
     (l.foldl (fun H i =>
      match G.id_entity_ i with
      | some e2 =>
          { H with entity_value_ := updFnS H.entity_value_ e2 (logVal (x.getD i (some 0))) }
      | none => H) H).relationships_ = H.relationships_ ∧
     (l.foldl (fun H i =>
      match G.id_entity_ i with
      | some e2 =>
          { H with entity_value_ := updFnS H.entity_value_ e2 (logVal (x.getD i (some 0))) }
      | none => H) H).triples_ = H.triples_) := by
  induction l generalizing H with
  | nil => exact ⟨rfl, rfl, rfl⟩
  | cons i l ih =>
      rw [List.foldl_cons]
      cases hid : G.id_entity_ i with
      | none =>
          simp only [hid]
          exact ih H
      | some e2 =>
          simp only [hid]
          exact ih _

/-- The triple-value pass leaves the store's structural fields unchanged. -/
theorem model_triple_fold_shape (G : KnowledgeGraph) (x : List FQ) (ts : List Triple)
    (H : KnowledgeGraph) :
    ((ts.foldl (fun H t =>
      { H with triple_value_ := (updFnT H.triple_value_ t
          (logVal (fmul (x.getD (G.eid t.1) (some 0)) (x.getD (G.eid t.2.2) (some 0))))) })
      H).entities_ = H.entities_ ∧
     (ts.foldl (fun H t =>
      { H with triple_value_ := (updFnT H.triple_value_ t
          (logVal (fmul (x.getD (G.eid t.1) (some 0)) (x.getD (G.eid t.2.2) (some 0))))) })
      H).relationships_ = H.relationships_ ∧
     (ts.foldl (fun H t =>
      { H with triple_value_ := (updFnT H.triple_value_ t
          (logVal (fmul (x.getD (G.eid t.1) (some 0)) (x.getD (G.eid t.2.2) (some 0))))) })
      H).triples_ = H.triples_) := by
  induction ts generalizing H with
  | nil => exact ⟨rfl, rfl, rfl⟩
  | cons u ts ih => rw [List.foldl_cons]; exact ih _

/-- Claim C5: for every built graph and query workload, model_user_pref
with restart probability c = 0.15 and a given power computes exactly the
spec's pipeline: the seed vector x0 accumulating one unit per query at its
topic entity, exactly `power` iterations of q ← (1−c)·T·q, r ← r + q,
r ← r / sum(r) initialized with q = r = c·x0 and renormalized after every
iteration, then entity_value(e) = log(r[id(e)] + 1) for every entity and
triple_value((e1,r2,e2)) = log(r[id(e1)]·r[id(e2)] + 1) for every triple of
the graph (all other values at their reset default 0; the run raises
exactly when some topic is unknown). -/
theorem c5_model_user_pref_spec (ts : List Triple) (wl : List QueryRec) (power : ℕ) :
    (buildKG ts).model_user_pref wl power = specModelUserPref (buildKG ts) wl power := by
  unfold KnowledgeGraph.model_user_pref specModelUserPref
  rw [query_vector_eq_specSeed]
  cases hs : specSeed (buildKG ts) wl with
  | none => rfl
  | some x0 =>
      simp only [Option.map_some']
      congr 1
      rw [walk_eq_specWalk]
      apply KnowledgeGraph.eq_of_fields
      · rw [(model_triple_fold_shape _ _ _ _).1, (model_entity_fold_shape _ _ _ _).1]
        rfl
      · rw [(model_triple_fold_shape _ _ _ _).2.1, (model_entity_fold_shape _ _ _ _).2.1]
        rfl
      · rw [(model_triple_fold_shape _ _ _ _).2.2, (model_entity_fold_shape _ _ _ _).2.2]
        rfl
      · funext e
        rw [model_triple_fold_ev]
        by_cases he : (buildKG ts).has_entity e
        · obtain ⟨j, hj⟩ := entity_id_isSome _ e he
          obtain ⟨hjlt, hjid⟩ := entity_id_facts _ e j hj
          rw [model_entity_fold_at (buildKG ts) _ (List.range (buildKG ts).number_of_entities)
            (List.nodup_range _) _ j e (List.mem_range.mpr hjlt) hjid
            (fun i _ hi => by
              have h1 := entity_id_of_get _ (buildKG_entities_nodup ts) i e hi
              rw [hj] at h1
              exact (Option.some_inj.mp h1).symm)]
          have he2 : e ∈ (buildKG ts).entities_ := he
          show _ = if e ∈ (buildKG ts).entities_ then _ else _
          rw [if_pos he2, KnowledgeGraph.eid, hj]
          rfl
        · rw [model_entity_fold_value _ _ _ _ _ he]
          have he2 : ¬ e ∈ (buildKG ts).entities_ := he
          show _ = if e ∈ (buildKG ts).entities_ then _ else _
          rw [if_neg he2]
          rfl
      · funext u
        by_cases hu : (buildKG ts).has_triple u
        · rw [model_triple_fold_at _ _ _ _ u hu]
          have hu2 : u ∈ (buildKG ts).triples_ := hu
          show _ = if u ∈ (buildKG ts).triples_ then _ else _
          rw [if_pos hu2]
        · rw [model_triple_fold_value _ _ _ _ _ hu, model_entity_fold_tv]
          have hu2 : ¬ u ∈ (buildKG ts).triples_ := hu
          show _ = if u ∈ (buildKG ts).triples_ then _ else _
          rw [if_neg hu2]
          rfl

/-- Claim C7 (counterexample): on the one-entity graph (A,p,A) with an
empty workload — an all-zero seed vector — model_user_pref completes, but
the zero-sum renormalization divides by zero, so the walk vector is NaN and
entity A receives the NaN value (none), not log(1) = 0. -/
theorem c7_counterexample :
    entityValueAfterModel (buildKG [("A", "p", "A")]) [] 1 "A" = none ∧
    (none : Option ℝ) ≠ some 0 := by
  constructor
  · have hq0 : vecScale (15 / 100) [some (0 : ℚ)] = [some 0] := by
      show [fmul (some (15 / 100 : ℚ)) (some 0)] = [some 0]
      norm_num [fmul]
    have hmv : ∀ M : ℕ → ℕ → ℚ, matVec M 1 [some (0 : ℚ)] = [some 0] := by
      intro M
      show [fsum [fmul (some (M 0 0)) (List.getD [some (0 : ℚ)] 0 (some 0))]] = [some 0]
      show [fadd (some 0) (fmul (some (M 0 0)) (some 0))] = [some 0]
      norm_num [fmul, fadd]
    have hx : ∀ M : ℕ → ℕ → ℚ,
        random_walk_with_restart M 1 [some (0 : ℚ)] (15 / 100) 1 = [none] := by
      intro M
      show (walkIter M 1 (15 / 100) 1
        (vecScale (15 / 100) [some 0], vecScale (15 / 100) [some 0])).2 = [none]
      rw [hq0]
      show (walkIter M 1 (15 / 100) 0
        (vecScale (1 - 15 / 100) (matVec M 1 [some 0]),
         vecDiv (vecAdd [some 0] (vecScale (1 - 15 / 100) (matVec M 1 [some 0])))
           (fsum (vecAdd [some 0] (vecScale (1 - 15 / 100) (matVec M 1 [some 0])))))).2 =
        [none]
      rw [hmv M]
      have hsc : vecScale (1 - 15 / 100) [some (0 : ℚ)] = [some 0] := by
        show [fmul (some (1 - 15 / 100 : ℚ)) (some 0)] = [some 0]
        norm_num [fmul]
      rw [hsc]
      have hva : vecAdd [some (0 : ℚ)] [some 0] = [some 0] := by
        show [fadd (some (0 : ℚ)) (some 0)] = [some 0]
        norm_num [fadd]
      rw [hva]
      have hfs : fsum [some (0 : ℚ)] = some 0 := by
        show fadd (some (0 : ℚ)) (some 0) = some 0
        norm_num [fadd]
      rw [hfs]
      show vecDiv [some (0 : ℚ)] (some 0) = [none]
      show [fdiv (some (0 : ℚ)) (some 0)] = [none]
      norm_num [fdiv]
    unfold entityValueAfterModel KnowledgeGraph.model_user_pref
    have hqv : query_vector (buildKG [("A", "p", "A")]) [] =
        some [some (0 : ℚ)] := rfl
    rw [hqv]
    simp only [Option.map_some', KnowledgeGraph.entity_value]
    rw [model_triple_fold_ev]
    have hone : (buildKG [("A", "p", "A")]).number_of_entities = 1 := rfl
    rw [hone, hx]
    have hid : (buildKG [("A", "p", "A")]).id_entity_ 0 = some "A" := rfl
    simp only [List.range_succ, List.range_zero, List.nil_append,
      List.foldl_cons, List.foldl_nil, hid]
    show updFnS _ "A" (logVal (List.getD [none] 0 (some 0))) "A" = none
    unfold updFnS
    rw [if_pos rfl]
    rfl
  · intro h
    exact Option.noConfusion h

/-- A duplicate-summed COO read is non-negative when every stored entry
is. -/
theorem cooSum_nonneg (entries : List (ℕ × ℕ × ℚ)) (i j : ℕ)
    (h : ∀ ent ∈ entries, 0 ≤ ent.2.2) : 0 ≤ cooSum entries i j := by
  unfold cooSum
  apply List.sum_nonneg
  intro x hx
  obtain ⟨ent, hent, hfx⟩ := List.mem_filterMap.mp hx
  by_cases hc : ent.1 = i ∧ ent.2.1 = j
  · rw [if_pos hc] at hfx
    rw [← Option.some_inj.mp hfx]
    exact h ent hent
  · rw [if_neg hc] at hfx
    exact Option.noConfusion hfx

/-- A nonzero COO read names a stored entry at that coordinate. -/
theorem cooSum_ne_zero (entries : List (ℕ × ℕ × ℚ)) (i j : ℕ)
    (h : cooSum entries i j ≠ 0) : ∃ ent ∈ entries, ent.1 = i ∧ ent.2.1 = j := by
  by_contra hall
  push_neg at hall
  apply h
  unfold cooSum
  apply List.sum_eq_zero
  intro x hx
  obtain ⟨ent, hent, hfx⟩ := List.mem_filterMap.mp hx
  by_cases hc : ent.1 = i ∧ ent.2.1 = j
  · exact absurd hc.2 (hall ent hent hc.1)
  · rw [if_neg hc] at hfx
    exact Option.noConfusion hfx

/-- Every entry of the code's adjacency CSR is non-negative. -/
theorem csr_nonneg (G : KnowledgeGraph) (i j : ℕ) : 0 ≤ G.csrMatrix i j := by
  unfold KnowledgeGraph.csrMatrix
  apply cooSum_nonneg
  intro ent hent
  obtain ⟨t, _, rfl⟩ := List.mem_map.mp hent
  norm_num

/-- Every entry of the code's degree matrix is non-negative. -/
theorem deg_nonneg (G : KnowledgeGraph) (i j : ℕ) : 0 ≤ G.degMatrix i j := by
  unfold KnowledgeGraph.degMatrix
  apply cooSum_nonneg
  intro ent hent
  obtain ⟨t, _, rfl⟩ := List.mem_map.mp hent
  norm_num

/-- Every entry of the code's transition matrix is non-negative. -/
theorem trans_nonneg (G : KnowledgeGraph) (i j : ℕ) : 0 ≤ G.transition_matrix i j := by
  unfold KnowledgeGraph.transition_matrix
  apply Finset.sum_nonneg
  intro k _
  exact mul_nonneg (csr_nonneg G k i) (deg_nonneg G k j)

/-- A nonzero transition-matrix entry comes from a recorded triple whose
head has the entry's column ID and whose tail has its row ID. -/
theorem trans_edge (G : KnowledgeGraph) (i j : ℕ)
    (h : G.transition_matrix i j ≠ 0) :
    ∃ t, G.has_triple t ∧ G.eid t.1 = j ∧ G.eid t.2.2 = i := by
  unfold KnowledgeGraph.transition_matrix at h
  obtain ⟨k, _, hkne⟩ := Finset.exists_ne_zero_of_sum_ne_zero h
  have hA : G.csrMatrix k i ≠ 0 := fun h0 => hkne (by rw [h0, zero_mul])
  have hD : G.degMatrix k j ≠ 0 := fun h0 => hkne (by rw [h0, mul_zero])
  unfold KnowledgeGraph.csrMatrix at hA
  unfold KnowledgeGraph.degMatrix at hD
  obtain ⟨ent, hent, hc1, hc2⟩ := cooSum_ne_zero _ _ _ hA
  obtain ⟨t, ht, rfl⟩ := List.mem_map.mp hent
  obtain ⟨ent2, hent2, hd1, hd2⟩ := cooSum_ne_zero _ _ _ hD
  obtain ⟨t2, _, rfl⟩ := List.mem_map.mp hent2
  refine ⟨t, ht, ?_, hc2⟩
  have h1 : G.eid t.1 = k := hc1
  have h2 : G.eid t2.1 = k := hd1
  have h3 : G.eid t2.1 = j := hd2
  rw [h1, ← h2]
  exact h3

/-- In a built graph an entity is recorded exactly when it is an endpoint
of a recorded triple. -/
theorem buildKG_invariant (ts : List Triple) :
    ∀ e, (buildKG ts).has_entity e ↔
      ∃ u, (buildKG ts).has_triple u ∧ (e = u.1 ∨ e = u.2.2) := by
  unfold buildKG
  have base : ∀ e, emptyKG.has_entity e ↔
      ∃ u, emptyKG.has_triple u ∧ (e = u.1 ∨ e = u.2.2) := by
    intro e
    constructor
    · intro he; exact absurd he (List.not_mem_nil e)
    · rintro ⟨u, hu, _⟩; exact absurd hu (List.not_mem_nil u)
  revert base
  generalize emptyKG = G0
  induction ts generalizing G0 with
  | nil => intro h; exact h
  | cons t ts ih =>
      intro h
      rw [List.foldl_cons]
      exact ih _ (add_step_invariant G0 t h)

/-- A triple present after bulk ingestion into any store was already there
or is one of the ingested triples. -/
theorem foldl_add_triple_mem (u : Triple) : ∀ (ts : List Triple) (G : KnowledgeGraph),
    (ts.foldl KnowledgeGraph.add_triple G).has_triple u → G.has_triple u ∨ u ∈ ts := by
  intro ts
  induction ts with
  | nil => intro G hG; exact Or.inl hG
  | cons t ts ih =>
      intro G hG
      rw [List.foldl_cons] at hG
      rcases ih _ hG with h1 | h1
      · rcases (add_triple_mem G t u).mp h1 with h2 | h2
        · exact Or.inl h2
        · exact Or.inr (by rw [h2]; exact List.mem_cons_self t ts)
      · exact Or.inr (List.mem_cons_of_mem t h1)

/-- Every triple of a built graph comes from the ingested list. -/
theorem buildKG_triples_sub (ts : List Triple) (u : Triple)
    (hu : (buildKG ts).has_triple u) : u ∈ ts := by
  unfold buildKG at hu
  rcases foldl_add_triple_mem u ts emptyKG hu with h1 | h1
  · exact absurd h1 (List.not_mem_nil u)
  · exact h1

/-- An assigned dense ID is in range. -/
theorem id_entity_lt (G : KnowledgeGraph) (j : ℕ) (e : String)
    (h : G.id_entity_ j = some e) : j < G.number_of_entities := by
  unfold KnowledgeGraph.id_entity_ at h
  rw [List.get?_eq_getElem?] at h
  exact (List.getElem?_eq_some_iff.mp h).1

/-- Reading back the ID assigned to a recorded entity returns its label. -/
theorem id_entity_eid (G : KnowledgeGraph) (e : String) (he : G.has_entity e) :
    G.id_entity_ (G.eid e) = some e := by
  obtain ⟨j, hj⟩ := entity_id_isSome G e he
  unfold KnowledgeGraph.eid
  rw [hj]
  exact (entity_id_facts G e j hj).2

/-- Folding float addition over a pure non-negative vector from a
non-negative accumulator yields a pure result bounding the accumulator and
every entry. -/
theorem fadd_fold_pure : ∀ (v : List FQ), pureNN v → ∀ c : ℚ, 0 ≤ c →
    ∃ s : ℚ, v.foldl fadd (some c) = some s ∧ c ≤ s ∧ 0 ≤ s ∧
      ∀ x ∈ v, ∀ a : ℚ, x = some a → a ≤ s := by
  intro v
  induction v with
  | nil =>
      intro _ c hc
      exact ⟨c, rfl, le_refl c, hc, fun x hx => absurd hx (List.not_mem_nil x)⟩
  | cons x v ih =>
      intro hv c hc
      obtain ⟨a, ha, rfl⟩ := hv x (List.mem_cons_self x v)
      have hvt : pureNN v := fun y hy => hv y (List.mem_cons_of_mem _ hy)
      obtain ⟨s, hs, hcs, hs0, hbound⟩ := ih hvt (c + a) (add_nonneg hc ha)
      refine ⟨s, ?_, ?_, hs0, ?_⟩
      · rw [List.foldl_cons]
        show v.foldl fadd (some (c + a)) = some s
        exact hs
      · exact le_trans (le_add_of_nonneg_right ha) hcs
      · intro y hy b hb
        rcases List.mem_cons.mp hy with hEq | hy2
        · rw [hEq] at hb
          have hba : a = b := Option.some_inj.mp hb
          rw [← hba]
          exact le_trans (le_add_of_nonneg_left hc) hcs
        · exact hbound y hy2 b hb

/-- A vector of exact zeros folds to the accumulator. -/
theorem fadd_fold_zeros : ∀ (v : List FQ), (∀ x ∈ v, x = some (0 : ℚ)) →
    ∀ c : ℚ, v.foldl fadd (some c) = some c := by
  intro v
  induction v with
  | nil => intro _ c; rfl
  | cons x v ih =>
      intro hv c
      rw [List.foldl_cons, hv x (List.mem_cons_self x v)]
      show v.foldl fadd (some (c + 0)) = some c
      rw [add_zero]
      exact ih (fun y hy => hv y (List.mem_cons_of_mem _ hy)) c

/-- getD over a pure non-negative vector reads a pure non-negative value. -/
theorem getD_pure (v : List FQ) (hv : pureNN v) (j : ℕ) :
    ∃ a : ℚ, 0 ≤ a ∧ v.getD j (some 0) = some a := by
  rw [List.getD_eq_getElem?_getD]
  cases hj : v[j]? with
  | none => exact ⟨0, le_refl 0, rfl⟩
  | some x =>
      obtain ⟨a, ha, hxa⟩ := hv x (List.getElem?_mem hj)
      exact ⟨a, ha, by rw [Option.getD_some]; exact hxa⟩

/-- matVec produces an n-vector. -/
theorem matVec_length (M : ℕ → ℕ → ℚ) (n : ℕ) (v : List FQ) :
    (matVec M n v).length = n := by
  unfold matVec
  rw [List.length_map, List.length_range]

/-- Entry i of matVec below the dimension. -/
theorem matVec_getElem (M : ℕ → ℕ → ℚ) (n : ℕ) (v : List FQ) (i : ℕ) (hi : i < n) :
    (matVec M n v)[i]? =
      some (fsum ((List.range n).map (fun j =>
        fmul (some (M i j)) (v.getD j (some 0))))) := by
  unfold matVec
  rw [List.getElem?_map, List.getElem?_range hi]
  rfl

/-- The row products entering a matVec entry are pure and non-negative when
the matrix row and the vector are. -/
theorem matVec_row_pure (M : ℕ → ℕ → ℚ) (n : ℕ) (v : List FQ) (i : ℕ)
    (hM : ∀ j, 0 ≤ M i j) (hv : pureNN v) :
    pureNN ((List.range n).map (fun j => fmul (some (M i j)) (v.getD j (some 0)))) := by
  intro x hx
  obtain ⟨j, _, rfl⟩ := List.mem_map.mp hx
  obtain ⟨a, ha, hga⟩ := getD_pure v hv j
  refine ⟨M i j * a, mul_nonneg (hM j) ha, ?_⟩
  rw [hga]
  rfl

/-- matVec with a non-negative matrix keeps a vector pure non-negative. -/
theorem matVec_pure (M : ℕ → ℕ → ℚ) (n : ℕ) (v : List FQ)
    (hM : ∀ i j, 0 ≤ M i j) (hv : pureNN v) : pureNN (matVec M n v) := by
  intro x hx
  obtain ⟨i, _, rfl⟩ := List.mem_map.mp hx
  obtain ⟨s, hs, _, hs0, _⟩ :=
    fadd_fold_pure _ (matVec_row_pure M n v i (fun j => hM i j) hv) 0 (le_refl 0)
  exact ⟨s, hs0, hs⟩

/-- Under C-closure of the ingested triples, multiplication by the built
graph's transition matrix keeps a pure vector zero outside C. -/
theorem matVec_zero_outside (ts : List Triple) (C : List String)
    (hC : ∀ t ∈ ts, t.1 ∈ C → t.2.2 ∈ C) (v : List FQ)
    (hv : pureNN v) (hvZ : zeroOutside (buildKG ts) C v) :
    zeroOutside (buildKG ts) C
      (matVec (buildKG ts).transition_matrix (buildKG ts).number_of_entities v) := by
  intro i e hid he
  have hi : i < (buildKG ts).number_of_entities := id_entity_lt _ i e hid
  rw [matVec_getElem _ _ _ i hi]
  congr 1
  simp only [fsum]
  apply fadd_fold_zeros
  intro x hx
  obtain ⟨j, _, rfl⟩ := List.mem_map.mp hx
  by_cases hT : (buildKG ts).transition_matrix i j = 0
  · obtain ⟨a, _, hga⟩ := getD_pure v hv j
    rw [hga, hT]
    show some ((0 : ℚ) * a) = some (0 : ℚ)
    rw [zero_mul]
  · obtain ⟨t, ht, hhead, htail⟩ := trans_edge _ i j hT
    have htmem : t ∈ ts := buildKG_triples_sub ts t ht
    have htail_ent : (buildKG ts).has_entity t.2.2 :=
      (buildKG_invariant ts t.2.2).mpr ⟨t, ht, Or.inr rfl⟩
    have hhead_ent : (buildKG ts).has_entity t.1 :=
      (buildKG_invariant ts t.1).mpr ⟨t, ht, Or.inl rfl⟩
    have h1 : (buildKG ts).id_entity_ i = some t.2.2 := by
      rw [← htail]; exact id_entity_eid _ _ htail_ent
    rw [hid] at h1
    have h2 : t.2.2 = e := (Option.some_inj.mp h1).symm
    have hheadC : t.1 ∉ C := fun hc => he (h2 ▸ hC t htmem hc)
    have h3 : (buildKG ts).id_entity_ j = some t.1 := by
      rw [← hhead]; exact id_entity_eid _ _ hhead_ent
    have hvj : v[j]? = some (some 0) := hvZ j t.1 h3 hheadC
    rw [List.getD_eq_getElem?_getD, hvj]
    show some ((buildKG ts).transition_matrix i j * 0) = some (0 : ℚ)
    rw [mul_zero]

/-- vecScale keeps the length. -/
theorem vecScale_length (c : ℚ) (v : List FQ) : (vecScale c v).length = v.length :=
  List.length_map v _

/-- vecScale by a non-negative scalar keeps a vector pure non-negative. -/
theorem vecScale_pure (c : ℚ) (hc : 0 ≤ c) (v : List FQ) (hv : pureNN v) :
    pureNN (vecScale c v) := by
  intro x hx
  obtain ⟨y, hy, rfl⟩ := List.mem_map.mp hx
  obtain ⟨a, ha, rfl⟩ := hv y hy
  exact ⟨c * a, mul_nonneg hc ha, rfl⟩

/-- vecScale keeps zeros outside C. -/
theorem vecScale_zero_outside (G : KnowledgeGraph) (C : List String) (c : ℚ)
    (v : List FQ) (hv : zeroOutside G C v) : zeroOutside G C (vecScale c v) := by
  intro j e hid he
  unfold vecScale
  rw [List.getElem?_map, hv j e hid he]
  show some (some (c * 0)) = some (some (0 : ℚ))
  rw [mul_zero]

/-- vecScale by a positive scalar keeps a positive coordinate. -/
theorem vecScale_hasPos (c : ℚ) (hc : 0 < c) (v : List FQ) (hv : hasPos v) :
    hasPos (vecScale c v) := by
  obtain ⟨j, a, hj, ha⟩ := hv
  refine ⟨j, c * a, ?_, mul_pos hc ha⟩
  unfold vecScale
  rw [List.getElem?_map, hj]
  rfl

/-- Pointwise read of vecAdd at an index present in both vectors. -/
theorem vecAdd_getElem (v w : List FQ) (j : ℕ) (x y : FQ)
    (hv : v[j]? = some x) (hw : w[j]? = some y) :
    (vecAdd v w)[j]? = some (fadd x y) := by
  unfold vecAdd
  rw [List.getElem?_zipWith, hv, hw]

/-- vecAdd keeps vectors pure non-negative. -/
theorem vecAdd_pure (v w : List FQ) (hv : pureNN v) (hw : pureNN w) :
    pureNN (vecAdd v w) := by
  intro x hx
  obtain ⟨j, hj⟩ := List.mem_iff_getElem?.mp hx
  unfold vecAdd at hj
  rw [List.getElem?_zipWith] at hj
  cases hvj : v[j]? with
  | none => rw [hvj] at hj; exact Option.noConfusion hj
  | some y =>
      cases hwj : w[j]? with
      | none => rw [hvj, hwj] at hj; exact Option.noConfusion hj
      | some z =>
          rw [hvj, hwj] at hj
          have hxy : x = fadd y z := (Option.some_inj.mp hj).symm
          obtain ⟨a, ha, hya⟩ := hv y (List.getElem?_mem hvj)
          obtain ⟨b, hb, hzb⟩ := hw z (List.getElem?_mem hwj)
          refine ⟨a + b, add_nonneg ha hb, ?_⟩
          rw [hxy, hya, hzb]
          rfl

/-- vecAdd keeps zeros outside C. -/
theorem vecAdd_zero_outside (G : KnowledgeGraph) (C : List String) (v w : List FQ)
    (hv : zeroOutside G C v) (hw : zeroOutside G C w) :
    zeroOutside G C (vecAdd v w) := by
  intro j e hid he
  rw [vecAdd_getElem v w j (some 0) (some 0) (hv j e hid he) (hw j e hid he)]
  show some (some ((0 : ℚ) + 0)) = some (some (0 : ℚ))
  rw [add_zero]

/-- vecAdd of a vector with a positive coordinate and an equally long pure
vector keeps a positive coordinate. -/
theorem vecAdd_hasPos (v w : List FQ) (hv : hasPos v) (hw : pureNN w)
    (hlen : v.length = w.length) : hasPos (vecAdd v w) := by
  obtain ⟨j, a, hj, ha⟩ := hv
  have hjlt : j < v.length := (List.getElem?_eq_some_iff.mp hj).1
  have hjw : j < w.length := hlen ▸ hjlt
  obtain ⟨y, hy⟩ : ∃ y, w[j]? = some y := ⟨w[j], List.getElem?_eq_getElem hjw⟩
  obtain ⟨b, hb, hyb⟩ := hw y (List.getElem?_mem hy)
  refine ⟨j, a + b, ?_, add_pos_of_pos_of_nonneg ha hb⟩
  rw [vecAdd_getElem v w j (some a) y hj hy, hyb]
  rfl

/-- vecAdd of equally long vectors keeps the length. -/
theorem vecAdd_length (v w : List FQ) (h : v.length = w.length) :
    (vecAdd v w).length = v.length := by
  unfold vecAdd
  rw [List.length_zipWith, h, min_self]

/-- vecDiv keeps the length. -/
theorem vecDiv_length (v : List FQ) (s : FQ) : (vecDiv v s).length = v.length :=
  List.length_map v _

/-- vecDiv by a positive rational keeps a vector pure non-negative. -/
theorem vecDiv_pure (v : List FQ) (sv : ℚ) (hs : 0 < sv) (hv : pureNN v) :
    pureNN (vecDiv v (some sv)) := by
  intro x hx
  obtain ⟨y, hy, rfl⟩ := List.mem_map.mp hx
  obtain ⟨a, ha, rfl⟩ := hv y hy
  refine ⟨a / sv, div_nonneg ha (le_of_lt hs), ?_⟩
  show (if sv = 0 then none else some (a / sv)) = some (a / sv)
  rw [if_neg (ne_of_gt hs)]

/-- vecDiv by a nonzero rational keeps zeros outside C. -/
theorem vecDiv_zero_outside (G : KnowledgeGraph) (C : List String) (v : List FQ)
    (sv : ℚ) (hs : sv ≠ 0) (hv : zeroOutside G C v) :
    zeroOutside G C (vecDiv v (some sv)) := by
  intro j e hid he
  unfold vecDiv
  rw [List.getElem?_map, hv j e hid he]
  show some (if sv = 0 then none else some ((0 : ℚ) / sv)) = some (some (0 : ℚ))
  rw [if_neg hs, zero_div]

/-- vecDiv by a positive rational keeps a positive coordinate. -/
theorem vecDiv_hasPos (v : List FQ) (sv : ℚ) (hs : 0 < sv) (hv : hasPos v) :
    hasPos (vecDiv v (some sv)) := by
  obtain ⟨j, a, hj, ha⟩ := hv
  refine ⟨j, a / sv, ?_, div_pos ha hs⟩
  unfold vecDiv
  rw [List.getElem?_map, hj]
  show some (if sv = 0 then none else some (a / sv)) = some (some (a / sv))
  rw [if_neg (ne_of_gt hs)]

/-- The float sum of a pure non-negative vector with a positive coordinate
is a positive rational. -/
theorem fsum_pos (v : List FQ) (hv : pureNN v) (hp : hasPos v) :
    ∃ s : ℚ, fsum v = some s ∧ 0 < s := by
  obtain ⟨sv, hs, _, _, hbound⟩ := fadd_fold_pure v hv 0 (le_refl 0)
  obtain ⟨j, a, hj, ha⟩ := hp
  exact ⟨sv, hs, lt_of_lt_of_le ha (hbound (some a) (List.getElem?_mem hj) a rfl)⟩

/-- One unrolling of the restart-walk loop body. -/
theorem walkIter_succ (M : ℕ → ℕ → ℚ) (n : ℕ) (c : ℚ) (k : ℕ) (q r : List FQ) :
    walkIter M n c (k + 1) (q, r) =
      walkIter M n c k (vecScale (1 - c) (matVec M n q),
        vecDiv (vecAdd r (vecScale (1 - c) (matVec M n q)))
          (fsum (vecAdd r (vecScale (1 - c) (matVec M n q))))) := rfl

/-- The restart-walk loop over a built graph whose ingested triples are
closed under C preserves: the returned r component has the graph's entity
count as length, is pure non-negative, vanishes outside C, and keeps a
strictly positive coordinate (so no renormalization ever divides by
zero). -/
theorem walkIter_closed (ts : List Triple) (C : List String)
    (hC : ∀ t ∈ ts, t.1 ∈ C → t.2.2 ∈ C) :
    ∀ (k : ℕ) (q r : List FQ),
      q.length = (buildKG ts).number_of_entities → pureNN q →
      zeroOutside (buildKG ts) C q →
      r.length = (buildKG ts).number_of_entities → pureNN r →
      zeroOutside (buildKG ts) C r → hasPos r →
      (walkIter (buildKG ts).transition_matrix (buildKG ts).number_of_entities
          (15 / 100) k (q, r)).2.length = (buildKG ts).number_of_entities ∧
      pureNN (walkIter (buildKG ts).transition_matrix
          (buildKG ts).number_of_entities (15 / 100) k (q, r)).2 ∧
      zeroOutside (buildKG ts) C (walkIter (buildKG ts).transition_matrix
          (buildKG ts).number_of_entities (15 / 100) k (q, r)).2 ∧
      hasPos (walkIter (buildKG ts).transition_matrix
          (buildKG ts).number_of_entities (15 / 100) k (q, r)).2 := by
  intro k
  induction k with
  | zero =>
      intro q r _ _ _ hrl hrp hrz hrpos
      exact ⟨hrl, hrp, hrz, hrpos⟩
  | succ k ih =>
      intro q r hql hqp hqz hrl hrp hrz hrpos
      have hM : ∀ i j, 0 ≤ (buildKG ts).transition_matrix i j :=
        fun i j => trans_nonneg _ i j
      have hc85 : (0 : ℚ) ≤ 1 - 15 / 100 := by norm_num
      have hq1p : pureNN (vecScale (1 - 15 / 100)
          (matVec (buildKG ts).transition_matrix (buildKG ts).number_of_entities q)) :=
        vecScale_pure _ hc85 _ (matVec_pure _ _ q hM hqp)
      have hq1z : zeroOutside (buildKG ts) C (vecScale (1 - 15 / 100)
          (matVec (buildKG ts).transition_matrix (buildKG ts).number_of_entities q)) :=
        vecScale_zero_outside _ _ _ _ (matVec_zero_outside ts C hC q hqp hqz)
      have hq1l : (vecScale (1 - 15 / 100)
          (matVec (buildKG ts).transition_matrix
            (buildKG ts).number_of_entities q)).length =
          (buildKG ts).number_of_entities := by
        rw [vecScale_length, matVec_length]
      have hr1p : pureNN (vecAdd r (vecScale (1 - 15 / 100)
          (matVec (buildKG ts).transition_matrix (buildKG ts).number_of_entities q))) :=
        vecAdd_pure _ _ hrp hq1p
      have hr1z : zeroOutside (buildKG ts) C (vecAdd r (vecScale (1 - 15 / 100)
          (matVec (buildKG ts).transition_matrix (buildKG ts).number_of_entities q))) :=
        vecAdd_zero_outside _ _ _ _ hrz hq1z
      have hr1pos : hasPos (vecAdd r (vecScale (1 - 15 / 100)
          (matVec (buildKG ts).transition_matrix (buildKG ts).number_of_entities q))) :=
        vecAdd_hasPos _ _ hrpos hq1p (by rw [hrl, hq1l])
      have hr1l : (vecAdd r (vecScale (1 - 15 / 100)
          (matVec (buildKG ts).transition_matrix
            (buildKG ts).number_of_entities q))).length =
          (buildKG ts).number_of_entities := by
        rw [vecAdd_length _ _ (by rw [hrl, hq1l]), hrl]
      obtain ⟨sv, hsv, hsvpos⟩ := fsum_pos _ hr1p hr1pos
      rw [walkIter_succ, hsv]
      exact ih _ _ hq1l hq1p hq1z
        (by rw [vecDiv_length]; exact hr1l)
        (vecDiv_pure _ sv hsvpos hr1p)
        (vecDiv_zero_outside _ _ _ sv (ne_of_gt hsvpos) hr1z)
        (vecDiv_hasPos _ sv hsvpos hr1pos)

/-- C7 (amended): the claim's conclusion — entities untouched by the
workload keep preference value log(0+1) = 0 — holds under reachability,
not mere inequality: for any label set C that contains every topic entity
of the (non-empty) workload and is closed under following recorded triples
head-to-tail, every recorded entity outside C ends with entity value
exactly 0, and the modelling run completes (every topic being a recorded
entity, and the seed giving the renormalizations a positive total). -/
theorem c7_amended (ts : List Triple) (wl : List QueryRec) (power : ℕ)
    (C : List String) (e : String)
    (hC : ∀ t ∈ ts, t.1 ∈ C → t.2.2 ∈ C)
    (htopC : ∀ q ∈ wl, q.topicEntityMid ∈ C)
    (htopE : ∀ q ∈ wl, (buildKG ts).has_entity q.topicEntityMid)
    (hwl : wl ≠ [])
    (he : (buildKG ts).has_entity e)
    (heC : e ∉ C) :
    ((buildKG ts).model_user_pref wl power).isSome = true ∧
    entityValueAfterModel (buildKG ts) wl power e = some 0 := by
  have hall : ∀ q ∈ wl, ((buildKG ts).entity_id_ q.topicEntityMid).isSome := by
    intro q hq
    obtain ⟨j, hj⟩ := entity_id_isSome _ _ (htopE q hq)
    rw [hj]
    rfl
  obtain ⟨w, hw, hlen, hpt⟩ := qv_success (buildKG ts) wl
    (List.replicate (buildKG ts).number_of_entities (some (0 : ℚ))) hall
  have hqv : query_vector (buildKG ts) wl = some w := hw
  have hwlen : w.length = (buildKG ts).number_of_entities := by
    rw [hlen, List.length_replicate]
  have hwpt : ∀ j, j < (buildKG ts).number_of_entities →
      w[j]? = some (some (0 + ((wl.filter (fun q =>
        (buildKG ts).entity_id_ q.topicEntityMid == some j)).length : ℚ))) := by
    intro j hj
    rw [hpt j, List.getElem?_replicate_of_lt hj]
    rfl
  have hwpure : pureNN w := by
    intro x hx
    obtain ⟨j, hj⟩ := List.mem_iff_getElem?.mp hx
    have hjlt : j < (buildKG ts).number_of_entities := by
      rw [← hwlen]
      exact (List.getElem?_eq_some_iff.mp hj).1
    rw [hwpt j hjlt] at hj
    refine ⟨0 + ((wl.filter (fun q =>
      (buildKG ts).entity_id_ q.topicEntityMid == some j)).length : ℚ), by positivity, ?_⟩
    exact (Option.some_inj.mp hj).symm
  have hwzero : zeroOutside (buildKG ts) C w := by
    intro j e2 hid he2
    have hjlt : j < (buildKG ts).number_of_entities := id_entity_lt _ j e2 hid
    have hfilt : wl.filter (fun q =>
        (buildKG ts).entity_id_ q.topicEntityMid == some j) = [] := by
      rw [List.filter_eq_nil_iff]
      intro q hq hbq
      have hqe : (buildKG ts).entity_id_ q.topicEntityMid = some j := eq_of_beq hbq
      have hidq : (buildKG ts).id_entity_ j = some q.topicEntityMid :=
        (entity_id_facts _ _ j hqe).2
      rw [hid] at hidq
      have hte : q.topicEntityMid = e2 := (Option.some_inj.mp hidq).symm
      exact he2 (hte ▸ htopC q hq)
    rw [hwpt j hjlt, hfilt]
    norm_num
  have hwpos : hasPos w := by
    obtain ⟨q0, tl, rfl⟩ := List.exists_cons_of_ne_nil hwl
    obtain ⟨j0, hj0⟩ := entity_id_isSome _ _ (htopE q0 (List.mem_cons_self q0 tl))
    have hj0lt : j0 < (buildKG ts).number_of_entities := (entity_id_facts _ _ j0 hj0).1
    have hq0f : q0 ∈ (q0 :: tl).filter (fun q =>
        (buildKG ts).entity_id_ q.topicEntityMid == some j0) := by
      apply List.mem_filter.mpr
      refine ⟨List.mem_cons_self q0 tl, ?_⟩
      rw [hj0]
      exact beq_self_eq_true (some j0)
    have hposn : 0 < (((q0 :: tl).filter (fun q =>
        (buildKG ts).entity_id_ q.topicEntityMid == some j0)).length : ℚ) := by
      exact_mod_cast List.length_pos.mpr (List.ne_nil_of_mem hq0f)
    exact ⟨j0, 0 + (((q0 :: tl).filter (fun q =>
        (buildKG ts).entity_id_ q.topicEntityMid == some j0)).length : ℚ),
      hwpt j0 hj0lt, by linarith⟩
  have hinit_p : pureNN (vecScale (15 / 100) w) :=
    vecScale_pure _ (by norm_num) _ hwpure
  have hinit_z : zeroOutside (buildKG ts) C (vecScale (15 / 100) w) :=
    vecScale_zero_outside _ _ _ _ hwzero
  have hinit_pos : hasPos (vecScale (15 / 100) w) :=
    vecScale_hasPos _ (by norm_num) _ hwpos
  have hinit_l : (vecScale (15 / 100) w).length = (buildKG ts).number_of_entities := by
    rw [vecScale_length, hwlen]
  have hwalk := walkIter_closed ts C hC power (vecScale (15 / 100) w)
    (vecScale (15 / 100) w) hinit_l hinit_p hinit_z hinit_l hinit_p hinit_z hinit_pos
  constructor
  · unfold KnowledgeGraph.model_user_pref
    rw [hqv]
    rfl
  · unfold entityValueAfterModel KnowledgeGraph.model_user_pref
    rw [hqv]
    simp only [Option.map_some', KnowledgeGraph.entity_value]
    rw [model_triple_fold_ev]
    obtain ⟨j, hj⟩ := entity_id_isSome _ e he
    obtain ⟨hjlt, hjid⟩ := entity_id_facts _ e j hj
    rw [model_entity_fold_at (buildKG ts) _ (List.range (buildKG ts).number_of_entities)
      (List.nodup_range _) _ j e (List.mem_range.mpr hjlt) hjid
      (fun i _ hi => by
        have h1 := entity_id_of_get _ (buildKG_entities_nodup ts) i e hi
        rw [hj] at h1
        exact (Option.some_inj.mp h1).symm)]
    have hxz : (random_walk_with_restart (buildKG ts).transition_matrix
        (buildKG ts).number_of_entities w (15 / 100) power)[j]? = some (some 0) :=
      hwalk.2.2.1 j e hjid heC
    rw [List.getD_eq_getElem?_getD, hxz]
    show logVal (some 0) = some 0
    simp [logVal, Real.log_one]

/-- Witness for the amended C7 at a concrete input: graph
{(A,p,B),(Z,q,A)}, workload of one query with topic A, closed set
C = {A,B}; entity Z is recorded but unreachable from the topic and ends
with value exactly 0 while the run completes. -/
theorem c7_witness :
    (∀ t ∈ ([("A", "p", "B"), ("Z", "q", "A")] : List Triple),
        t.1 ∈ (["A", "B"] : List String) → t.2.2 ∈ (["A", "B"] : List String)) ∧
    (∀ q ∈ [topicAQuery], q.topicEntityMid ∈ (["A", "B"] : List String)) ∧
    (∀ q ∈ [topicAQuery],
        (buildKG [("A", "p", "B"), ("Z", "q", "A")]).has_entity q.topicEntityMid) ∧
    ([topicAQuery] ≠ ([] : List QueryRec)) ∧
    (buildKG [("A", "p", "B"), ("Z", "q", "A")]).has_entity "Z" ∧
    "Z" ∉ (["A", "B"] : List String) ∧
    (((buildKG [("A", "p", "B"), ("Z", "q", "A")]).model_user_pref
        [topicAQuery] 2).isSome = true ∧
      entityValueAfterModel (buildKG [("A", "p", "B"), ("Z", "q", "A")])
        [topicAQuery] 2 "Z" = some 0) :=
  ⟨by decide, by decide, by decide, List.cons_ne_nil _ _, by decide, by decide,
    c7_amended [("A", "p", "B"), ("Z", "q", "A")] [topicAQuery] 2 ["A", "B"] "Z"
      (by decide) (by decide) (by decide) (List.cons_ne_nil _ _) (by decide) (by decide)⟩

/-- Setting a list element preserves a pointwise property when the new
element has it. -/
theorem list_set_forall {α : Type} (P : α → Prop) (l : List α) (i : ℕ) (x : α)
    (hl : ∀ a ∈ l, P a) (hx : P x) : ∀ a ∈ l.set i x, P a := by
  intro a ha
  rcases List.mem_or_eq_of_mem_set ha with h1 | h1
  · exact hl a h1
  · rw [h1]; exact hx

/-- A getD read is a member or the default. -/
theorem getD_mem_or {α : Type} (l : List α) (k : ℕ) (d : α) :
    l.getD k d ∈ l ∨ l.getD k d = d := by
  rw [List.getD_eq_getElem?_getD]
  cases hk : l[k]? with
  | none => exact Or.inr rfl
  | some x => exact Or.inl (List.getElem?_mem hk)

/-- Position reads used by the heap routines stay below a positive bound. -/
theorem getD_lt (n : ℕ) (arr : List ℕ) (hb : ∀ x ∈ arr, x < n) (hn : 0 < n)
    (k : ℕ) : arr.getD k 0 < n := by
  rcases getD_mem_or arr k 0 with h | h
  · exact hb _ h
  · rw [h]; exact hn

/-- Branch combinator: both branches of an if satisfy a pointwise list
property. -/
theorem ite_forall_mem {α : Type} {c : Prop} [Decidable c] (P : α → Prop)
    (A B : List α) (hA : ∀ a ∈ A, P a) (hB : ∀ a ∈ B, P a) :
    ∀ a ∈ (if c then A else B), P a := by
  by_cases h : c
  · rw [if_pos h]; exact hA
  · rw [if_neg h]; exact hB

/-- Branch combinator: both branches of an if are below a bound. -/
theorem ite_lt {c : Prop} [Decidable c] {a b n : ℕ} (ha : a < n) (hb : b < n) :
    (if c then a else b) < n := by
  by_cases h : c
  · rw [if_pos h]; exact ha
  · rw [if_neg h]; exact hb

/-- Branch combinator: both branches of an if have the given length. -/
theorem ite_length {α : Type} {c : Prop} [Decidable c] (A B : List α) (n : ℕ)
    (hA : A.length = n) (hB : B.length = n) : (if c then A else B).length = n := by
  by_cases h : c
  · rw [if_pos h]; exact hA
  · rw [if_neg h]; exact hB

/-- The `h[-1]` read of a non-empty list is a member. -/
theorem getLastD_mem (l : List HeapItem) (hne : l ≠ []) : l.getLastD default ∈ l := by
  rw [List.getLastD_eq_getLast?, List.getLast?_eq_getLast l hne]
  exact List.getLast_mem hne

/-- _siftdown keeps every stored position below the bound. -/
theorem siftdownGo_bound (n : ℕ) (h : List HeapItem) (startpos newitem : ℕ)
    (hnew : newitem < n) (hn : 0 < n) :
    ∀ (fuel pos : ℕ) (arr : List ℕ), (∀ x ∈ arr, x < n) →
      ∀ x ∈ siftdownGo h startpos newitem fuel pos arr, x < n := by
  intro fuel
  induction fuel with
  | zero =>
      intro pos arr hb
      exact list_set_forall _ arr pos newitem hb hnew
  | succ fuel ih =>
      intro pos arr hb
      simp only [siftdownGo]
      by_cases h1 : startpos < pos
      · rw [if_pos h1]
        by_cases h2 : posLt h newitem (arr.getD ((pos - 1) / 2) 0)
        · rw [if_pos h2]
          exact ih _ _ (list_set_forall _ arr pos _ hb (getD_lt n arr hb hn _))
        · rw [if_neg h2]
          exact list_set_forall _ arr pos newitem hb hnew
      · rw [if_neg h1]
        exact list_set_forall _ arr pos newitem hb hnew

/-- The _siftup descent keeps every stored position below the bound. -/
theorem siftupGo_bound (n : ℕ) (h : List HeapItem) (endpos : ℕ) (hn : 0 < n) :
    ∀ (fuel pos : ℕ) (arr : List ℕ), (∀ x ∈ arr, x < n) →
      ∀ x ∈ (siftupGo h endpos fuel pos arr).1, x < n := by
  intro fuel
  induction fuel with
  | zero => intro pos arr hb; exact hb
  | succ fuel ih =>
      intro pos arr hb
      simp only [siftupGo]
      by_cases h1 : 2 * pos + 1 < endpos
      · rw [if_pos h1]
        exact ih _ _ (list_set_forall _ arr pos _ hb (getD_lt n arr hb hn _))
      · rw [if_neg h1]
        exact hb

/-- _siftup keeps every stored position below the bound. -/
theorem siftupPos_bound (n : ℕ) (h : List HeapItem) (arr : List ℕ) (pos : ℕ)
    (hb : ∀ x ∈ arr, x < n) (hn : 0 < n) : ∀ x ∈ siftupPos h arr pos, x < n := by
  unfold siftupPos
  exact siftdownGo_bound n h pos (arr.getD pos 0) (getD_lt n arr hb hn pos) hn _ _ _
    (list_set_forall _ _ _ _
      (siftupGo_bound n h arr.length hn arr.length pos arr hb)
      (getD_lt n arr hb hn pos))

/-- Iterated _siftup keeps every stored position below the bound. -/
theorem foldl_siftup_bound (n : ℕ) (h : List HeapItem) (hn : 0 < n) :
    ∀ (idxs : List ℕ) (arr : List ℕ), (∀ x ∈ arr, x < n) →
      ∀ x ∈ idxs.foldl (fun a i => siftupPos h a i) arr, x < n := by
  intro idxs
  induction idxs with
  | nil => intro arr hb; exact hb
  | cons i idxs ih =>
      intro arr hb
      rw [List.foldl_cons]
      exact ih _ (siftupPos_bound n h arr i hb hn)

/-- heapify keeps every stored position below the bound. -/
theorem heapifyPos_bound (n : ℕ) (h : List HeapItem) (arr : List ℕ)
    (hb : ∀ x ∈ arr, x < n) (hn : 0 < n) : ∀ x ∈ heapifyPos h arr, x < n := by
  unfold heapifyPos
  exact foldl_siftup_bound n h hn _ arr hb

/-- A value mutation does not change the number of heap items. -/
theorem writeVal_length (h : List HeapItem) (i : ℕ) (v : Option ℝ) :
    (writeVal h i v).length = h.length := by
  unfold writeVal
  rw [List.length_set]

/-- A value mutation keeps every item's triple satisfying a property. -/
theorem writeVal_pred (Q : Triple → Prop) (h : List HeapItem) (i : ℕ) (v : Option ℝ)
    (hh : ∀ it ∈ h, Q it.triple_) : ∀ it ∈ writeVal h i v, Q it.triple_ := by
  unfold writeVal
  by_cases hi : i < h.length
  · apply list_set_forall _ _ _ _ hh
    show Q (tripleAt h i)
    unfold tripleAt
    rw [List.getD_eq_getElem?_getD, List.getElem?_eq_getElem hi]
    exact hh _ (List.getElem_mem hi)
  · rw [List.set_eq_of_length_le (Nat.le_of_not_lt hi)]
    exact hh

/-- _move_to_top (a swap at valid positions) keeps every item's triple
satisfying a property. -/
theorem swapLast_pred (Q : Triple → Prop) (h : List HeapItem) (i : ℕ)
    (hh : ∀ it ∈ h, Q it.triple_) (hi : i < h.length) :
    ∀ it ∈ swapLast h i, Q it.triple_ := by
  unfold swapLast
  have hlast : h.length - 1 < h.length :=
    Nat.sub_lt (Nat.lt_of_le_of_lt (Nat.zero_le i) hi) Nat.one_pos
  have hmem : ∀ k, k < h.length → Q (h.getD k default).triple_ := by
    intro k hk
    rw [List.getD_eq_getElem?_getD, List.getElem?_eq_getElem hk]
    exact hh _ (List.getElem_mem hk)
  exact list_set_forall _ _ _ _
    (list_set_forall _ _ _ _ hh (hmem i hi)) (hmem _ hlast)

/-- The recompute-and-argmax fold of Heap.update keeps every item's triple
satisfying a property, keeps the heap length, and keeps the argmax
position below the length. -/
theorem update_fold_pred (Q : Triple → Prop) (S : Summary) (n : ℕ) :
    ∀ (indices : List ℕ) (st : List HeapItem × ℕ),
      (∀ x ∈ indices, x < n) → (∀ it ∈ st.1, Q it.triple_) →
      st.1.length = n → st.2 < n →
      (∀ it ∈ (indices.foldl (fun st i =>
        let hh := st.1
        let it := hh.getD i default
        let hh2 := if S.has_entity it.triple_.1 ∨ S.has_entity it.triple_.2.2
                   then writeVal hh i (S.marginal_value it.triple_) else hh
        let am2 := if orLt (valueAt hh2 st.2) (valueAt hh2 i) then i else st.2
        (hh2, am2)) st).1, Q it.triple_) ∧
      (indices.foldl (fun st i =>
        let hh := st.1
        let it := hh.getD i default
        let hh2 := if S.has_entity it.triple_.1 ∨ S.has_entity it.triple_.2.2
                   then writeVal hh i (S.marginal_value it.triple_) else hh
        let am2 := if orLt (valueAt hh2 st.2) (valueAt hh2 i) then i else st.2
        (hh2, am2)) st).1.length = n ∧
      (indices.foldl (fun st i =>
        let hh := st.1
        let it := hh.getD i default
        let hh2 := if S.has_entity it.triple_.1 ∨ S.has_entity it.triple_.2.2
                   then writeVal hh i (S.marginal_value it.triple_) else hh
        let am2 := if orLt (valueAt hh2 st.2) (valueAt hh2 i) then i else st.2
        (hh2, am2)) st).2 < n := by
  intro indices
  induction indices with
  | nil => intro st _ hQ hl h2; exact ⟨hQ, hl, h2⟩
  | cons i idxs ih =>
      intro st hb hQ hl h2
      rw [List.foldl_cons]
      apply ih
      · exact fun x hx => hb x (List.mem_cons_of_mem i hx)
      · exact ite_forall_mem _ _ _ (writeVal_pred Q st.1 i _ hQ) hQ
      · exact ite_length _ _ _ (by rw [writeVal_length]; exact hl) hl
      · exact ite_lt (hb i (List.mem_cons_self i idxs)) h2

/-- Heap.update keeps every item's triple satisfying a property. -/
theorem update_pred (Q : Triple → Prop) (S : Summary) (h : List HeapItem)
    (sample_size : ℕ) (stream : ℕ → ℕ) (pos : ℕ)
    (hh : ∀ it ∈ h, Q it.triple_) :
    ∀ it ∈ (Heap.update S h sample_size stream pos).1, Q it.triple_ := by
  simp only [Heap.update]
  by_cases hc : h.length ≤ 1 ∨ min h.length sample_size = 0
  · rw [if_pos hc]
    exact hh
  · rw [if_neg hc]
    push_neg at hc
    have hn1 : 1 < h.length := hc.1
    have hn0 : 0 < h.length := Nat.lt_of_le_of_lt (Nat.zero_le 1) hn1
    have hib : ∀ x ∈ Heap.sampleIndices h sample_size stream pos, x < h.length := by
      unfold Heap.sampleIndices
      by_cases hm : min h.length sample_size < h.length
      · rw [if_pos hm]
        intro x hx
        obtain ⟨k, _, rfl⟩ := List.mem_map.mp hx
        exact Nat.mod_lt _ hn0
      · rw [if_neg hm]
        intro x hx
        exact List.mem_range.mp hx
    have harr1 : ∀ x ∈ heapifyPos h (Heap.sampleIndices h sample_size stream pos), x < h.length :=
      heapifyPos_bound h.length h (Heap.sampleIndices h sample_size stream pos) hib hn0
    have htop : (heapifyPos h (Heap.sampleIndices h sample_size stream pos)).getD 0 0 < h.length :=
      getD_lt h.length _ harr1 hn0 0
    have hlg1 : ∀ it ∈ (lazyGreedy S h (Heap.sampleIndices h sample_size stream pos)).1, Q it.triple_ :=
      writeVal_pred Q h _ _ hh
    have hlg1l : (lazyGreedy S h (Heap.sampleIndices h sample_size stream pos)).1.length = h.length :=
      writeVal_length h _ _
    have hlg22 : (lazyGreedy S h (Heap.sampleIndices h sample_size stream pos)).2.2 < h.length :=
      getD_lt h.length _
        (siftupPos_bound h.length _ _ 0
          (list_set_forall _ _ 0 _ harr1 htop) hn0) hn0 0
    by_cases heq : tripleAt (lazyGreedy S h (Heap.sampleIndices h sample_size stream pos)).1 (lazyGreedy S h (Heap.sampleIndices h sample_size stream pos)).2.1 =
        tripleAt (lazyGreedy S h (Heap.sampleIndices h sample_size stream pos)).1 (lazyGreedy S h (Heap.sampleIndices h sample_size stream pos)).2.2
    · rw [if_pos heq]
      exact swapLast_pred Q _ _ hlg1 (by rw [hlg1l]; exact hlg22)
    · rw [if_neg heq]
      obtain ⟨hfQ, hfl, hf2⟩ := update_fold_pred Q S h.length (Heap.sampleIndices h sample_size stream pos)
        ((lazyGreedy S h (Heap.sampleIndices h sample_size stream pos)).1, 0) hib hlg1 hlg1l hn0
      exact swapLast_pred Q _ _ hfQ (by rw [hfl]; exact hf2)

/-- Every initial heap item's triple is a triple of the scored graph. -/
theorem heap_init_pred (KG : KnowledgeGraph) :
    ∀ it ∈ Heap.init KG, it.triple_ ∈ KG.triples_ := by
  intro it hit
  obtain ⟨t, ht, hsome⟩ := List.mem_filterMap.mp hit
  have hsome2 : (if orPos (orAdd (orAdd (KG.entity_value t.1) (KG.entity_value t.2.2))
      (KG.triple_value t))
      then some (⟨t, orAdd (orAdd (KG.entity_value t.1) (KG.entity_value t.2.2))
        (KG.triple_value t)⟩ : HeapItem) else none) = some it := hsome
  by_cases hp : orPos (orAdd (orAdd (KG.entity_value t.1) (KG.entity_value t.2.2))
      (KG.triple_value t))
  · rw [if_pos hp] at hsome2
    rw [← Option.some_inj.mp hsome2]
    exact ht
  · rw [if_neg hp] at hsome2
    exact Option.noConfusion hsome2

/-- One add_triple grows the triple count by at most one. -/
theorem add_triple_count_le (G : KnowledgeGraph) (t : Triple) :
    (G.add_triple t).number_of_triples ≤ G.number_of_triples + 1 := by
  unfold KnowledgeGraph.add_triple
  by_cases h : G.has_triple t
  · rw [if_pos h]
    exact Nat.le_succ _
  · rw [if_neg h]
    show (G.triples_ ++ [t]).length ≤ G.triples_.length + 1
    rw [List.length_append]
    exact Nat.le_refl _

/-- Summary.fill keeps the k-bound and any triple property through every
intermediate and final state. -/
theorem fillT_inv (k : ℕ) (Q : Triple → Prop) :
    ∀ (ts : List Triple) (S : Summary),
      S.number_of_triples ≤ k →
      (∀ u, S.has_triple u → Q u) → (∀ u ∈ ts, Q u) →
      ((S.fillT ts k).1.number_of_triples ≤ k ∧
       (∀ u, (S.fillT ts k).1.has_triple u → Q u) ∧
       ∀ S2 ∈ (S.fillT ts k).2,
         S2.number_of_triples ≤ k ∧ ∀ u, S2.has_triple u → Q u) := by
  intro ts
  induction ts with
  | nil =>
      intro S hk hQ _
      exact ⟨hk, hQ, fun S2 hS2 => absurd hS2 (List.not_mem_nil S2)⟩
  | cons t rest ih =>
      intro S hk hQ hts
      simp only [Summary.fillT]
      by_cases hstop : k ≤ S.number_of_triples
      · rw [if_pos hstop]
        exact ⟨hk, hQ, fun S2 hS2 => absurd hS2 (List.not_mem_nil S2)⟩
      · rw [if_neg hstop]
        have hlt : S.number_of_triples < k := Nat.lt_of_not_le hstop
        have hk1 : (S.add_triple t).number_of_triples ≤ k :=
          Nat.le_trans (add_triple_count_le S.toKnowledgeGraph t) hlt
        have hQ1 : ∀ u, (S.add_triple t).has_triple u → Q u := by
          intro u hu
          rcases (add_triple_mem S.toKnowledgeGraph t u).mp hu with h1 | h1
          · exact hQ u h1
          · rw [h1]; exact hts t (List.mem_cons_self t rest)
        obtain ⟨h1, h2, h3⟩ := ih (S.add_triple t) hk1 hQ1
          (fun u hu => hts u (List.mem_cons_of_mem t hu))
        refine ⟨h1, h2, ?_⟩
        intro S2 hS2
        rcases List.mem_cons.mp hS2 with rfl | hmem
        · exact ⟨hk1, hQ1⟩
        · exact h3 S2 hmem

/-- The selection loop keeps the K-bound and any triple property through
every intermediate state, provided every heap item's triple has the
property. -/
theorem glimpseLoop_inv (K : ℕ) (stream : ℕ → ℕ) (sample_size : ℕ)
    (Q : Triple → Prop) :
    ∀ (fuel : ℕ) (h : List HeapItem) (S : Summary) (pos : ℕ),
      (∀ it ∈ h, Q it.triple_) →
      S.number_of_triples ≤ K → (∀ u, S.has_triple u → Q u) →
      ((glimpseLoop K stream sample_size fuel h S pos).1.number_of_triples ≤ K ∧
       (∀ u, (glimpseLoop K stream sample_size fuel h S pos).1.has_triple u → Q u) ∧
       ∀ S2 ∈ (glimpseLoop K stream sample_size fuel h S pos).2,
         S2.number_of_triples ≤ K ∧ ∀ u, S2.has_triple u → Q u) := by
  intro fuel
  induction fuel with
  | zero =>
      intro h S pos _ hk hQ
      exact ⟨hk, hQ, fun S2 hS2 => absurd hS2 (List.not_mem_nil S2)⟩
  | succ fuel ih =>
      intro h S pos hh hk hQ
      simp only [glimpseLoop]
      by_cases hstop : h.length = 0 ∨ K ≤ S.number_of_triples
      · rw [if_pos hstop]
        exact ⟨hk, hQ, fun S2 hS2 => absurd hS2 (List.not_mem_nil S2)⟩
      · rw [if_neg hstop]
        push_neg at hstop
        have hne : h ≠ [] := by
          intro hnil
          exact hstop.1 (by rw [hnil]; rfl)
        have htQ : Q (h.getLastD default).triple_ := hh _ (getLastD_mem h hne)
        have hk1 : (S.add_triple (h.getLastD default).triple_).number_of_triples ≤ K :=
          Nat.le_trans (add_triple_count_le S.toKnowledgeGraph _) hstop.2
        have hQ1 : ∀ u, (S.add_triple (h.getLastD default).triple_).has_triple u → Q u := by
          intro u hu
          rcases (add_triple_mem S.toKnowledgeGraph _ u).mp hu with h1 | h1
          · exact hQ u h1
          · rw [h1]; exact htQ
        have hh1 : ∀ it ∈ h.dropLast, Q it.triple_ :=
          fun it hit => hh it (List.dropLast_subset h hit)
        have hupd : ∀ it ∈ (Heap.update (S.add_triple (h.getLastD default).triple_)
            h.dropLast sample_size stream pos).1, Q it.triple_ :=
          update_pred Q _ _ _ _ _ hh1
        obtain ⟨h1, h2, h3⟩ := ih _ _ _ hupd hk1 hQ1
        refine ⟨h1, h2, ?_⟩
        intro S2 hS2
        rcases List.mem_cons.mp hS2 with rfl | hmem
        · exact ⟨hk1, hQ1⟩
        · exact h3 S2 hmem

/-- A completed model_user_pref run returns a store with the same triple
list. -/
theorem model_triples_eq (G : KnowledgeGraph) (wl : List QueryRec) (power : ℕ) :
    ∀ G2, G.model_user_pref wl power = some G2 → G2.triples_ = G.triples_ := by
  intro G2 h
  unfold KnowledgeGraph.model_user_pref at h
  cases hq : query_vector G wl with
  | none => rw [hq] at h; exact Option.noConfusion h
  | some x0 =>
      rw [hq] at h
      simp only [Option.map_some'] at h
      rw [← Option.some_inj.mp h, (model_triple_fold_shape _ _ _ _).2.2,
        (model_entity_fold_shape _ _ _ _).2.2]
      rfl

/-- The sample-size formula resolves for a given epsilon once K is
positive. -/
theorem glimpseSampleSize_some (K n0 : ℕ) (L : ℚ) (hK : K ≠ 0) :
    glimpseSampleSize (some L) K n0 =
      some (Int.toNat (Int.floor ((n0 : ℚ) / (K : ℚ) * L))) := by
  simp only [glimpseSampleSize]
  rw [if_neg hK]

/-- In the sampling branch of GLIMPSE, for any clamped sample size, the
final filled summary and every traced state obey the K-bound and draw
their triples from the input graph. -/
theorem glimpse_some_branch (KG KG1 : KnowledgeGraph) (K : ℕ) (stream : ℕ → ℕ)
    (sample_size : ℕ) (htr : KG1.triples_ = KG.triples_) :
    ((glimpseLoop K stream sample_size
        (Heap.update (newSummary KG1) (Heap.init KG1) (Heap.init KG1).length stream 0).1.length
        (Heap.update (newSummary KG1) (Heap.init KG1) (Heap.init KG1).length stream 0).1
        (newSummary KG1)
        (Heap.update (newSummary KG1) (Heap.init KG1) (Heap.init KG1).length stream 0).2).1.fillT
        KG1.triples_ K).1.number_of_triples ≤ K ∧
    ((glimpseLoop K stream sample_size
        (Heap.update (newSummary KG1) (Heap.init KG1) (Heap.init KG1).length stream 0).1.length
        (Heap.update (newSummary KG1) (Heap.init KG1) (Heap.init KG1).length stream 0).1
        (newSummary KG1)
        (Heap.update (newSummary KG1) (Heap.init KG1) (Heap.init KG1).length stream 0).2).1.fillT
        KG1.triples_ K).1.toKnowledgeGraph.triples_ ⊆ KG.triples_ ∧
    ∀ S2 ∈ (glimpseLoop K stream sample_size
        (Heap.update (newSummary KG1) (Heap.init KG1) (Heap.init KG1).length stream 0).1.length
        (Heap.update (newSummary KG1) (Heap.init KG1) (Heap.init KG1).length stream 0).1
        (newSummary KG1)
        (Heap.update (newSummary KG1) (Heap.init KG1) (Heap.init KG1).length stream 0).2).2 ++
      ((glimpseLoop K stream sample_size
        (Heap.update (newSummary KG1) (Heap.init KG1) (Heap.init KG1).length stream 0).1.length
        (Heap.update (newSummary KG1) (Heap.init KG1) (Heap.init KG1).length stream 0).1
        (newSummary KG1)
        (Heap.update (newSummary KG1) (Heap.init KG1) (Heap.init KG1).length stream 0).2).1.fillT
        KG1.triples_ K).2,
      S2.number_of_triples ≤ K ∧ S2.toKnowledgeGraph.triples_ ⊆ KG.triples_ := by
  have hheap : ∀ it ∈ Heap.init KG1, it.triple_ ∈ KG.triples_ := by
    intro it hit
    rw [← htr]
    exact heap_init_pred KG1 it hit
  have hupd : ∀ it ∈ (Heap.update (newSummary KG1) (Heap.init KG1)
      (Heap.init KG1).length stream 0).1, it.triple_ ∈ KG.triples_ :=
    update_pred _ _ _ _ _ _ hheap
  have hQ0 : ∀ u, (newSummary KG1).has_triple u → u ∈ KG.triples_ :=
    fun u hu => absurd hu (List.not_mem_nil u)
  obtain ⟨l1, l2, l3⟩ := glimpseLoop_inv K stream sample_size (· ∈ KG.triples_)
    _ _ (newSummary KG1) _ hupd (Nat.zero_le K) hQ0
  obtain ⟨f1, f2, f3⟩ := fillT_inv K (· ∈ KG.triples_) KG1.triples_ _ l1 l2
    (fun u hu => htr ▸ hu)
  refine ⟨f1, fun u hu => f2 u hu, ?_⟩
  intro S2 hS2
  rcases List.mem_append.mp hS2 with hmem | hmem
  · obtain ⟨x1, x2⟩ := l3 S2 hmem
    exact ⟨x1, fun u hu => x2 u hu⟩
  · obtain ⟨x1, x2⟩ := f3 S2 hmem
    exact ⟨x1, fun u hu => x2 u hu⟩

/-- Claim C3: throughout the entire execution of GLIMPSE — after every
individual add_triple of the selection loop and of both padding fills, and
at the returned summary — the summary under construction holds at most K
triples, and every triple it holds is a triple of the input graph. -/
theorem c3_invariant (KG : KnowledgeGraph) (K : ℕ) (wl : List QueryRec)
    (epsLog : Option ℚ) (power : ℕ) (stream : ℕ → ℕ) :
    List.Forall
      (fun S2 => S2.number_of_triples ≤ K ∧
        S2.toKnowledgeGraph.triples_ ⊆ KG.triples_)
      (glimpseTrace KG K wl epsLog power stream) ∧
    List.Forall
      (fun S2 => S2.number_of_triples ≤ K ∧
        S2.toKnowledgeGraph.triples_ ⊆ KG.triples_)
      (GLIMPSE KG K wl epsLog power stream).toList := by
  unfold glimpseTrace GLIMPSE GLIMPSET
  cases hm : KG.model_user_pref wl power with
  | none => exact ⟨trivial, trivial⟩
  | some KG1 =>
      have htr : KG1.triples_ = KG.triples_ := model_triples_eq KG wl power KG1 hm
      simp only [Option.some_bind]
      by_cases hlen : (Heap.init KG1).length ≤ K
      · rw [if_pos hlen]
        obtain ⟨a1, a2, a3⟩ := fillT_inv K (· ∈ KG.triples_)
          (Heap.triples (Heap.init KG1)) (newSummary KG1) (Nat.zero_le K)
          (fun u hu => absurd hu (List.not_mem_nil u))
          (by
            intro u hu
            obtain ⟨it, hit, rfl⟩ := List.mem_map.mp hu
            rw [← htr]
            exact heap_init_pred KG1 it hit)
        obtain ⟨b1, b2, b3⟩ := fillT_inv K (· ∈ KG.triples_) KG1.triples_ _ a1 a2
          (fun u hu => htr ▸ hu)
        constructor
        · rw [List.forall_iff_forall_mem]
          intro S2 hS2
          rcases List.mem_append.mp hS2 with hmem | hmem
          · obtain ⟨x1, x2⟩ := a3 S2 hmem
            exact ⟨x1, fun u hu => x2 u hu⟩
          · obtain ⟨x1, x2⟩ := b3 S2 hmem
            exact ⟨x1, fun u hu => x2 u hu⟩
        · rw [List.forall_iff_forall_mem]
          intro S2 hS2
          rw [List.mem_singleton.mp hS2]
          exact ⟨b1, fun u hu => b2 u hu⟩
      · rw [if_neg hlen]
        cases epsLog with
        | none =>
            obtain ⟨g1, g2, g3⟩ := glimpse_some_branch KG KG1 K stream
              (Heap.update (newSummary KG1) (Heap.init KG1)
                (Heap.init KG1).length stream 0).1.length htr
            constructor
            · rw [List.forall_iff_forall_mem]
              intro S2 hS2
              exact g3 S2 hS2
            · rw [List.forall_iff_forall_mem]
              intro S2 hS2
              rw [List.mem_singleton.mp hS2]
              exact ⟨g1, g2⟩
        | some L =>
            by_cases hK : K = 0
            · subst hK
              exact ⟨trivial, trivial⟩
            · rw [glimpseSampleSize_some K _ L hK]
              obtain ⟨g1, g2, g3⟩ := glimpse_some_branch KG KG1 K stream
                (Int.toNat (Int.floor (((Heap.update (newSummary KG1) (Heap.init KG1)
                  (Heap.init KG1).length stream 0).1.length : ℚ) / (K : ℚ) * L))) htr
              constructor
              · rw [List.forall_iff_forall_mem]
                intro S2 hS2
                exact g3 S2 hS2
              · rw [List.forall_iff_forall_mem]
                intro S2 hS2
                rw [List.mem_singleton.mp hS2]
                exact ⟨g1, g2⟩

/-- add_triple keeps the triple list duplicate-free. -/
theorem add_triple_nodup (G : KnowledgeGraph) (t : Triple) (h : G.triples_.Nodup) :
    (G.add_triple t).triples_.Nodup := by
  unfold KnowledgeGraph.add_triple
  by_cases ht : G.has_triple t
  · rw [if_pos ht]; exact h
  · rw [if_neg ht]
    exact List.nodup_append.mpr ⟨h, List.nodup_singleton t, by simpa using ht⟩

/-- Summary.fill keeps the triple list duplicate-free. -/
theorem fillT_nodup (k : ℕ) : ∀ (ts : List Triple) (S : Summary),
    S.toKnowledgeGraph.triples_.Nodup →
    (S.fillT ts k).1.toKnowledgeGraph.triples_.Nodup := by
  intro ts
  induction ts with
  | nil => intro S hnd; exact hnd
  | cons t rest ih =>
      intro S hnd
      simp only [Summary.fillT]
      by_cases hstop : k ≤ S.number_of_triples
      · rw [if_pos hstop]; exact hnd
      · rw [if_neg hstop]
        exact ih (S.add_triple t) (add_triple_nodup S.toKnowledgeGraph t hnd)

/-- The selection loop keeps the summary's triple list duplicate-free. -/
theorem glimpseLoop_nodup (K : ℕ) (stream : ℕ → ℕ) (sample_size : ℕ) :
    ∀ (fuel : ℕ) (h : List HeapItem) (S : Summary) (pos : ℕ),
      S.toKnowledgeGraph.triples_.Nodup →
      (glimpseLoop K stream sample_size fuel h S pos).1.toKnowledgeGraph.triples_.Nodup := by
  intro fuel
  induction fuel with
  | zero => intro h S pos hnd; exact hnd
  | succ fuel ih =>
      intro h S pos hnd
      simp only [glimpseLoop]
      by_cases hstop : h.length = 0 ∨ K ≤ S.number_of_triples
      · rw [if_pos hstop]; exact hnd
      · rw [if_neg hstop]
        exact ih _ _ _ (add_triple_nodup S.toKnowledgeGraph _ hnd)

/-- Summary.fill computes exactly min(k, |current ∪ offered|) triples: it
adds offered triples (skipping duplicates) until the budget or the list is
exhausted. -/
theorem fillT_count (k : ℕ) : ∀ (ts : List Triple) (S : Summary),
    S.number_of_triples ≤ k → S.toKnowledgeGraph.triples_.Nodup →
    (S.fillT ts k).1.number_of_triples =
      min k (S.toKnowledgeGraph.triples_.toFinset ∪ ts.toFinset).card := by
  intro ts
  induction ts with
  | nil =>
      intro S hk hnd
      simp only [Summary.fillT]
      rw [List.toFinset_nil, Finset.union_empty, List.toFinset_card_of_nodup hnd]
      show S.number_of_triples = min k S.number_of_triples
      rw [min_eq_right hk]
  | cons t rest ih =>
      intro S hk hnd
      simp only [Summary.fillT]
      by_cases hstop : k ≤ S.number_of_triples
      · rw [if_pos hstop]
        have hk2 : S.number_of_triples = k := Nat.le_antisymm hk hstop
        have hge : k ≤ (S.toKnowledgeGraph.triples_.toFinset ∪
            (t :: rest).toFinset).card := by
          calc k = S.toKnowledgeGraph.triples_.toFinset.card := by
                rw [List.toFinset_card_of_nodup hnd]
                exact hk2.symm
            _ ≤ _ := Finset.card_le_card Finset.subset_union_left
        rw [min_eq_left hge]
        exact hk2
      · rw [if_neg hstop]
        by_cases hmem : S.has_triple t
        · have hmem2 : S.toKnowledgeGraph.has_triple t := hmem
          have haddeq : S.add_triple t = S := by
            unfold Summary.add_triple KnowledgeGraph.add_triple
            rw [if_pos hmem2]
          rw [haddeq, ih S hk hnd]
          congr 1
          rw [List.toFinset_cons, Finset.union_insert,
            Finset.insert_eq_self.mpr
              (Finset.mem_union_left _ (List.mem_toFinset.mpr hmem2))]
        · have hk1 : (S.add_triple t).number_of_triples ≤ k :=
            Nat.le_trans (add_triple_count_le S.toKnowledgeGraph t)
              (Nat.lt_of_not_le hstop)
          have hnd1 : (S.add_triple t).toKnowledgeGraph.triples_.Nodup :=
            add_triple_nodup S.toKnowledgeGraph t hnd
          rw [ih (S.add_triple t) hk1 hnd1]
          congr 2
          have hmem3 : ¬ S.toKnowledgeGraph.has_triple t := hmem
          have htl : (S.add_triple t).toKnowledgeGraph.triples_ =
              S.toKnowledgeGraph.triples_ ++ [t] := by
            unfold Summary.add_triple KnowledgeGraph.add_triple
            rw [if_neg hmem3]
          rw [htl, List.toFinset_append, List.toFinset_cons, Finset.insert_eq,
            List.toFinset_cons, List.toFinset_nil, Finset.insert_eq,
            Finset.union_empty, ← Finset.union_assoc]

/-- The terminal padding fill over the scored graph's triples produces
exactly min(K, |graph triples|) triples while keeping the summary inside
the graph and duplicate-free. -/
theorem final_fill_facts (KG1 : KnowledgeGraph) (K : ℕ) (S1 : Summary)
    (hk : S1.number_of_triples ≤ K) (hnd : S1.toKnowledgeGraph.triples_.Nodup)
    (hQ : ∀ u, S1.has_triple u → u ∈ KG1.triples_) :
    ((S1.fillT KG1.triples_ K).1.number_of_triples =
      min K KG1.triples_.toFinset.card) ∧
    (∀ u, (S1.fillT KG1.triples_ K).1.has_triple u → u ∈ KG1.triples_) ∧
    (S1.fillT KG1.triples_ K).1.toKnowledgeGraph.triples_.Nodup := by
  refine ⟨?_, ?_, fillT_nodup K KG1.triples_ S1 hnd⟩
  · rw [fillT_count K KG1.triples_ S1 hk hnd]
    congr 2
    exact Finset.union_eq_right.mpr
      (fun x hx => List.mem_toFinset.mpr (hQ x (List.mem_toFinset.mp hx)))
  · exact (fillT_inv K (· ∈ KG1.triples_) KG1.triples_ S1 hk hQ
      (fun u hu => hu)).2.1

/-- A summary inside the graph with the graph's full triple count equals
the graph as a triple set. -/
theorem summary_set_eq (KG : KnowledgeGraph) (S : Summary) (K : ℕ)
    (hsub : ∀ u, S.has_triple u → u ∈ KG.triples_)
    (hndS : S.toKnowledgeGraph.triples_.Nodup) (hndK : KG.triples_.Nodup)
    (hcount : S.number_of_triples = min K KG.number_of_triples)
    (hnK : KG.number_of_triples ≤ K) :
    S.triplesFinset = KG.triplesFinset := by
  unfold KnowledgeGraph.triplesFinset
  apply Finset.eq_of_subset_of_card_le
  · intro x hx
    rw [List.mem_toFinset] at hx ⊢
    exact hsub x hx
  · show KG.triples_.toFinset.card ≤ S.toKnowledgeGraph.triples_.toFinset.card
    rw [List.toFinset_card_of_nodup hndS, List.toFinset_card_of_nodup hndK]
    show KG.number_of_triples ≤ S.number_of_triples
    rw [hcount, min_eq_right hnK]

/-- Claim C2 (amended): for every built graph, workload whose topics are
all recorded entities, power, and random stream, and for every budget K
that does not hit the ZeroDivisionError (K ≥ 1, or epsilon = None so the
sample-size formula is never evaluated), GLIMPSE returns a summary holding
exactly min(K, |graph triples|) triples, and when K covers the whole graph
the summary's triple set equals the graph's. -/
theorem c2_amended (ts : List Triple) (wl : List QueryRec) (K : ℕ)
    (epsLog : Option ℚ) (power : ℕ) (stream : ℕ → ℕ)
    (htop : ∀ q ∈ wl, (buildKG ts).has_entity q.topicEntityMid)
    (hKeps : epsLog = none ∨ 1 ≤ K) :
    ∃ S, GLIMPSE (buildKG ts) K wl epsLog power stream = some S ∧
      S.number_of_triples = min K (buildKG ts).number_of_triples ∧
      ((buildKG ts).number_of_triples ≤ K →
        S.triplesFinset = (buildKG ts).triplesFinset) := by
  have hall : ∀ q ∈ wl, ((buildKG ts).entity_id_ q.topicEntityMid).isSome := by
    intro q hq
    obtain ⟨j, hj⟩ := entity_id_isSome _ _ (htop q hq)
    rw [hj]
    rfl
  obtain ⟨w, hw, _, _⟩ := qv_success (buildKG ts) wl
    (List.replicate (buildKG ts).number_of_entities (some (0 : ℚ))) hall
  have hqv : query_vector (buildKG ts) wl = some w := hw
  obtain ⟨KG1, hm⟩ : ∃ KG1, (buildKG ts).model_user_pref wl power = some KG1 := by
    unfold KnowledgeGraph.model_user_pref
    rw [hqv]
    exact ⟨_, rfl⟩
  have htr : KG1.triples_ = (buildKG ts).triples_ :=
    model_triples_eq _ wl power KG1 hm
  have hcard : KG1.triples_.toFinset.card = (buildKG ts).number_of_triples := by
    rw [htr, List.toFinset_card_of_nodup (buildKG_triples_nodup ts)]
    rfl
  have hfinish : ∀ X : Summary,
      X.number_of_triples = min K KG1.triples_.toFinset.card →
      (∀ u, X.has_triple u → u ∈ KG1.triples_) →
      X.toKnowledgeGraph.triples_.Nodup →
      X.number_of_triples = min K (buildKG ts).number_of_triples ∧
      ((buildKG ts).number_of_triples ≤ K →
        X.triplesFinset = (buildKG ts).triplesFinset) := by
    intro X h1 h2 h3
    have hcnt : X.number_of_triples = min K (buildKG ts).number_of_triples := by
      rw [h1, hcard]
    refine ⟨hcnt, fun hnK => ?_⟩
    exact summary_set_eq (buildKG ts) X K (fun u hu => htr ▸ h2 u hu) h3
      (buildKG_triples_nodup ts) hcnt hnK
  unfold GLIMPSE GLIMPSET
  rw [hm]
  simp only [Option.some_bind]
  by_cases hlen : (Heap.init KG1).length ≤ K
  · rw [if_pos hlen]
    have hA := fillT_inv K (· ∈ KG1.triples_) (Heap.triples (Heap.init KG1))
      (newSummary KG1) (Nat.zero_le K)
      (fun u hu => absurd hu (List.not_mem_nil u))
      (by
        intro u hu
        obtain ⟨it, hit, rfl⟩ := List.mem_map.mp hu
        exact heap_init_pred KG1 it hit)
    have hndA : (((newSummary KG1).fillT (Heap.triples (Heap.init KG1))
        K).1).toKnowledgeGraph.triples_.Nodup :=
      fillT_nodup K _ _ List.nodup_nil
    obtain ⟨c1, c2, c3⟩ := final_fill_facts KG1 K _ hA.1 hndA hA.2.1
    exact ⟨_, rfl, (hfinish _ c1 c2 c3).1, (hfinish _ c1 c2 c3).2⟩
  · rw [if_neg hlen]
    have hbranch : ∀ SS : ℕ,
        (((glimpseLoop K stream SS
          (Heap.update (newSummary KG1) (Heap.init KG1)
            (Heap.init KG1).length stream 0).1.length
          (Heap.update (newSummary KG1) (Heap.init KG1)
            (Heap.init KG1).length stream 0).1
          (newSummary KG1)
          (Heap.update (newSummary KG1) (Heap.init KG1)
            (Heap.init KG1).length stream 0).2).1.fillT
          KG1.triples_ K).1.number_of_triples = min K KG1.triples_.toFinset.card) ∧
        (∀ u, ((glimpseLoop K stream SS
          (Heap.update (newSummary KG1) (Heap.init KG1)
            (Heap.init KG1).length stream 0).1.length
          (Heap.update (newSummary KG1) (Heap.init KG1)
            (Heap.init KG1).length stream 0).1
          (newSummary KG1)
          (Heap.update (newSummary KG1) (Heap.init KG1)
            (Heap.init KG1).length stream 0).2).1.fillT
          KG1.triples_ K).1.has_triple u → u ∈ KG1.triples_) ∧
        ((glimpseLoop K stream SS
          (Heap.update (newSummary KG1) (Heap.init KG1)
            (Heap.init KG1).length stream 0).1.length
          (Heap.update (newSummary KG1) (Heap.init KG1)
            (Heap.init KG1).length stream 0).1
          (newSummary KG1)
          (Heap.update (newSummary KG1) (Heap.init KG1)
            (Heap.init KG1).length stream 0).2).1.fillT
          KG1.triples_ K).1.toKnowledgeGraph.triples_.Nodup := by
      intro SS
      have hupd : ∀ it ∈ (Heap.update (newSummary KG1) (Heap.init KG1)
          (Heap.init KG1).length stream 0).1, it.triple_ ∈ KG1.triples_ :=
        update_pred _ _ _ _ _ _ (heap_init_pred KG1)
      have hloop := glimpseLoop_inv K stream SS (· ∈ KG1.triples_)
        (Heap.update (newSummary KG1) (Heap.init KG1)
          (Heap.init KG1).length stream 0).1.length
        (Heap.update (newSummary KG1) (Heap.init KG1)
          (Heap.init KG1).length stream 0).1
        (newSummary KG1)
        (Heap.update (newSummary KG1) (Heap.init KG1)
          (Heap.init KG1).length stream 0).2
        hupd (Nat.zero_le K) (fun u hu => absurd hu (List.not_mem_nil u))
      have hndl := glimpseLoop_nodup K stream SS
        (Heap.update (newSummary KG1) (Heap.init KG1)
          (Heap.init KG1).length stream 0).1.length
        (Heap.update (newSummary KG1) (Heap.init KG1)
          (Heap.init KG1).length stream 0).1
        (newSummary KG1)
        (Heap.update (newSummary KG1) (Heap.init KG1)
          (Heap.init KG1).length stream 0).2
        List.nodup_nil
      exact final_fill_facts KG1 K _ hloop.1 hndl hloop.2.1
    cases epsLog with
    | none =>
        obtain ⟨c1, c2, c3⟩ := hbranch (Heap.update (newSummary KG1) (Heap.init KG1)
          (Heap.init KG1).length stream 0).1.length
        exact ⟨_, rfl, (hfinish _ c1 c2 c3).1, (hfinish _ c1 c2 c3).2⟩
    | some L =>
        rcases hKeps with hcontra | hK1
        · exact Option.noConfusion hcontra
        · have hKne : K ≠ 0 := Nat.one_le_iff_ne_zero.mp hK1
          rw [glimpseSampleSize_some K _ L hKne]
          obtain ⟨c1, c2, c3⟩ := hbranch (Int.toNat (Int.floor
            (((Heap.update (newSummary KG1) (Heap.init KG1)
              (Heap.init KG1).length stream 0).1.length : ℚ) / (K : ℚ) * L)))
          exact ⟨_, rfl, (hfinish _ c1 c2 c3).1, (hfinish _ c1 c2 c3).2⟩

/-- Claim C2 (counterexample): for K = 0 with a given epsilon, on the
one-triple graph (A,p,B) with a one-query workload at topic A and power 0,
the initial heap is non-empty (the topic's walk mass makes the triple's
score log(1.15) + log(1) + log(1) > 0), so the code reaches
`int(len(heap) / K * log(1/eps))` and raises ZeroDivisionError instead of
returning the empty summary of min(K, |triples|) = 0 triples. -/
theorem c2_counterexample :
    GLIMPSE (buildKG [("A", "p", "B")]) 0 [topicAQuery] (some 7) 0
      (fun _ => 0) = none ∧
    (none : Option Summary) ≠ some (newSummary (buildKG [("A", "p", "B")])) := by
  constructor
  · have hmodel : (buildKG [("A", "p", "B")]).model_user_pref [topicAQuery] 0 =
        some modeledAB := rfl
    unfold GLIMPSE GLIMPSET
    rw [hmodel]
    simp only [Option.some_bind]
    have hp : orPos (orAdd (orAdd (modeledAB.entity_value "A")
        (modeledAB.entity_value "B"))
        (modeledAB.triple_value ("A", "p", "B"))) := by
      show (0 : ℝ) <
        Real.log (((15 / 100 * (0 + 1) : ℚ) : ℝ) + 1) +
          Real.log (((15 / 100 * 0 : ℚ) : ℝ) + 1) +
        Real.log (((15 / 100 * (0 + 1) * (15 / 100 * 0) : ℚ) : ℝ) + 1)
      have h1 : (0 : ℝ) < Real.log (((15 / 100 * (0 + 1) : ℚ) : ℝ) + 1) :=
        Real.log_pos (by push_cast; norm_num)
      have h2 : Real.log (((15 / 100 * 0 : ℚ) : ℝ) + 1) = 0 := by
        norm_num
      have h3 : Real.log (((15 / 100 * (0 + 1) * (15 / 100 * 0) : ℚ) : ℝ) + 1) = 0 := by
        norm_num
      rw [h2, h3]
      linarith
    have hinit : Heap.init modeledAB =
        [⟨("A", "p", "B"), orAdd (orAdd (modeledAB.entity_value "A")
          (modeledAB.entity_value "B"))
          (modeledAB.triple_value ("A", "p", "B"))⟩] := by
      unfold Heap.init
      rw [show modeledAB.triples_ = [("A", "p", "B")] from rfl,
        List.filterMap_cons]
      dsimp only
      rw [if_pos hp, List.filterMap_nil]
    rw [hinit]
    rfl
  · intro h
    exact Option.noConfusion h

/-- Witness for the amended C2 at a concrete input: graph {(A,p,B)}, empty
workload, K = 1, epsilon = None — a summary is returned with
min(1, 1) = 1 triple and, the budget covering the graph, the full triple
set. -/
theorem c2_witness :
    (∀ q ∈ ([] : List QueryRec),
      (buildKG [("A", "p", "B")]).has_entity q.topicEntityMid) ∧
    ((none : Option ℚ) = none ∨ 1 ≤ 1) ∧
    (∃ S, GLIMPSE (buildKG [("A", "p", "B")]) 1 [] none 0 (fun _ => 0) = some S ∧
      S.number_of_triples = min 1 (buildKG [("A", "p", "B")]).number_of_triples ∧
      ((buildKG [("A", "p", "B")]).number_of_triples ≤ 1 →
        S.triplesFinset = (buildKG [("A", "p", "B")]).triplesFinset)) :=
  ⟨by decide, Or.inl rfl,
    c2_amended [("A", "p", "B")] [] 1 none 0 (fun _ => 0) (by decide) (Or.inl rfl)⟩

/-- One unrolling of genLoop through its step function. -/
theorem genLoop_cons_eq (G : KnowledgeGraph) (oracle : ℕ → ℕ) (ex : List String)
    (names : String → Option String) (ci : Option ℕ) (fullChain : List String)
    (p : String) (ps : List String) (index : ℕ) (result : List String) (pos : ℕ) :
    genLoop G oracle ex names ci fullChain (p :: ps) index result pos =
      ((genLoop G oracle ex names ci fullChain ps (index + 1)
          (genStep G oracle ex names ci fullChain p index result pos).1
          (genStep G oracle ex names ci fullChain p index result pos).2.2).1,
       (genStep G oracle ex names ci fullChain p index result pos).2.1 ++
        (genLoop G oracle ex names ci fullChain ps (index + 1)
          (genStep G oracle ex names ci fullChain p index result pos).1
          (genStep G oracle ex names ci fullChain p index result pos).2.2).2.1,
       (genLoop G oracle ex names ci fullChain ps (index + 1)
          (genStep G oracle ex names ci fullChain p index result pos).1
          (genStep G oracle ex names ci fullChain p index result pos).2.2).2.2) := rfl

/-- Every constraint created by one genLoop step carries that hop's index. -/
theorem genStep_index (G : KnowledgeGraph) (oracle : ℕ → ℕ) (ex : List String)
    (names : String → Option String) (ci : Option ℕ) (fullChain : List String)
    (p : String) (index : ℕ) (result : List String) (pos : ℕ) :
    ∀ c ∈ (genStep G oracle ex names ci fullChain p index result pos).2.1,
      c.sourceNodeIndex = index := by
  intro c hc
  simp only [genStep] at hc
  by_cases h1 : (!(hopCandidates G result p).isEmpty && ci == some index) = true
  · rw [if_pos h1] at hc
    by_cases h2 : (!(if G.isHead (chooseL (hopCandidates G result p) (oracle pos)) then
        (G.headPreds (chooseL (hopCandidates G result p) (oracle pos))).filter
          (fun q => !(fullChain.contains q) && !(ex.contains q))
      else []).isEmpty) = true
    · rw [if_pos h2] at hc
      by_cases h3 : (!(G.nbrsList (chooseL (hopCandidates G result p) (oracle pos))
          (chooseL (if G.isHead (chooseL (hopCandidates G result p) (oracle pos)) then
            (G.headPreds (chooseL (hopCandidates G result p) (oracle pos))).filter
              (fun q => !(fullChain.contains q) && !(ex.contains q))
          else []) (oracle (pos + 1)))).isEmpty) = true
      · rw [if_pos h3] at hc
        rw [List.mem_singleton.mp hc]
      · rw [if_neg h3] at hc
        exact absurd hc (List.not_mem_nil c)
    · rw [if_neg h2] at hc
      exact absurd hc (List.not_mem_nil c)
  · rw [if_neg h1] at hc
    exact absurd hc (List.not_mem_nil c)

/-- A one-constraint list tests exactly that constraint. -/
theorem any_singleton_fails (G : KnowledgeGraph) (c0 : ConstraintRec) (e : String) :
    (([c0] : List ConstraintRec).any
      (fun c => failsConstraint G c.nodePredicate c.argument e)) =
    failsConstraint G c0.nodePredicate c0.argument e := by
  simp

/-- answer_query's hop under a single constraint is generate_query's
constraint filter. -/
theorem hopStep_singleton (G : KnowledgeGraph) (c0 : ConstraintRec)
    (result : List String) (p : String) :
    hopStep G [c0] result p =
      applyGenConstraint G c0.nodePredicate c0.argument (hopCandidates G result p) := by
  simp only [hopStep, applyGenConstraint]
  rw [List.filter_congr (fun e _ => any_singleton_fails G c0 e)]

/-- answer_query's hop under no constraint keeps every candidate. -/
theorem hopStep_nil (G : KnowledgeGraph) (result : List String) (p : String) :
    hopStep G [] result p = hopCandidates G result p := by
  simp only [hopStep]
  have h0 : (hopCandidates G result p).filter (fun e =>
      ([] : List ConstraintRec).any
        (fun c => failsConstraint G c.nodePredicate c.argument e)) = [] :=
    List.filter_eq_nil_iff.mpr (fun a _ => by simp)
  rw [h0]
  exact List.filter_eq_self.mpr (fun a _ => rfl)

/-- Replaying one genLoop step with exactly its created constraints through
answer_query's hop gives the same candidate set. -/
theorem genStep_hop (G : KnowledgeGraph) (oracle : ℕ → ℕ) (ex : List String)
    (names : String → Option String) (ci : Option ℕ) (fullChain : List String)
    (p : String) (index : ℕ) (result : List String) (pos : ℕ) :
    hopStep G (genStep G oracle ex names ci fullChain p index result pos).2.1
      result p = (genStep G oracle ex names ci fullChain p index result pos).1 := by
  simp only [genStep]
  by_cases h1 : (!(hopCandidates G result p).isEmpty && ci == some index) = true
  · rw [if_pos h1]
    by_cases h2 : (!(if G.isHead (chooseL (hopCandidates G result p) (oracle pos)) then
        (G.headPreds (chooseL (hopCandidates G result p) (oracle pos))).filter
          (fun q => !(fullChain.contains q) && !(ex.contains q))
      else []).isEmpty) = true
    · rw [if_pos h2]
      by_cases h3 : (!(G.nbrsList (chooseL (hopCandidates G result p) (oracle pos))
          (chooseL (if G.isHead (chooseL (hopCandidates G result p) (oracle pos)) then
            (G.headPreds (chooseL (hopCandidates G result p) (oracle pos))).filter
              (fun q => !(fullChain.contains q) && !(ex.contains q))
          else []) (oracle (pos + 1)))).isEmpty) = true
      · rw [if_pos h3]
        dsimp only
        rw [hopStep_singleton]
      · rw [if_neg h3]
        exact hopStep_nil G result p
    · rw [if_neg h2]
      exact hopStep_nil G result p
  · rw [if_neg h1]
    exact hopStep_nil G result p

/-- Every constraint created by genLoop from hop `index` on carries a hop
index at least `index`. -/
theorem genLoop_indexes (G : KnowledgeGraph) (oracle : ℕ → ℕ) (ex : List String)
    (names : String → Option String) (ci : Option ℕ) (fullChain : List String) :
    ∀ (ps : List String) (index : ℕ) (result : List String) (pos : ℕ),
      ∀ c ∈ (genLoop G oracle ex names ci fullChain ps index result pos).2.1,
        index ≤ c.sourceNodeIndex := by
  intro ps
  induction ps with
  | nil => intro index result pos c hc; exact absurd hc (List.not_mem_nil c)
  | cons p ps ih =>
      intro index result pos c hc
      rw [genLoop_cons_eq] at hc
      rcases List.mem_append.mp hc with h1 | h1
      · rw [genStep_index G oracle ex names ci fullChain p index result pos c h1]
      · exact Nat.le_of_succ_le (ih (index + 1) _ _ c h1)

/-- Replaying the full chain through answer_query's hop loop with the
generated constraints (plus any earlier-hop prefix) reproduces genLoop's
final candidate set. -/
theorem gen_ans (G : KnowledgeGraph) (oracle : ℕ → ℕ) (ex : List String)
    (names : String → Option String) (ci : Option ℕ) (fullChain : List String) :
    ∀ (ps : List String) (index : ℕ) (result : List String) (pos : ℕ)
      (pre : List ConstraintRec),
      (∀ c ∈ pre, c.sourceNodeIndex < index) →
      ansLoop G (pre ++ (genLoop G oracle ex names ci fullChain ps index result pos).2.1)
        ps index result =
        (genLoop G oracle ex names ci fullChain ps index result pos).1 := by
  intro ps
  induction ps with
  | nil => intro index result pos pre hpre; rfl
  | cons p ps ih =>
      intro index result pos pre hpre
      rw [genLoop_cons_eq]
      show ansLoop G _ ps (index + 1) (hopStep G (List.filter _ _) result p) = _
      have hfilter : (pre ++ ((genStep G oracle ex names ci fullChain p index result
          pos).2.1 ++ (genLoop G oracle ex names ci fullChain ps (index + 1)
          (genStep G oracle ex names ci fullChain p index result pos).1
          (genStep G oracle ex names ci fullChain p index result pos).2.2).2.1)).filter
          (fun c => c.sourceNodeIndex == index) =
          (genStep G oracle ex names ci fullChain p index result pos).2.1 := by
        rw [List.filter_append, List.filter_append]
        rw [List.filter_eq_nil_iff.mpr (fun c hc => by
          simp only [beq_eq_false_iff_ne, ne_eq, Bool.not_eq_true, beq_iff_eq]
          exact Nat.ne_of_lt (hpre c hc))]
        rw [List.filter_eq_self.mpr (fun c hc => by
          rw [genStep_index G oracle ex names ci fullChain p index result pos c hc]
          exact beq_self_eq_true index)]
        rw [List.filter_eq_nil_iff.mpr (fun c hc => by
          simp only [beq_eq_false_iff_ne, ne_eq, Bool.not_eq_true, beq_iff_eq]
          have := genLoop_indexes G oracle ex names ci fullChain ps (index + 1) _ _ c hc
          omega)]
        rw [List.nil_append, List.append_nil]
      rw [hfilter, genStep_hop]
      have hassoc : pre ++ ((genStep G oracle ex names ci fullChain p index result
          pos).2.1 ++ (genLoop G oracle ex names ci fullChain ps (index + 1)
          (genStep G oracle ex names ci fullChain p index result pos).1
          (genStep G oracle ex names ci fullChain p index result pos).2.2).2.1) =
          (pre ++ (genStep G oracle ex names ci fullChain p index result pos).2.1) ++
          (genLoop G oracle ex names ci fullChain ps (index + 1)
            (genStep G oracle ex names ci fullChain p index result pos).1
            (genStep G oracle ex names ci fullChain p index result pos).2.2).2.1 :=
        (List.append_assoc _ _ _).symm
      rw [hassoc]
      exact ih (index + 1) _ _
        (pre ++ (genStep G oracle ex names ci fullChain p index result pos).2.1)
        (by
          intro c hc
          rcases List.mem_append.mp hc with h1 | h1
          · exact Nat.lt_succ_of_lt (hpre c h1)
          · rw [genStep_index G oracle ex names ci fullChain p index result pos c h1]
            exact Nat.lt_succ_self index)

/-- Extracting AnswerArgument undoes any answer-record construction that
stores the candidate there. -/
theorem map_answer_arg (l : List String) (f : String → AnswerRec)
    (hf : ∀ a, (f a).answerArgument = a) :
    l.map ((fun x : AnswerRec => x.answerArgument) ∘ f) = l := by
  induction l with
  | nil => rfl
  | cons x l ihl =>
      rw [List.map_cons, ihl]
      show (f x).answerArgument :: l = x :: l
      rw [hf x]

/-- Claim C9: for every graph, topic entity, chain length, constraint
placement, exclusion list, name table, entity test and random stream, the
query built by generate_query is self-consistent — answer_query on the
same graph returns exactly the AnswerArgument list recorded in its gold
answers. -/
theorem c9_consistency (G : KnowledgeGraph) (isEnt : String → Bool)
    (oracle : ℕ → ℕ) (topic : String) (chain_len qid : ℕ)
    (names : String → Option String) (ci : Option ℕ) (ex : List String) :
    answer_query G (generate_query G isEnt oracle topic chain_len qid names ci ex) =
      recordedAnswers
        (generate_query G isEnt oracle topic chain_len qid names ci ex) := by
  unfold answer_query generate_query recordedAnswers
  dsimp only
  rw [List.map_map, map_answer_arg _ _ (fun a => rfl)]
  congr 1
  have := gen_ans G oracle ex names ci
    (buildChain G oracle ex chain_len topic 0).1
    (buildChain G oracle ex chain_len topic 0).1 0 [topic]
    (buildChain G oracle ex chain_len topic 0).2 []
    (fun c hc => absurd hc (List.not_mem_nil c))
  rw [List.nil_append] at this
  exact this

/-- _move_to_top keeps the number of heap items. -/
theorem swapLast_length (h : List HeapItem) (i : ℕ) :
    (swapLast h i).length = h.length := by
  unfold swapLast
  rw [List.length_set, List.length_set]

/-- The recompute-and-argmax fold of Heap.update keeps the heap length. -/
theorem update_fold_length (S : Summary) :
    ∀ (indices : List ℕ) (st : List HeapItem × ℕ),
      (indices.foldl (fun st i =>
        let hh := st.1
        let it := hh.getD i default
        let hh2 := if S.has_entity it.triple_.1 ∨ S.has_entity it.triple_.2.2
                   then writeVal hh i (S.marginal_value it.triple_) else hh
        let am2 := if orLt (valueAt hh2 st.2) (valueAt hh2 i) then i else st.2
        (hh2, am2)) st).1.length = st.1.length := by
  intro indices
  induction indices with
  | nil => intro st; rfl
  | cons i idxs ih =>
      intro st
      rw [List.foldl_cons]
      exact (ih _).trans (ite_length _ _ _ (writeVal_length _ _ _) rfl)

/-- Heap.update never changes the heap length. -/
theorem update_length (S : Summary) (h : List HeapItem) (sample_size : ℕ)
    (stream : ℕ → ℕ) (pos : ℕ) :
    ((Heap.update S h sample_size stream pos).1).length = h.length := by
  simp only [Heap.update]
  by_cases hc : h.length ≤ 1 ∨ min h.length sample_size = 0
  · rw [if_pos hc]
  · rw [if_neg hc]
    by_cases heq : tripleAt
        (lazyGreedy S h (Heap.sampleIndices h sample_size stream pos)).1
        (lazyGreedy S h (Heap.sampleIndices h sample_size stream pos)).2.1 =
        tripleAt (lazyGreedy S h (Heap.sampleIndices h sample_size stream pos)).1
        (lazyGreedy S h (Heap.sampleIndices h sample_size stream pos)).2.2
    · rw [if_pos heq]
      exact (swapLast_length _ _).trans (writeVal_length h _ _)
    · rw [if_neg heq]
      exact (swapLast_length _ _).trans
        ((update_fold_length S _ _).trans (writeVal_length h _ _))

/-- Claim C6 (amended): the candidate sample of every Heap.update call —
hence of every selection-loop iteration — consists of exactly
min(n_cur, s) indices, each below the current heap length n_cur; when the
clamped size falls short of n_cur the k-th index is the independent stream
draw at position pos+k reduced mod n_cur (with replacement, so repetitions
are possible), and when s ≥ n_cur the sample is np.arange(n_cur), the
whole current candidate range.  The sample size s is computed once before
the loop from the heap size n0 at loop entry: s = n0 for epsilon None, and
for a given epsilon with K ≥ 1 the truncation s ≤ n0/K·log(1/eps) < s + 1
(int() floors the non-negative value, not the ceiling).  Heap.update never
changes the heap length, so with one pop per iteration every later n_cur
is at most n0 and the epsilon-None sample is always the whole candidate
set. -/
theorem c6_amended (h : List HeapItem) (sample_size : ℕ) (stream : ℕ → ℕ)
    (pos : ℕ) (S : Summary) (K n0 : ℕ) (L : ℚ) :
    (Heap.sampleIndices h sample_size stream pos).length =
      min h.length sample_size ∧
    (∀ i ∈ Heap.sampleIndices h sample_size stream pos, i < h.length) ∧
    (min h.length sample_size < h.length →
      Heap.sampleIndices h sample_size stream pos =
        randintDraws stream pos h.length (min h.length sample_size)) ∧
    (∀ (n size k : ℕ), k < size →
      (randintDraws stream pos n size)[k]? = some (stream (pos + k) % n)) ∧
    (h.length ≤ sample_size →
      Heap.sampleIndices h sample_size stream pos = List.range h.length) ∧
    (∀ (ss2 pos2 : ℕ), ((Heap.update S h ss2 stream pos2).1).length = h.length) ∧
    glimpseSampleSize none K n0 = some n0 ∧
    (1 ≤ K → 0 ≤ L → ∃ s, glimpseSampleSize (some L) K n0 = some s ∧
      (s : ℚ) ≤ (n0 : ℚ) / (K : ℚ) * L ∧ (n0 : ℚ) / (K : ℚ) * L < (s : ℚ) + 1) := by
  refine ⟨?_, ?_, ?_, ?_, ?_, fun ss2 pos2 => update_length S h ss2 stream pos2,
    rfl, ?_⟩
  · unfold Heap.sampleIndices
    by_cases hm : min h.length sample_size < h.length
    · rw [if_pos hm]
      unfold randintDraws
      rw [List.length_map, List.length_range]
    · rw [if_neg hm, List.length_range]
      exact (Nat.le_antisymm (Nat.min_le_left _ _) (Nat.le_of_not_lt hm)).symm
  · unfold Heap.sampleIndices
    by_cases hm : min h.length sample_size < h.length
    · rw [if_pos hm]
      intro i hi
      obtain ⟨k, _, rfl⟩ := List.mem_map.mp hi
      exact Nat.mod_lt _ (Nat.lt_of_le_of_lt (Nat.zero_le _) hm)
    · rw [if_neg hm]
      intro i hi
      exact List.mem_range.mp hi
  · intro hm
    unfold Heap.sampleIndices
    rw [if_pos hm]
  · intro n size k hk
    unfold randintDraws
    rw [List.getElem?_map, List.getElem?_range hk]
    rfl
  · intro hss
    unfold Heap.sampleIndices
    rw [if_neg (by
      rw [Nat.min_eq_left hss]
      exact lt_irrefl h.length)]
  · intro hK hL
    rw [glimpseSampleSize_some K n0 L (Nat.one_le_iff_ne_zero.mp hK)]
    have hval : (0 : ℚ) ≤ (n0 : ℚ) / (K : ℚ) * L :=
      mul_nonneg (div_nonneg (Nat.cast_nonneg n0) (Nat.cast_nonneg K)) hL
    have hfl : (0 : ℤ) ≤ Int.floor ((n0 : ℚ) / (K : ℚ) * L) :=
      Int.floor_nonneg.mpr hval
    have hcast : ((Int.toNat (Int.floor ((n0 : ℚ) / (K : ℚ) * L)) : ℕ) : ℚ) =
        ((Int.floor ((n0 : ℚ) / (K : ℚ) * L) : ℤ) : ℚ) := by
      rw [← Int.cast_natCast, Int.toNat_of_nonneg hfl]
    refine ⟨_, rfl, ?_, ?_⟩
    · rw [hcast]
      exact Int.floor_le _
    · rw [hcast]
      exact Int.lt_floor_add_one _

/-- Witness for the amended C6 at concrete inputs: on a 3-item heap,
requested size 2 draws randint samples, requested size 5 takes the whole
range; the first draw is the stream value mod 3; and the sample size for
epsilon with log(1/eps) = 2, K = 2, n0 = 7 is the truncation of 7. -/
theorem c6_witness :
    (min 3 2 < 3 ∧
      Heap.sampleIndices (List.replicate 3 default) 2 (fun _ => 1) 0 =
        randintDraws (fun _ => 1) 0 3 2) ∧
    (3 ≤ 5 ∧
      Heap.sampleIndices (List.replicate 3 default) 5 (fun _ => 1) 0 =
        List.range 3) ∧
    (0 < 2 ∧ (randintDraws (fun _ => 1) 0 3 2)[0]? = some (1 % 3)) ∧
    (1 ≤ 2 ∧ (0 : ℚ) ≤ 2 ∧ ∃ s, glimpseSampleSize (some 2) 2 7 = some s ∧
      (s : ℚ) ≤ (7 : ℚ) / (2 : ℚ) * 2 ∧ (7 : ℚ) / (2 : ℚ) * 2 < (s : ℚ) + 1) :=
  ⟨⟨by decide, (c6_amended (List.replicate 3 default) 2 (fun _ => 1) 0
      (newSummary emptyKG) 2 7 2).2.2.1 (by decide)⟩,
   ⟨by decide, (c6_amended (List.replicate 3 default) 5 (fun _ => 1) 0
      (newSummary emptyKG) 2 7 2).2.2.2.2.1 (by decide)⟩,
   ⟨by decide, (c6_amended (List.replicate 3 default) 2 (fun _ => 1) 0
      (newSummary emptyKG) 2 7 2).2.2.2.1 3 2 0 (by decide)⟩,
   ⟨by decide, by norm_num, (c6_amended (List.replicate 3 default) 2 (fun _ => 1) 0
      (newSummary emptyKG) 2 7 2).2.2.2.2.2.2.2 (by decide) (by norm_num)⟩⟩

end GlimpseKG
